import Mathlib

/-!
# Route manager (`go-controller/pkg/node/routemanager/route_manager.go`)

A shallow embedding of the route manager controller and a verification of its
specification.

* Go values are modelled by value: `net.IP` is a byte slice that may be nil,
  `*net.IPNet` is an optional subnet, Go `int` fields are `Int`.
* The controller's `store map[int][]netlink.Route` is a finite map presented as a
  function from link index to an optional list of routes.
* The kernel routing gateway (`util.GetNetLinkOps()`) is an arbitrary state machine
  `NetLinkOps K`; every operation of the controller threads a `World K` that carries
  the kernel state and the log of gateway calls issued so far.
* A nil-pointer dereference is the outcome `Res.panic`.
-/

namespace RouteManager

/-! ## Data model -/

/-- Go `net.IP`: a slice of bytes; `none` is the nil slice. -/
abbrev IP := Option (List Nat)

/-- Go `len(ip)`. -/
def IP.len : IP → Nat
  | none => 0
  | some bs => bs.length

/-- The bytes of the slice (none for the nil slice). -/
def IP.bytes : IP → List Nat
  | none => []
  | some bs => bs

/-- Go `net.v4InV6Prefix`. -/
def v4InV6Prefix : List Nat := [0, 0, 0, 0, 0, 0, 0, 0, 0, 0, 0xff, 0xff]

/-- Go `net.IP.Equal`: equal slices, or an IPv4 address and its IPv4-in-IPv6 form. -/
def IP.Equal (ip x : IP) : Bool :=
  if IP.len ip = IP.len x then
    IP.bytes ip == IP.bytes x
  else if IP.len ip = 4 ∧ IP.len x = 16 then
    (IP.bytes x).take 12 == v4InV6Prefix && IP.bytes ip == (IP.bytes x).drop 12
  else if IP.len ip = 16 ∧ IP.len x = 4 then
    (IP.bytes ip).take 12 == v4InV6Prefix && (IP.bytes ip).drop 12 == IP.bytes x
  else
    false

/-- Go `net.IP.To4`: the 4-byte form of an IPv4 address, nil otherwise. -/
def IP.To4 (ip : IP) : IP :=
  if IP.len ip = 4 then ip
  else if IP.len ip = 16 ∧ (IP.bytes ip).take 12 == v4InV6Prefix then
    some ((IP.bytes ip).drop 12)
  else none

/-- Go `net.IP.To16`: the 16-byte form of an address of 4 or 16 bytes, nil otherwise. -/
def IP.To16 (ip : IP) : IP :=
  if IP.len ip = 4 then some (v4InV6Prefix ++ IP.bytes ip)
  else if IP.len ip = 16 then ip
  else none

/-- The function `IsIPv6` of `k8s.io/utils/net`, `IPFamilyOf(netIP) == IPv6`: `To4` gives
nil and `To16` does not. An address whose length is neither 4 nor 16, the nil and the
empty slice included, is of no family and is not IPv6. -/
def IsIPv6 (netIP : IP) : Bool :=
  (IP.To4 netIP).isNone && (IP.To16 netIP).isSome

/-- Go `net.IPNet`; the mask is a byte slice. -/
structure IPNet where
  IP : IP
  Mask : List Nat
deriving DecidableEq, Repr

/-- Inner loop of Go `net.simpleMaskLength`: count the leading one bits of the byte `v`
(at most eight shifts), returning the count and what is left of the byte. -/
def leadingOnes : Nat → Nat → Nat → Nat × Nat
  | 0, v, n => (n, v)
  | fuel + 1, v, n =>
    if v % 256 / 128 = 1 then leadingOnes fuel (v * 2 % 256) (n + 1) else (n, v)

/-- Go `net.simpleMaskLength`: number of leading ones of a mask made of ones followed by
zeros, `-1` for any other mask. -/
def simpleMaskLength : List Nat → Int
  | [] => 0
  | v :: rest =>
    if v = 0xff then
      match simpleMaskLength rest with
      | Int.negSucc _ => -1
      | Int.ofNat n => Int.ofNat (n + 8)
    else
      let p := leadingOnes 8 v 0
      if p.2 ≠ 0 then -1
      else if rest.all (fun b => b == 0) then Int.ofNat p.1 else -1

/-- The first result of Go `net.IPMask.Size`: the number of leading ones, `0` when the
mask is not in canonical form. -/
def IPMask.SizeOnes (m : List Nat) : Int :=
  if simpleMaskLength m = -1 then 0 else simpleMaskLength m

/-- Modelled from the spec: `util.IsIPNetEqual` of package `go-controller/pkg/util`, whose
source is not part of the files under study. The spec calls the comparison of destination
subnets prefix-equal: two absent subnets are equal, an absent and a present one are not,
and two present subnets are equal when their prefix lengths agree and their addresses are
equal as IPs. -/
def IsIPNetEqual (ipn1 ipn2 : Option IPNet) : Bool :=
  match ipn1, ipn2 with
  | none, none => true
  | none, some _ => false
  | some _, none => false
  | some n1, some n2 =>
    IPMask.SizeOnes n1.Mask == IPMask.SizeOnes n2.Mask && IP.Equal n1.IP n2.IP

/-- The fields of `netlink.Route` that the controller reads or writes, together with
`ILinkIndex`, `Protocol`, `Family` and `Tos`, which stand for the fields it never
touches. `Type_` is the Go field `Type`. -/
structure Route where
  LinkIndex : Int
  ILinkIndex : Int
  Scope : Nat
  Dst : Option IPNet
  Src : IP
  Gw : IP
  Protocol : Int
  Priority : Int
  Family : Int
  Table : Int
  Type_ : Int
  Tos : Int
  Flags : Int
  MTU : Int
deriving DecidableEq, Repr

/-- The Go zero value `netlink.Route{}`. -/
def Route.zero : Route :=
  { LinkIndex := 0, ILinkIndex := 0, Scope := 0, Dst := none, Src := none, Gw := none,
    Protocol := 0, Priority := 0, Family := 0, Table := 0, Type_ := 0, Tos := 0,
    Flags := 0, MTU := 0 }

/-- Go `netlink.RouteUpdate`: a notification kind and the affected route. -/
structure RouteUpdate where
  Type_ : Nat
  Route : Route
deriving DecidableEq, Repr

/-- MainTableID is the default routing table. -/
def MainTableID : Int := 254

/-- Constant `netlink.SCOPE_UNIVERSE`. -/
def SCOPE_UNIVERSE : Nat := 0
/-- Constant `netlink.FAMILY_ALL`. -/
def FAMILY_ALL : Int := 0
/-- Constant `netlink.FAMILY_V4`. -/
def FAMILY_V4 : Int := 2
/-- Constant `netlink.FAMILY_V6`. -/
def FAMILY_V6 : Int := 10
/-- Constant `netlink.RT_FILTER_OIF`. -/
def RT_FILTER_OIF : Nat := 64
/-- Constant `netlink.RT_FILTER_DST`. -/
def RT_FILTER_DST : Nat := 128
/-- Constant `netlink.RT_FILTER_TABLE`. -/
def RT_FILTER_TABLE : Nat := 1024
/-- Constant `unix.RTM_NEWROUTE`. -/
def RTM_NEWROUTE : Nat := 24
/-- Constant `unix.RTM_DELROUTE`. -/
def RTM_DELROUTE : Nat := 25

/-- RoutePartiallyEqual compares a limited set of route attributes. -/
def RoutePartiallyEqual (r x : Route) : Bool :=
  r.LinkIndex == x.LinkIndex &&
  IsIPNetEqual r.Dst x.Dst &&
  IP.Equal r.Src x.Src &&
  IP.Equal r.Gw x.Gw &&
  r.Table == x.Table &&
  r.Flags == x.Flags &&
  r.MTU == x.MTU &&
  r.Type_ == x.Type_ &&
  r.Priority == x.Priority &&
  r.Scope == x.Scope

/-! ## The kernel routing gateway -/

/-- A Go `error` value: an error produced by the gateway, a fresh error message, or an
error wrapped by `fmt.Errorf` (only the fixed part of the message is kept). -/
inductive Error where
  | kernel (errno : Nat)
  | text (msg : String)
  | wrap (msg : String) (cause : Error)
deriving DecidableEq, Repr

/-- One entry of the call log. The first five are the calls made on the kernel routing
gateway; `ApplyRoute` is a ghost entry written when `applyRoute` is entered, recording
the arguments it was given. -/
inductive Call where
  | LinkByIndex (index : Int)
  | RouteListFiltered (family : Int) (filter : Route) (filterMask : Nat)
  | RouteAdd (route : Route)
  | RouteReplace (route : Route)
  | RouteDel (route : Route)
  | ApplyRoute (linkIndex : Int) (gwIP : IP) (subnet : Option IPNet) (mtu : Int) (src : IP)
      (table priority rtype : Int) (scope : Nat)
deriving DecidableEq, Repr

/-- Whether a log entry is a call on the kernel routing gateway. -/
def Call.isKernel : Call → Bool
  | Call.ApplyRoute _ _ _ _ _ _ _ _ _ => false
  | _ => true

/-- The interface returned by `util.GetNetLinkOps()`, as a state machine over an
arbitrary kernel state `K`: every call may observe and change the kernel. An error
result of `none` is Go's `nil`. The link returned by `LinkByIndex` is discarded by
every caller and is not modelled. -/
structure NetLinkOps (K : Type) where
  LinkByIndex : K → Int → Option Error × K
  IsLinkNotFoundError : Error → Bool
  RouteListFiltered : K → Int → Route → Nat → Except Error (List Route) × K
  RouteAdd : K → Route → Option Error × K
  RouteReplace : K → Route → Option Error × K
  RouteDel : K → Route → Option Error × K

/-- The kernel state together with the log of calls issued so far. -/
structure World (K : Type) where
  kernel : K
  calls : List Call

/-- Outcome of a controller function that returns a Go `error`: `ok` is `nil`, `panic`
is a run-time panic (nil pointer dereference). -/
inductive Res where
  | ok
  | err (e : Error)
  | panic
deriving DecidableEq, Repr

variable {K : Type}

/-- Call `LinkByIndex` on the gateway and log it. -/
def LinkByIndex (ops : NetLinkOps K) (index : Int) (w : World K) : Option Error × World K :=
  ((ops.LinkByIndex w.kernel index).1,
   { kernel := (ops.LinkByIndex w.kernel index).2,
     calls := w.calls ++ [Call.LinkByIndex index] })

/-- Call `RouteListFiltered` on the gateway and log it. -/
def RouteListFiltered (ops : NetLinkOps K) (family : Int) (filter : Route) (filterMask : Nat)
    (w : World K) : Except Error (List Route) × World K :=
  ((ops.RouteListFiltered w.kernel family filter filterMask).1,
   { kernel := (ops.RouteListFiltered w.kernel family filter filterMask).2,
     calls := w.calls ++ [Call.RouteListFiltered family filter filterMask] })

/-- Call `RouteAdd` on the gateway and log it. -/
def RouteAdd (ops : NetLinkOps K) (route : Route) (w : World K) : Option Error × World K :=
  ((ops.RouteAdd w.kernel route).1,
   { kernel := (ops.RouteAdd w.kernel route).2, calls := w.calls ++ [Call.RouteAdd route] })

/-- Call `RouteReplace` on the gateway and log it. -/
def RouteReplace (ops : NetLinkOps K) (route : Route) (w : World K) : Option Error × World K :=
  ((ops.RouteReplace w.kernel route).1,
   { kernel := (ops.RouteReplace w.kernel route).2,
     calls := w.calls ++ [Call.RouteReplace route] })

/-- Call `RouteDel` on the gateway and log it. -/
def RouteDel (ops : NetLinkOps K) (route : Route) (w : World K) : Option Error × World K :=
  ((ops.RouteDel w.kernel route).1,
   { kernel := (ops.RouteDel w.kernel route).2, calls := w.calls ++ [Call.RouteDel route] })

/-- The recurring fragment `if linkIndex != 0 { _, err := LinkByIndex(linkIndex) ... }`:
the lookup is made only for a non-zero link index. -/
def lookupLink (ops : NetLinkOps K) (linkIndex : Int) (w : World K) : Option Error × World K :=
  if linkIndex ≠ 0 then LinkByIndex ops linkIndex w else (none, w)

/-! ## Applier -/

/-- Function `getNetlinkIPFamily`; `none` is the panic raised by reading `ipNet.IP`
through a nil pointer. -/
def getNetlinkIPFamily (ipNet : Option IPNet) : Option Int :=
  match ipNet with
  | none => none
  | some n => if IsIPv6 n.IP then some FAMILY_V6 else some FAMILY_V4

/-- Function `filterRouteByDstAndTable`. The three flags have disjoint bits, so their
bitwise or is their sum. -/
def filterRouteByDstAndTable (linkIndex : Int) (subnet : Option IPNet) (table : Int) :
    Route × Nat :=
  ({ Route.zero with Dst := subnet, LinkIndex := linkIndex, Table := table },
   RT_FILTER_DST + RT_FILTER_OIF + RT_FILTER_TABLE)

/-- The route object `newNlRoute` that `netlinkAddRoute` builds for the create request. -/
def newNlRoute (linkIndex : Int) (gwIP : IP) (subnet : Option IPNet) (mtu : Int) (srcIP : IP)
    (table priority rtype : Int) (scope : Nat) : Route :=
  let r0 : Route :=
    { Route.zero with Dst := subnet, LinkIndex := linkIndex, Scope := SCOPE_UNIVERSE,
                      Table := table }
  let r1 : Route := if IP.len gwIP > 0 then { r0 with Gw := gwIP } else r0
  let r2 : Route := if IP.len srcIP > 0 then { r1 with Src := srcIP } else r1
  let r3 : Route := if mtu ≠ 0 then { r2 with MTU := mtu } else r2
  let r4 : Route := if priority ≠ 0 then { r3 with Priority := priority } else r3
  let r5 : Route := if rtype ≠ 0 then { r4 with Type_ := rtype } else r4
  if scope ≠ 0 then { r5 with Scope := scope } else r5

/-- Method `Controller.netlinkAddRoute`. -/
def netlinkAddRoute (ops : NetLinkOps K) (linkIndex : Int) (gwIP : IP) (subnet : Option IPNet)
    (mtu : Int) (srcIP : IP) (table priority rtype : Int) (scope : Nat) (w : World K) :
    Res × World K :=
  let a := RouteAdd ops (newNlRoute linkIndex gwIP subnet mtu srcIP table priority rtype scope) w
  match a.1 with
  | some err => (Res.err (Error.wrap "failed to add route" err), a.2)
  | none => (Res.ok, a.2)

/-- Method `Controller.applyRoute`. The address family is computed before the gateway is
called, so an absent subnet panics with no kernel call made. -/
def applyRoute (ops : NetLinkOps K) (linkIndex : Int) (gwIP : IP) (subnet : Option IPNet)
    (mtu : Int) (src : IP) (table priority rtype : Int) (scope : Nat) (w : World K) :
    Res × World K :=
  let w0 : World K :=
    { w with calls := w.calls ++
        [Call.ApplyRoute linkIndex gwIP subnet mtu src table priority rtype scope] }
  match getNetlinkIPFamily subnet with
  | none => (Res.panic, w0)
  | some family =>
    let l := RouteListFiltered ops family (filterRouteByDstAndTable linkIndex subnet table).1
      (filterRouteByDstAndTable linkIndex subnet table).2 w0
    match l.1 with
    | Except.error err => (Res.err (Error.wrap "failed to list filtered routes" err), l.2)
    | Except.ok [] =>
      netlinkAddRoute ops linkIndex gwIP subnet mtu src table priority rtype scope l.2
    | Except.ok (netlinkRoute :: _) =>
      if netlinkRoute.MTU != mtu || !IP.Equal src netlinkRoute.Src ||
          !IP.Equal gwIP netlinkRoute.Gw then
        let p := RouteReplace ops { netlinkRoute with MTU := mtu, Src := src, Gw := gwIP } l.2
        match p.1 with
        | some err => (Res.err (Error.wrap "failed to replace route" err), p.2)
        | none => (Res.ok, p.2)
      else (Res.ok, l.2)

/-- The loop of `netlinkDelRoute`: delete each listed route, stop at the first error. -/
def delRoutes (ops : NetLinkOps K) : List Route → World K → Option Error × World K
  | [], w => (none, w)
  | existingRoute :: rest, w =>
    match (RouteDel ops existingRoute w).1 with
    | some err => (some err, (RouteDel ops existingRoute w).2)
    | none => delRoutes ops rest (RouteDel ops existingRoute w).2

/-- Method `Controller.netlinkDelRoute`. -/
def netlinkDelRoute (ops : NetLinkOps K) (linkIndex : Int) (subnet : Option IPNet) (table : Int)
    (w : World K) : Option Error × World K :=
  match subnet with
  | none => (some (Error.text "cannot delete route with no valid subnet"), w)
  | some _ =>
    let l := RouteListFiltered ops FAMILY_ALL (filterRouteByDstAndTable linkIndex subnet table).1
      (filterRouteByDstAndTable linkIndex subnet table).2 w
    match l.1 with
    | Except.error err => (some (Error.wrap "failed to get routes for link" err), l.2)
    | Except.ok existingRoutes => delRoutes ops existingRoutes l.2

/-! ## Desired-state store -/

/-- The field `store map[int][]netlink.Route`: the key is the link index. -/
abbrev Store := Int → Option (List Route)

/-- The empty map made by `NewController`. -/
def Store.empty : Store := fun _ => none

/-- Go `c.store[k] = v`. -/
def Store.set (c : Store) (k : Int) (v : List Route) : Store :=
  fun i => if i = k then some v else c i

/-- Go `delete(c.store, k)`. -/
def Store.delete (c : Store) (k : Int) : Store :=
  fun i => if i = k then none else c i

/-- Method `Controller.addRouteToStore`: the new store and whether the route was added. -/
def addRouteToStore (c : Store) (r : Route) : Store × Bool :=
  match c r.LinkIndex with
  | none => (Store.set c r.LinkIndex [r], true)
  | some existingRoutes =>
    if existingRoutes.any (fun existingRoute => RoutePartiallyEqual existingRoute r) then
      (c, false)
    else
      (Store.set c r.LinkIndex (existingRoutes ++ [r]), true)

/-! ## Public API -/

/-- The assignment `if r.Table == 0 { r.Table = MainTableID }` at the head of `addRoute`. -/
def normalizeTable (r : Route) : Route :=
  if r.Table = 0 then { r with Table := MainTableID } else r

/-- Method `Controller.addRoute`. -/
def addRoute (ops : NetLinkOps K) (c : Store) (r : Route) (w : World K) :
    Res × Store × World K :=
  let r := normalizeTable r
  let s := addRouteToStore c r
  if s.2 = false then (Res.ok, s.1, w)
  else
    let l := lookupLink ops r.LinkIndex w
    match l.1 with
    | some err =>
      (Res.err (Error.wrap "failed to apply route because unable to get link" err), s.1, l.2)
    | none =>
      let a := applyRoute ops r.LinkIndex r.Gw r.Dst r.MTU r.Src r.Table r.Priority r.Type_
        r.Scope l.2
      match a.1 with
      | Res.err err => (Res.err (Error.wrap "failed to apply route" err), s.1, a.2)
      | Res.panic => (Res.panic, s.1, a.2)
      | Res.ok => (Res.ok, s.1, a.2)

/-- Method `Controller.Add`. -/
def Add (ops : NetLinkOps K) (c : Store) (r : Route) (w : World K) : Res × Store × World K :=
  match (addRoute ops c r w).1 with
  | Res.err err =>
    (Res.err (Error.wrap "route manager: failed to add route" err), (addRoute ops c r w).2)
  | res => (res, (addRoute ops c r w).2)

/-- Method `Controller.delRoute`. -/
def delRoute (ops : NetLinkOps K) (c : Store) (r : Route) (w : World K) :
    Res × Store × World K :=
  let l := lookupLink ops r.LinkIndex w
  match l.1 with
  | some err =>
    if ops.IsLinkNotFoundError err then (Res.ok, Store.delete c r.LinkIndex, l.2)
    else
      (Res.err (Error.wrap "failed to delete route because unable to get link" err), c, l.2)
  | none =>
    let d := netlinkDelRoute ops r.LinkIndex r.Dst r.Table l.2
    match d.1 with
    | some err => (Res.err (Error.wrap "failed to delete route" err), c, d.2)
    | none =>
      match c r.LinkIndex with
      | none => (Res.ok, c, d.2)
      | some managedRoutes =>
        let managedRoutesTemp :=
          managedRoutes.filter (fun managedRoute => !RoutePartiallyEqual managedRoute r)
        if managedRoutesTemp.length = 0 then (Res.ok, Store.delete c r.LinkIndex, d.2)
        else (Res.ok, Store.set c r.LinkIndex managedRoutesTemp, d.2)

/-- Method `Controller.Del`. -/
def Del (ops : NetLinkOps K) (c : Store) (r : Route) (w : World K) : Res × Store × World K :=
  match (delRoute ops c r w).1 with
  | Res.err err =>
    (Res.err (Error.wrap "route manager: failed to delete route" err), (delRoute ops c r w).2)
  | res => (res, (delRoute ops c r w).2)

/-! ## Event processor -/

/-- The loop `for _, managedRoute := range managedRoutes` of `processNetlinkEvent`:
every managed route equal to the deleted route is applied again, unless the lookup of
its link fails. Errors are logged by the source and dropped here; only a panic stops
the loop. -/
def restoreRoutes (ops : NetLinkOps K) (deleted : Route) : List Route → World K → Res × World K
  | [], w => (Res.ok, w)
  | managedRoute :: rest, w =>
    if RoutePartiallyEqual managedRoute deleted then
      match (lookupLink ops managedRoute.LinkIndex w).1 with
      | some _ => restoreRoutes ops deleted rest (lookupLink ops managedRoute.LinkIndex w).2
      | none =>
        let a := applyRoute ops managedRoute.LinkIndex managedRoute.Gw managedRoute.Dst
          managedRoute.MTU managedRoute.Src managedRoute.Table managedRoute.Priority
          managedRoute.Type_ managedRoute.Scope (lookupLink ops managedRoute.LinkIndex w).2
        match a.1 with
        | Res.panic => (Res.panic, a.2)
        | _ => restoreRoutes ops deleted rest a.2
    else restoreRoutes ops deleted rest w

/-- Method `Controller.processNetlinkEvent`. -/
def processNetlinkEvent (ops : NetLinkOps K) (c : Store) (ru : RouteUpdate) (w : World K) :
    Res × Store × World K :=
  if ru.Type_ = RTM_NEWROUTE then (Res.ok, c, w)
  else if ru.Type_ ≠ RTM_DELROUTE then (Res.ok, c, w)
  else
    match c ru.Route.LinkIndex with
    | none => (Res.ok, c, w)
    | some managedRoutes =>
      ((restoreRoutes ops ru.Route managedRoutes w).1, c,
       (restoreRoutes ops ru.Route managedRoutes w).2)

/-! ## Reconciler -/

/-- The inner loop of `sync` over the routes managed on `linkIndex`; `deleted` is the
slice `deletedLinkIndexes`. -/
def syncRoutes (ops : NetLinkOps K) (linkIndex : Int) :
    List Route → List Int → World K → Res × List Int × World K
  | [], deleted, w => (Res.ok, deleted, w)
  | managedRoute :: rest, deleted, w =>
    let l := RouteListFiltered ops FAMILY_ALL
      (filterRouteByDstAndTable linkIndex managedRoute.Dst managedRoute.Table).1
      (filterRouteByDstAndTable linkIndex managedRoute.Dst managedRoute.Table).2 w
    match l.1 with
    | Except.error _ => syncRoutes ops linkIndex rest deleted l.2
    | Except.ok existingRoutes =>
      if existingRoutes.any (fun activeRoute => RoutePartiallyEqual activeRoute managedRoute) then
        syncRoutes ops linkIndex rest deleted l.2
      else
        let k := lookupLink ops managedRoute.LinkIndex l.2
        match k.1 with
        | some err =>
          if ops.IsLinkNotFoundError err then
            syncRoutes ops linkIndex rest (deleted ++ [linkIndex]) k.2
          else syncRoutes ops linkIndex rest deleted k.2
        | none =>
          let a := applyRoute ops managedRoute.LinkIndex managedRoute.Gw managedRoute.Dst
            managedRoute.MTU managedRoute.Src managedRoute.Table managedRoute.Priority
            managedRoute.Type_ managedRoute.Scope k.2
          match a.1 with
          | Res.panic => (Res.panic, deleted, a.2)
          | _ => syncRoutes ops linkIndex rest deleted a.2

/-- The outer loop of `sync`, `for linkIndex, managedRoutes := range c.store`, over the
keys in the order `keys` in which the Go runtime visits them. -/
def syncLinks (ops : NetLinkOps K) (c : Store) :
    List Int → List Int → World K → Res × List Int × World K
  | [], deleted, w => (Res.ok, deleted, w)
  | linkIndex :: rest, deleted, w =>
    match c linkIndex with
    | none => syncLinks ops c rest deleted w
    | some managedRoutes =>
      match (syncRoutes ops linkIndex managedRoutes deleted w).1 with
      | Res.panic => syncRoutes ops linkIndex managedRoutes deleted w
      | _ =>
        syncLinks ops c rest (syncRoutes ops linkIndex managedRoutes deleted w).2.1
          (syncRoutes ops linkIndex managedRoutes deleted w).2.2

/-- Method `Controller.sync`. `keys` is the order in which the map is ranged over. The
links recorded as deleted are removed from the store after the sweep; a panic leaves
the store as it was. -/
def sync (ops : NetLinkOps K) (c : Store) (keys : List Int) (w : World K) :
    Res × Store × World K :=
  match (syncLinks ops c keys [] w).1 with
  | Res.panic => (Res.panic, c, (syncLinks ops c keys [] w).2.2)
  | _ =>
    (Res.ok, (syncLinks ops c keys [] w).2.1.foldl Store.delete c,
     (syncLinks ops c keys [] w).2.2)

/-! ## Reachable stores -/

/-- The keys of a store listed without repetition: an order in which `range` may visit
the map. -/
def IsKeyOrder (c : Store) (keys : List Int) : Prop :=
  keys.Nodup ∧ ∀ k, k ∈ keys ↔ c k ≠ none

/-- The stores the controller can hold: the empty store of `NewController`, and the
store left by `Add`, `Del`, `processNetlinkEvent` or `sync` run from a reachable store
against any gateway in any state. A panic ends the process, so it has no successor. -/
inductive Reachable : Store → Prop where
  | init : Reachable Store.empty
  | add {K : Type} (ops : NetLinkOps K) (c : Store) (r : Route) (w : World K) :
      Reachable c → (Add ops c r w).1 ≠ Res.panic → Reachable (Add ops c r w).2.1
  | del {K : Type} (ops : NetLinkOps K) (c : Store) (r : Route) (w : World K) :
      Reachable c → (Del ops c r w).1 ≠ Res.panic → Reachable (Del ops c r w).2.1
  | event {K : Type} (ops : NetLinkOps K) (c : Store) (ru : RouteUpdate) (w : World K) :
      Reachable c → (processNetlinkEvent ops c ru w).1 ≠ Res.panic →
      Reachable (processNetlinkEvent ops c ru w).2.1
  | sync {K : Type} (ops : NetLinkOps K) (c : Store) (keys : List Int) (w : World K) :
      Reachable c → IsKeyOrder c keys → (sync ops c keys w).1 ≠ Res.panic →
      Reachable (sync ops c keys w).2.1

/-! ## A small kernel for concrete runs -/

/-- A kernel with a set of links and a routing table. -/
structure SimKernel where
  links : List Int
  routes : List Route
deriving DecidableEq, Repr

/-- The error a lookup of an absent link returns in `simOps`. -/
def linkNotFound : Error := Error.kernel 19

/-- Whether a kernel route passes the filter on output link, destination and table. -/
def simMatch (filter x : Route) : Bool :=
  x.LinkIndex == filter.LinkIndex && IsIPNetEqual x.Dst filter.Dst && x.Table == filter.Table

/-- A gateway over `SimKernel` on which every route call succeeds: lookups succeed for
the links present, listing filters the table, create appends, replace rewrites the
routes passing the filter, delete removes. -/
def simOps : NetLinkOps SimKernel where
  LinkByIndex k index := (if index ∈ k.links then none else some linkNotFound, k)
  IsLinkNotFoundError e := e == linkNotFound
  RouteListFiltered k _ filter _ := (Except.ok (k.routes.filter (simMatch filter)), k)
  RouteAdd k r := (none, { k with routes := k.routes ++ [r] })
  RouteReplace k r :=
    (none, { k with routes := k.routes.map (fun x => if simMatch r x then r else x) })
  RouteDel k r := (none, { k with routes := k.routes.filter (fun x => x != r) })

/-- A gateway on which every call fails with the error `e`. -/
def failOps (e : Error) : NetLinkOps Unit where
  LinkByIndex k _ := (some e, k)
  IsLinkNotFoundError x := x == linkNotFound
  RouteListFiltered k _ _ _ := (Except.error e, k)
  RouteAdd k _ := (some e, k)
  RouteReplace k _ := (some e, k)
  RouteDel k _ := (some e, k)

/-- The subnet 10.0.0.0/24. -/
def net10 : IPNet := { IP := some [10, 0, 0, 0], Mask := [255, 255, 255, 0] }

/-- The route `{LinkIndex: 5, Dst: 10.0.0.0/24, Gw: 192.168.1.1}` of the spec's scenario. -/
def route5 : Route :=
  { Route.zero with LinkIndex := 5, Dst := some net10, Gw := some [192, 168, 1, 1] }

/-- A kernel with link 5 and an empty routing table. -/
def kernel5 : World SimKernel := { kernel := { links := [5], routes := [] }, calls := [] }

/-- A kernel with no link and an empty routing table. -/
def kernel0 : World SimKernel := { kernel := { links := [], routes := [] }, calls := [] }

/-! ## Reading the call log -/

/-- The routing table a log entry names on behalf of the controller: the table handed
to `applyRoute`, the table of a list filter, the table of a create request. -/
def Call.table? : Call → Option Int
  | Call.ApplyRoute _ _ _ _ _ table _ _ _ => some table
  | Call.RouteListFiltered _ filter _ => some filter.Table
  | Call.RouteAdd route => some route.Table
  | _ => none

/-- Whether a log entry is a kernel create. -/
def Call.isRouteAdd : Call → Bool
  | Call.RouteAdd _ => true
  | _ => false

/-- Whether a log entry is a kernel route list or route delete. -/
def Call.isListOrDel : Call → Bool
  | Call.RouteListFiltered _ _ _ => true
  | Call.RouteDel _ => true
  | _ => false

/-- Whether a log entry is an entry into `applyRoute`. -/
def Call.isApplyRoute : Call → Bool
  | Call.ApplyRoute _ _ _ _ _ _ _ _ _ => true
  | _ => false

/-! ## Managed routes -/

/-- Whether the route is managed: the list stored for its link holds an entry equal to
it under `RoutePartiallyEqual`. This is the test `addRouteToStore` makes. -/
def isManaged (c : Store) (r : Route) : Bool :=
  match c r.LinkIndex with
  | none => false
  | some l => l.any (fun e => RoutePartiallyEqual e r)

/-- The number of entries of the list stored for `k` that are equal to `r` under
`RoutePartiallyEqual`. -/
def countEqual (c : Store) (k : Int) (r : Route) : Nat :=
  match c k with
  | none => 0
  | some l => l.countP (fun e => RoutePartiallyEqual e r)

/-! ## Canonical forms behind the equality predicate -/

/-- The 16-byte form of a 4-byte address, any other slice as it is: two addresses are
`IP.Equal` exactly when their canonical forms coincide. -/
def IP.canon (ip : IP) : List Nat :=
  if IP.len ip = 4 then v4InV6Prefix ++ IP.bytes ip else IP.bytes ip

/-- What `IsIPNetEqual` compares of a subnet: its prefix length and canonical address. -/
def IPNet.canon (n : Option IPNet) : Option (Int × List Nat) :=
  n.map (fun x => (IPMask.SizeOnes x.Mask, IP.canon x.IP))

/-- What `RoutePartiallyEqual` compares of a route. -/
def Route.canon (r : Route) :
    Int × Option (Int × List Nat) × List Nat × List Nat × Int × Int × Int × Int × Int × Nat :=
  (r.LinkIndex, IPNet.canon r.Dst, IP.canon r.Src, IP.canon r.Gw, r.Table, r.Flags, r.MTU,
   r.Type_, r.Priority, r.Scope)

/-! ## Store invariants -/

/-- No entry of the list is equal under `RoutePartiallyEqual` to an entry further on. -/
def NoDuplicates (l : List Route) : Prop :=
  l.Pairwise (fun a b => RoutePartiallyEqual a b = false)

/-- A second route on link 5, to 10.1.0.0/24 in table 100. -/
def route5b : Route :=
  { Route.zero with LinkIndex := 5, Table := 100,
                    Dst := some { IP := some [10, 1, 0, 0], Mask := [255, 255, 255, 0] } }

/-- The store after `Add(route5)` on the empty store. -/
def store5 : Store := (Add simOps Store.empty route5 kernel5).2.1

/-- The store after `Add(route5)` and `Add(route5b)`. -/
def store5b : Store := (Add simOps store5 route5b kernel5).2.1

/-- The route `route5` with its priority set to 7. -/
def route5p : Route := { route5 with Priority := 7 }

/-- The route `route5` with no link: `LinkIndex` 0. -/
def route0 : Route := { route5 with LinkIndex := 0 }

/-- The route `route5` with table 254 written out. -/
def route254 : Route := { route5 with Table := 254 }

/-- The route `route5` without a destination subnet. -/
def routeNoDst : Route := { route5 with Dst := none }

/-- A kernel with link 5 whose routing table holds `route254`. -/
def kernel5r : World SimKernel :=
  { kernel := { links := [5], routes := [route254] }, calls := [] }

/-- A world for `failOps`, with an empty log. -/
def failWorld : World Unit := { kernel := (), calls := [] }

/-! ## More readers of the call log -/

/-- Whether a log entry is a kernel replace. -/
def Call.isRouteReplace : Call → Bool
  | Call.RouteReplace _ => true
  | _ => false

/-- Whether a log entry is a kernel route delete. -/
def Call.isRouteDel : Call → Bool
  | Call.RouteDel _ => true
  | _ => false

/-- The world `w'` continues `w`, and every entry logged in between satisfies `P`. -/
def Extends (P : Call → Prop) (w w' : World K) : Prop :=
  ∃ new : List Call, w'.calls = w.calls ++ new ∧ ∀ call ∈ new, P call

/-- Every delete of the list succeeds when the routes are deleted in order starting in
kernel state `k`. -/
def deletesSucceed (ops : NetLinkOps K) : List Route → K → Bool
  | [], _ => true
  | x :: rest, k => (ops.RouteDel k x).1.isNone && deletesSucceed ops rest (ops.RouteDel k x).2

/-- The kernel state after the routes of the list have been deleted in order. -/
def kernelAfterDeletes (ops : NetLinkOps K) : List Route → K → K
  | [], k => k
  | x :: rest, k => kernelAfterDeletes ops rest (ops.RouteDel k x).2

/-- The kernel route `route254` with an MTU of 1400 set by someone else. -/
def route254m : Route := { route254 with MTU := 1400 }

/-- The kernel route `route254` with kernel flags and a priority set by someone else. -/
def route254f : Route := { route254 with Flags := 4, Priority := 100 }

/-- A kernel with link 5 whose table holds `route254m` only. -/
def kernel5m : World SimKernel :=
  { kernel := { links := [5], routes := [route254m] }, calls := [] }

/-- A kernel with link 5 whose table holds `route254f` only. -/
def kernel5f : World SimKernel :=
  { kernel := { links := [5], routes := [route254f] }, calls := [] }

/-- A kernel with link 5 whose table holds `route254` and `route254m`. -/
def kernel5rm : World SimKernel :=
  { kernel := { links := [5], routes := [route254, route254m] }, calls := [] }

/-- The route without destination as `Add` stores it, with table 254. -/
def routeNoDst254 : Route := { routeNoDst with Table := 254 }

/-- The store after `Add(routeNoDst)` failed on the lookup of the absent link 5: the
entry stays. -/
def storeNoDst : Store := (Add simOps Store.empty routeNoDst kernel0).2.1

/-- The store after `Add(routeNoDst)` failed and `Add(route5)` succeeded. -/
def storeNoDst5 : Store := (Add simOps storeNoDst route5 kernel5).2.1

/-! ## The calls an operation may log -/

/-- The entries `applyRoute` may log for the given arguments: its own entry, the list
filtered by link, subnet and table, the create of `newNlRoute`, or the replace of a route
`e` that some list with that filter returned first and that differs from the desired
MTU, source or gateway, by `e` with these three overwritten. -/
def IsApplyCall (ops : NetLinkOps K) (linkIndex : Int) (gwIP : IP) (subnet : Option IPNet)
    (mtu : Int) (src : IP) (table priority rtype : Int) (scope : Nat) (call : Call) : Prop :=
  call = Call.ApplyRoute linkIndex gwIP subnet mtu src table priority rtype scope ∨
  (∃ family, call = Call.RouteListFiltered family
    (filterRouteByDstAndTable linkIndex subnet table).1
    (filterRouteByDstAndTable linkIndex subnet table).2) ∨
  call = Call.RouteAdd (newNlRoute linkIndex gwIP subnet mtu src table priority rtype scope) ∨
  ∃ (k : K) (family : Int) (e : Route) (rest : List Route),
    (ops.RouteListFiltered k family (filterRouteByDstAndTable linkIndex subnet table).1
      (filterRouteByDstAndTable linkIndex subnet table).2).1 = Except.ok (e :: rest) ∧
    (e.MTU ≠ mtu ∨ IP.Equal src e.Src = false ∨ IP.Equal gwIP e.Gw = false) ∧
    call = Call.RouteReplace { e with MTU := mtu, Src := src, Gw := gwIP }

/-- The entries logged on behalf of the managed route `m` when it is restored: the
lookup of its link, and, after a lookup that did not fail, the entries of `applyRoute`
with the fields of `m`. -/
def IsRestoreCall (ops : NetLinkOps K) (m : Route) (call : Call) : Prop :=
  (m.LinkIndex ≠ 0 ∧ call = Call.LinkByIndex m.LinkIndex) ∨
  ((∃ w : World K, (lookupLink ops m.LinkIndex w).1 = none) ∧
    IsApplyCall ops m.LinkIndex m.Gw m.Dst m.MTU m.Src m.Table m.Priority m.Type_ m.Scope call)

/-- The entries `sync` may log for the store `c`: for a route `m` managed under key `k`,
the list over all families filtered by `k` and the destination and table of `m`, and the
entries that restore `m`. -/
def IsSyncCall (ops : NetLinkOps K) (c : Store) (call : Call) : Prop :=
  ∃ (k : Int) (l : List Route) (m : Route), c k = some l ∧ m ∈ l ∧
    (call = Call.RouteListFiltered FAMILY_ALL
        (filterRouteByDstAndTable k m.Dst m.Table).1
        (filterRouteByDstAndTable k m.Dst m.Table).2 ∨
     IsRestoreCall ops m call)

/-- A route on link 7 without destination. -/
def routeNoDst7 : Route := { Route.zero with LinkIndex := 7, Gw := some [192, 168, 1, 1] }

/-- The store after `Add(route5)` succeeded and `Add(routeNoDst7)` failed on the lookup of
the absent link 7: link 5 holds `route254`, link 7 holds the route without destination. -/
def store57 : Store := (Add simOps store5 routeNoDst7 kernel5).2.1

/-- A kernel with link 7, without link 5, and an empty routing table. -/
def kernel7 : World SimKernel := { kernel := { links := [7], routes := [] }, calls := [] }

/-! ## Worker loop -/

/-- What one round of the `select` of `Run` receives. A resubscription returns a fresh
channel and whether `netlink.RouteSubscribe` succeeded; `resubscribed` is that outcome
for a round that may resubscribe, and `keys` is the order in which the `sync` of a tick
ranges over the store. -/
inductive LoopEvent where
  | stop
  | closed (resubscribed : Bool)
  | notification (ru : RouteUpdate)
  | tick (resubscribed : Bool) (keys : List Int)
deriving DecidableEq, Repr

/-- What the loop does in a round, besides waiting. -/
inductive LoopAction where
  | Subscribe
  | ProcessEvent (ru : RouteUpdate)
  | Sync
deriving DecidableEq, Repr

/-- The variables of `Run` and of the controller between two rounds. -/
structure LoopState (K : Type) where
  subscribed : Bool
  store : Store
  world : World K

/-- How a round ends: the loop goes on, `Run` returns, or the process panics. -/
inductive LoopResult (K : Type) where
  | running (s : LoopState K)
  | returned
  | panicked (s : LoopState K)

/-- Whether `Run` returned. -/
def LoopResult.isReturned : LoopResult K → Bool
  | LoopResult.returned => true
  | _ => false

/-- The start of `Run`: the first subscription, whose outcome is `subscribed`. -/
def runStart (c : Store) (w : World K) (subscribed : Bool) : LoopState K × List LoopAction :=
  ({ subscribed := subscribed, store := c, world := w }, [LoopAction.Subscribe])

/-- One round of the loop of `Run`: the result and what the round did. The error of
`processNetlinkEvent` is logged and dropped. -/
def runRound (ops : NetLinkOps K) (s : LoopState K) : LoopEvent → LoopResult K × List LoopAction
  | LoopEvent.stop => (LoopResult.returned, [])
  | LoopEvent.closed resubscribed =>
    (LoopResult.running { s with subscribed := resubscribed }, [LoopAction.Subscribe])
  | LoopEvent.notification ru =>
    match (processNetlinkEvent ops s.store ru s.world).1 with
    | Res.panic =>
      (LoopResult.panicked { s with store := (processNetlinkEvent ops s.store ru s.world).2.1,
                                    world := (processNetlinkEvent ops s.store ru s.world).2.2 },
       [LoopAction.ProcessEvent ru])
    | _ =>
      (LoopResult.running { s with store := (processNetlinkEvent ops s.store ru s.world).2.1,
                                   world := (processNetlinkEvent ops s.store ru s.world).2.2 },
       [LoopAction.ProcessEvent ru])
  | LoopEvent.tick resubscribed keys =>
    let subscribed := if s.subscribed then s.subscribed else resubscribed
    let acts := if s.subscribed then [] else [LoopAction.Subscribe]
    match (sync ops s.store keys s.world).1 with
    | Res.panic =>
      (LoopResult.panicked { subscribed := subscribed,
                             store := (sync ops s.store keys s.world).2.1,
                             world := (sync ops s.store keys s.world).2.2 },
       acts ++ [LoopAction.Sync])
    | _ =>
      (LoopResult.running { subscribed := subscribed,
                            store := (sync ops s.store keys s.world).2.1,
                            world := (sync ops s.store keys s.world).2.2 },
       acts ++ [LoopAction.Sync])

/-- The loop `for { select { ... } }` of `Run` over the events it receives, until it
returns or panics. -/
def runLoop (ops : NetLinkOps K) : LoopState K → List LoopEvent → LoopResult K × List LoopAction
  | s, [] => (LoopResult.running s, [])
  | s, ev :: rest =>
    match runRound ops s ev with
    | (LoopResult.running s', acts) => ((runLoop ops s' rest).1, acts ++ (runLoop ops s' rest).2)
    | (res, acts) => (res, acts)

/-! ## The sweep of `sync` up to a route -/

/-- The part of the sweep of `sync` made before it reaches a route: the links `ks1`
visited before link `k` and the routes `l1` of `k` visited before the route. -/
def sweepTo (ops : NetLinkOps K) (c : Store) (ks1 : List Int) (k : Int) (l1 : List Route)
    (w : World K) : Res × List Int × World K :=
  match (syncLinks ops c ks1 [] w).1 with
  | Res.panic => syncLinks ops c ks1 [] w
  | _ => syncRoutes ops k l1 (syncLinks ops c ks1 [] w).2.1 (syncLinks ops c ks1 [] w).2.2

/-- What `applyRoute` asks of the kernel for the managed route `m` after a list that
returned `listed`: a create when nothing is listed, a replace of the first listed route
when its MTU, source or gateway differs from that of `m`, nothing otherwise. -/
def applyAction (m : Route) : List Route → List Call
  | [] =>
    [Call.RouteAdd
      (newNlRoute m.LinkIndex m.Gw m.Dst m.MTU m.Src m.Table m.Priority m.Type_ m.Scope)]
  | e :: _ =>
    if e.MTU ≠ m.MTU ∨ IP.Equal m.Src e.Src = false ∨ IP.Equal m.Gw e.Gw = false then
      [Call.RouteReplace { e with MTU := m.MTU, Src := m.Src, Gw := m.Gw }]
    else []

/-- A lookup of the link of a route of `l`, made in a world at or after `w`, returned an
error that `IsLinkNotFoundError` accepts. -/
def FoundAbsent (ops : NetLinkOps K) (w : World K) (l : List Route) : Prop :=
  ∃ m ∈ l, ∃ (w0 : World K) (err : Error), Extends (fun _ => True) w w0 ∧
    (lookupLink ops m.LinkIndex w0).1 = some err ∧ ops.IsLinkNotFoundError err = true

/-- The route `route5` with an MTU of 1400. -/
def route5m : Route := { route5 with MTU := 1400 }

/-- The store after `Add(route5)` and `Add(route5m)`: link 5 holds `route254` and then
`route254m`, which share link, destination and table and differ in MTU. -/
def store5m : Store := (Add simOps store5 route5m kernel5).2.1

/-! ## The equality predicate -/

theorem beq_swap {α : Type} [BEq α] [LawfulBEq α] (a b : α) : (a == b) = (b == a) := by
  by_cases h : a = b
  · subst h; rfl
  · have h1 : (a == b) = false := beq_eq_false_iff_ne.mpr h
    have h2 : (b == a) = false := beq_eq_false_iff_ne.mpr (fun e => h e.symm)
    rw [h1, h2]

theorem IP.Equal_refl (ip : IP) : IP.Equal ip ip = true := by
  simp [IP.Equal]

theorem IP.Equal_symm (a b : IP) : IP.Equal a b = IP.Equal b a := by
  unfold IP.Equal
  split_ifs <;> first
    | rfl
    | omega
    | exact beq_swap _ _
    | (rw [beq_swap (IP.bytes a) (List.drop 12 (IP.bytes b))])
    | (rw [beq_swap (IP.bytes b) (List.drop 12 (IP.bytes a))])

theorem IsIPNetEqual_refl (n : Option IPNet) : IsIPNetEqual n n = true := by
  cases n <;> simp [IsIPNetEqual, IP.Equal_refl]

theorem IsIPNetEqual_symm (a b : Option IPNet) : IsIPNetEqual a b = IsIPNetEqual b a := by
  cases a <;> cases b <;> simp only [IsIPNetEqual]
  rename_i x y
  rw [IP.Equal_symm x.IP y.IP, beq_swap (IPMask.SizeOnes x.Mask)]

theorem RoutePartiallyEqual_refl (r : Route) : RoutePartiallyEqual r r = true := by
  simp [RoutePartiallyEqual, IsIPNetEqual_refl, IP.Equal_refl]

theorem RoutePartiallyEqual_symm (r x : Route) :
    RoutePartiallyEqual r x = RoutePartiallyEqual x r := by
  unfold RoutePartiallyEqual
  rw [IsIPNetEqual_symm r.Dst x.Dst, IP.Equal_symm r.Src x.Src, IP.Equal_symm r.Gw x.Gw,
    beq_swap r.LinkIndex, beq_swap r.Table, beq_swap r.Flags, beq_swap r.MTU,
    beq_swap r.Type_, beq_swap r.Priority, beq_swap r.Scope]

/-! ## How each operation changes the store -/

theorem Store.delete_apply (c : Store) (k i : Int) :
    Store.delete c k i = if i = k then none else c i := rfl

theorem Store.set_apply (c : Store) (k i : Int) (v : List Route) :
    Store.set c k v i = if i = k then some v else c i := rfl

theorem addRoute_store (ops : NetLinkOps K) (c : Store) (r : Route) (w : World K) :
    (addRoute ops c r w).2.1 = (addRouteToStore c (normalizeTable r)).1 := by
  unfold addRoute
  simp only
  split_ifs
  · rfl
  · split
    · rfl
    · split <;> rfl

theorem Add_store (ops : NetLinkOps K) (c : Store) (r : Route) (w : World K) :
    (Add ops c r w).2.1 = (addRouteToStore c (normalizeTable r)).1 := by
  unfold Add
  split <;> exact addRoute_store ops c r w

theorem Add_calls (ops : NetLinkOps K) (c : Store) (r : Route) (w : World K) :
    (Add ops c r w).2.2 = (addRoute ops c r w).2.2 := by
  unfold Add
  split <;> rfl

/-- The three shapes of the store after `delRoute`. -/
theorem delRoute_store (ops : NetLinkOps K) (c : Store) (r : Route) (w : World K) :
    (delRoute ops c r w).2.1 = c ∨
    (delRoute ops c r w).2.1 = Store.delete c r.LinkIndex ∨
    ∃ l, c r.LinkIndex = some l ∧
      l.filter (fun m => !RoutePartiallyEqual m r) ≠ [] ∧
      (delRoute ops c r w).2.1 =
        Store.set c r.LinkIndex (l.filter (fun m => !RoutePartiallyEqual m r)) := by
  unfold delRoute
  simp only
  split
  · split_ifs
    · exact Or.inr (Or.inl rfl)
    · exact Or.inl rfl
  · split
    · exact Or.inl rfl
    · split
      · exact Or.inl rfl
      · rename_i l hl
        split_ifs with h
        · exact Or.inr (Or.inl rfl)
        · refine Or.inr (Or.inr ⟨l, hl, ?_, rfl⟩)
          intro h0
          exact h (by rw [h0]; rfl)

theorem Del_store (ops : NetLinkOps K) (c : Store) (r : Route) (w : World K) :
    (Del ops c r w).2.1 = (delRoute ops c r w).2.1 := by
  unfold Del
  split <;> rfl

theorem Del_calls (ops : NetLinkOps K) (c : Store) (r : Route) (w : World K) :
    (Del ops c r w).2.2 = (delRoute ops c r w).2.2 := by
  unfold Del
  split <;> rfl

theorem processNetlinkEvent_store (ops : NetLinkOps K) (c : Store) (ru : RouteUpdate)
    (w : World K) : (processNetlinkEvent ops c ru w).2.1 = c := by
  unfold processNetlinkEvent
  split_ifs
  · rfl
  · rfl
  · split <;> rfl

theorem sync_store (ops : NetLinkOps K) (c : Store) (keys : List Int) (w : World K) :
    ∃ deleted : List Int, (sync ops c keys w).2.1 = deleted.foldl Store.delete c := by
  unfold sync
  split
  · exact ⟨[], rfl⟩
  · exact ⟨_, rfl⟩

theorem Store.foldl_delete_inv (P : Store → Prop) (hdel : ∀ c k, P c → P (Store.delete c k))
    (deleted : List Int) (c : Store) (h : P c) : P (deleted.foldl Store.delete c) := by
  induction deleted generalizing c with
  | nil => exact h
  | cons k rest ih => exact ih (Store.delete c k) (hdel c k h)

/-- Induction principle for properties of reachable stores: a property of the empty
store that survives recording a table-normalized route, dropping a link and filtering a link's list
holds of every reachable store. -/
theorem Reachable.store_induction (P : Store → Prop) (h0 : P Store.empty)
    (hadd : ∀ c r, P c → P (addRouteToStore c (normalizeTable r)).1)
    (hdel : ∀ c k, P c → P (Store.delete c k))
    (hfil : ∀ c (r : Route) l, P c → c r.LinkIndex = some l →
      l.filter (fun m => !RoutePartiallyEqual m r) ≠ [] →
      P (Store.set c r.LinkIndex (l.filter (fun m => !RoutePartiallyEqual m r))))
    (c : Store) (h : Reachable c) : P c := by
  induction h with
  | init => exact h0
  | add ops c r w _ _ ih =>
    rw [Add_store]
    exact hadd c _ ih
  | del ops c r w _ _ ih =>
    rw [Del_store]
    rcases delRoute_store ops c r w with h1 | h1 | ⟨l, hl, hne, h1⟩
    · rw [h1]; exact ih
    · rw [h1]; exact hdel c _ ih
    · rw [h1]; exact hfil c r l ih hl hne
  | event ops c ru w _ _ ih =>
    rw [processNetlinkEvent_store]
    exact ih
  | sync ops c keys w _ _ _ ih =>
    obtain ⟨deleted, hd⟩ := sync_store ops c keys w
    rw [hd]
    exact Store.foldl_delete_inv P hdel deleted c ih

/-! ## What each operation writes to the call log -/

theorem lookupLink_calls (ops : NetLinkOps K) (linkIndex : Int) (w : World K) :
    (lookupLink ops linkIndex w).2.calls =
      w.calls ++ (if linkIndex ≠ 0 then [Call.LinkByIndex linkIndex] else []) := by
  unfold lookupLink
  split_ifs <;> simp [LinkByIndex]

/-- The four shapes of the log written by `applyRoute`: a panic before any kernel call,
a failed list, a list followed by a create, a list followed by at most one replace. -/
theorem applyRoute_calls (ops : NetLinkOps K) (linkIndex : Int) (gwIP : IP)
    (subnet : Option IPNet) (mtu : Int) (src : IP) (table priority rtype : Int) (scope : Nat)
    (w : World K) :
    ∃ rest : List Call,
      (applyRoute ops linkIndex gwIP subnet mtu src table priority rtype scope w).2.calls =
        w.calls ++
          Call.ApplyRoute linkIndex gwIP subnet mtu src table priority rtype scope :: rest ∧
      (rest = [] ∨
       ∃ family, ∃ more : List Call,
         rest = Call.RouteListFiltered family
           (filterRouteByDstAndTable linkIndex subnet table).1
           (filterRouteByDstAndTable linkIndex subnet table).2 :: more ∧
         (more = [] ∨
          more = [Call.RouteAdd
            (newNlRoute linkIndex gwIP subnet mtu src table priority rtype scope)] ∨
          ∃ e, more = [Call.RouteReplace e])) := by
  unfold applyRoute
  simp only
  split
  · exact ⟨[], rfl, Or.inl rfl⟩
  · rename_i family _
    split
    · exact ⟨_, by simp [RouteListFiltered], Or.inr ⟨family, [], rfl, Or.inl rfl⟩⟩
    · refine ⟨_, ?_, Or.inr ⟨family, _, rfl, Or.inr (Or.inl rfl)⟩⟩
      unfold netlinkAddRoute
      simp only
      split <;> simp [RouteListFiltered, RouteAdd]
    · split_ifs
      · rename_i e _ _ _
        refine ⟨_, ?_, Or.inr ⟨family, _, rfl, Or.inr (Or.inr ⟨{ e with MTU := mtu, Src := src, Gw := gwIP }, rfl⟩)⟩⟩
        split <;> simp [RouteListFiltered, RouteReplace]
      · exact ⟨_, by simp [RouteListFiltered], Or.inr ⟨family, [], rfl, Or.inl rfl⟩⟩

theorem newNlRoute_Table (linkIndex : Int) (gwIP : IP) (subnet : Option IPNet) (mtu : Int)
    (srcIP : IP) (table priority rtype : Int) (scope : Nat) :
    (newNlRoute linkIndex gwIP subnet mtu srcIP table priority rtype scope).Table = table := by
  unfold newNlRoute
  simp only
  split_ifs <;> rfl

/-! ## Recording a route -/

theorem addRouteToStore_flag (c : Store) (r : Route) :
    (addRouteToStore c r).2 = !isManaged c r := by
  unfold addRouteToStore isManaged
  split
  · rfl
  · split_ifs with h <;> simp [h]

theorem addRouteToStore_managed (c : Store) (r : Route) (h : isManaged c r = true) :
    (addRouteToStore c r).1 = c := by
  unfold addRouteToStore
  unfold isManaged at h
  split
  · rename_i hn; rw [hn] at h; cases h
  · rename_i l hl
    rw [hl] at h
    simp only at h
    rw [if_pos h]

theorem addRouteToStore_new (c : Store) (r : Route) (h : isManaged c r = false) :
    ∃ l, (addRouteToStore c r).1 = Store.set c r.LinkIndex (l ++ [r]) ∧
      (c r.LinkIndex = none ∧ l = [] ∨ c r.LinkIndex = some l) := by
  unfold addRouteToStore
  unfold isManaged at h
  split
  · rename_i hn
    exact ⟨[], rfl, Or.inl ⟨hn, rfl⟩⟩
  · rename_i l hl
    rw [hl] at h
    simp only at h
    refine ⟨l, ?_, Or.inr hl⟩
    rw [if_neg (by rw [h]; decide)]

theorem normalizeTable_Table (r : Route) :
    (normalizeTable r).Table = if r.Table = 0 then 254 else r.Table := by
  unfold normalizeTable
  split_ifs <;> rfl

theorem normalizeTable_Table_ne (r : Route) : (normalizeTable r).Table ≠ 0 := by
  rw [normalizeTable_Table]
  split_ifs with h
  · decide
  · exact h

theorem normalizeTable_LinkIndex (r : Route) : (normalizeTable r).LinkIndex = r.LinkIndex := by
  unfold normalizeTable
  split_ifs <;> rfl

/-- The log written by `addRoute` for a route that is newly recorded. -/
theorem addRoute_calls_new (ops : NetLinkOps K) (c : Store) (r : Route) (w : World K)
    (h : isManaged c (normalizeTable r) = false) :
    (addRoute ops c r w).2.2.calls = (lookupLink ops r.LinkIndex w).2.calls ∧
      (lookupLink ops r.LinkIndex w).1 ≠ none ∨
    (lookupLink ops r.LinkIndex w).1 = none ∧
      (addRoute ops c r w).2.2.calls =
        (applyRoute ops r.LinkIndex r.Gw r.Dst r.MTU r.Src (normalizeTable r).Table r.Priority
          r.Type_ r.Scope (lookupLink ops r.LinkIndex w).2).2.calls := by
  have hf : (addRouteToStore c (normalizeTable r)).2 = true := by
    rw [addRouteToStore_flag, h]; rfl
  have hn : ∀ x : Route, normalizeTable r = x →
      (x.LinkIndex = r.LinkIndex ∧ x.Gw = r.Gw ∧ x.Dst = r.Dst ∧ x.MTU = r.MTU ∧
        x.Src = r.Src ∧ x.Priority = r.Priority ∧ x.Type_ = r.Type_ ∧ x.Scope = r.Scope) := by
    intro x hx
    subst hx
    unfold normalizeTable
    split_ifs <;> simp
  obtain ⟨h1, h2, h3, h4, h5, h6, h7, h8⟩ := hn _ rfl
  unfold addRoute
  simp only
  rw [if_neg (by rw [hf]; decide)]
  rw [h1, h2, h3, h4, h5, h6, h7, h8]
  split
  · rename_i e he
    exact Or.inl ⟨rfl, by rw [he]; exact Option.some_ne_none e⟩
  · rename_i he
    refine Or.inr ⟨he, ?_⟩
    split <;> rfl

theorem addRoute_calls_managed (ops : NetLinkOps K) (c : Store) (r : Route) (w : World K)
    (h : isManaged c (normalizeTable r) = true) :
    addRoute ops c r w = (Res.ok, c, w) := by
  have hf : (addRouteToStore c (normalizeTable r)).2 = false := by
    rw [addRouteToStore_flag, h]; rfl
  unfold addRoute
  simp only
  rw [if_pos hf, addRouteToStore_managed c _ h]

theorem applyRoute_calls_table (ops : NetLinkOps K) (linkIndex : Int) (gwIP : IP)
    (subnet : Option IPNet) (mtu : Int) (src : IP) (table priority rtype : Int) (scope : Nat)
    (w : World K) :
    ∃ new : List Call,
      (applyRoute ops linkIndex gwIP subnet mtu src table priority rtype scope w).2.calls =
        w.calls ++ new ∧
      Call.ApplyRoute linkIndex gwIP subnet mtu src table priority rtype scope ∈ new ∧
      ∀ call ∈ new, ∀ t, Call.table? call = some t → t = table := by
  obtain ⟨rest, hc, hr⟩ :=
    applyRoute_calls ops linkIndex gwIP subnet mtu src table priority rtype scope w
  refine ⟨_, hc, List.mem_cons_self _ _, ?_⟩
  intro call hcall t ht
  rcases List.mem_cons.mp hcall with rfl | hcall
  · simpa [Call.table?] using ht.symm
  · rcases hr with rfl | ⟨family, more, rfl, hm⟩
    · cases hcall
    · rcases List.mem_cons.mp hcall with rfl | hcall
      · simpa [Call.table?, filterRouteByDstAndTable] using ht.symm
      · rcases hm with rfl | rfl | ⟨e, rfl⟩
        · cases hcall
        · rcases List.mem_singleton.mp hcall with rfl
          simpa [Call.table?, newNlRoute_Table] using ht.symm
        · rcases List.mem_singleton.mp hcall with rfl
          simp [Call.table?] at ht

/-- The log written by `addRoute` for a newly recorded route names only the normalized
table, and contains the entry into `applyRoute` whenever the link lookup does not fail. -/
theorem addRoute_calls_table (ops : NetLinkOps K) (c : Store) (r : Route) (w : World K)
    (h : isManaged c (normalizeTable r) = false) :
    (∃ new : List Call, (addRoute ops c r w).2.2.calls = w.calls ++ new ∧
      ∀ call ∈ new, ∀ t, Call.table? call = some t → t = (normalizeTable r).Table) ∧
    ((lookupLink ops r.LinkIndex w).1 = none →
      Call.ApplyRoute r.LinkIndex r.Gw r.Dst r.MTU r.Src (normalizeTable r).Table r.Priority
        r.Type_ r.Scope ∈ (addRoute ops c r w).2.2.calls) := by
  obtain ⟨lk, hlk, hlkt⟩ : ∃ lk : List Call, (lookupLink ops r.LinkIndex w).2.calls = w.calls ++ lk ∧
      ∀ call ∈ lk, ∀ t, Call.table? call = some t → t = (normalizeTable r).Table := by
    refine ⟨_, lookupLink_calls ops r.LinkIndex w, ?_⟩
    intro call hcall t ht
    split_ifs at hcall
    · rcases List.mem_singleton.mp hcall with rfl
      simp [Call.table?] at ht
    · cases hcall
  obtain ⟨new, hc, hin, ht⟩ := applyRoute_calls_table ops r.LinkIndex r.Gw r.Dst r.MTU r.Src
    (normalizeTable r).Table r.Priority r.Type_ r.Scope (lookupLink ops r.LinkIndex w).2
  rcases addRoute_calls_new ops c r w h with ⟨h1, h2⟩ | ⟨h1, h2⟩
  · refine ⟨⟨lk, by rw [h1, hlk], hlkt⟩, fun h3 => absurd h3 h2⟩
  · refine ⟨⟨lk ++ new, by rw [h2, hc, hlk, List.append_assoc], ?_⟩, fun _ => ?_⟩
    · intro call hcall
      rcases List.mem_append.mp hcall with h3 | h3
      · exact hlkt call h3
      · exact ht call h3
    · rw [h2, hc]
      exact List.mem_append_right _ hin

/-- A property of the entries of a store that holds of every table-normalized route
under its own link index holds of every entry of every reachable store. -/
theorem Reachable.forall_entries (Q : Int → Route → Prop)
    (hQ : ∀ r, Q (normalizeTable r).LinkIndex (normalizeTable r)) (s : Store)
    (hs : Reachable s) : ∀ k l, s k = some l → ∀ e ∈ l, Q k e := by
  refine Reachable.store_induction (fun s => ∀ k l, s k = some l → ∀ e ∈ l, Q k e)
    ?_ ?_ ?_ ?_ s hs
  · intro k l h
    cases h
  · intro c r ih k l hk e he
    by_cases hm : isManaged c (normalizeTable r) = true
    · rw [addRouteToStore_managed c _ hm] at hk
      exact ih k l hk e he
    · obtain ⟨l0, hst, hl0⟩ := addRouteToStore_new c (normalizeTable r) (by simpa using hm)
      rw [hst, Store.set_apply] at hk
      split_ifs at hk with hkk
      · cases hk
        subst hkk
        rcases List.mem_append.mp he with h1 | h1
        · rcases hl0 with ⟨_, rfl⟩ | hl0
          · cases h1
          · exact ih _ l0 hl0 e h1
        · rcases List.mem_singleton.mp h1 with rfl
          exact hQ r
      · exact ih k l hk e he
  · intro c k0 ih k l hk e he
    rw [Store.delete_apply] at hk
    split_ifs at hk
    exact ih k l hk e he
  · intro c r l0 ih hl0 _ k l hk e he
    rw [Store.set_apply] at hk
    split_ifs at hk with hkk
    · cases hk
      subst hkk
      exact ih _ l0 hl0 e (List.mem_filter.mp he).1
    · exact ih k l hk e he

/-- No reachable store holds a route whose table is unset. -/
theorem Reachable.table_ne_zero (s : Store) (hs : Reachable s) :
    ∀ k l, s k = some l → ∀ e ∈ l, e.Table ≠ 0 :=
  Reachable.forall_entries (fun _ e => e.Table ≠ 0) normalizeTable_Table_ne s hs

/-- Every route of a reachable store is filed under its own link index. -/
theorem Reachable.key_eq_LinkIndex (s : Store) (hs : Reachable s) :
    ∀ k l, s k = some l → ∀ e ∈ l, e.LinkIndex = k :=
  Reachable.forall_entries (fun k e => e.LinkIndex = k) (fun _ => rfl) s hs

/-- C1. `Add(r)` for a route that is not already managed stores `r` with table 254 when
`r.Table` is 0 and stores `r` unchanged otherwise; every entry that `Add` writes to the
log and that names a table (the entry into `applyRoute`, the kernel list filter, the
create request) names that same table; `applyRoute` is entered whenever the link lookup
does not fail; and no route held in a reachable store has table 0. -/
theorem Add_normalizes_table (ops : NetLinkOps K) (c : Store) (r : Route) (w : World K)
    (h : isManaged c (normalizeTable r) = false) :
    (r.Table = 0 →
      (∃ l, (Add ops c r w).2.1 r.LinkIndex = some (l ++ [{ r with Table := 254 }])) ∧
      ∃ new : List Call, (Add ops c r w).2.2.calls = w.calls ++ new ∧
        ∀ call ∈ new, ∀ t, Call.table? call = some t → t = 254) ∧
    (r.Table ≠ 0 →
      (∃ l, (Add ops c r w).2.1 r.LinkIndex = some (l ++ [r])) ∧
      ∃ new : List Call, (Add ops c r w).2.2.calls = w.calls ++ new ∧
        ∀ call ∈ new, ∀ t, Call.table? call = some t → t = r.Table) ∧
    ((lookupLink ops r.LinkIndex w).1 = none →
      Call.ApplyRoute r.LinkIndex r.Gw r.Dst r.MTU r.Src (if r.Table = 0 then 254 else r.Table)
        r.Priority r.Type_ r.Scope ∈ (Add ops c r w).2.2.calls) ∧
    (∀ s, Reachable s → ∀ k l, s k = some l → ∀ e ∈ l, e.Table ≠ 0) := by
  obtain ⟨l0, hst, _⟩ := addRouteToStore_new c (normalizeTable r) h
  have hstore : (Add ops c r w).2.1 r.LinkIndex = some (l0 ++ [normalizeTable r]) := by
    rw [Add_store, hst, Store.set_apply, normalizeTable_LinkIndex, if_pos rfl]
  obtain ⟨hcalls, happly⟩ := addRoute_calls_table ops c r w h
  rw [← Add_calls] at hcalls happly
  rw [normalizeTable_Table] at hcalls happly
  refine ⟨fun h0 => ?_, fun h0 => ?_, happly, Reachable.table_ne_zero⟩
  · have hn : normalizeTable r = { r with Table := 254 } := by
      unfold normalizeTable; rw [if_pos h0]; rfl
    rw [hn] at hstore
    rw [if_pos h0] at hcalls
    exact ⟨⟨l0, hstore⟩, hcalls⟩
  · have hn : normalizeTable r = r := by
      unfold normalizeTable; rw [if_neg h0]
    rw [hn] at hstore
    rw [if_neg h0] at hcalls
    exact ⟨⟨l0, hstore⟩, hcalls⟩

/-- C1 at the spec's scenario: `Add` of the route on link 5 with table unset, on an
empty store and a kernel holding link 5. -/
theorem Add_normalizes_table_witness :
    isManaged Store.empty (normalizeTable route5) = false ∧
    (Add simOps Store.empty route5 kernel5).2.1 5 = some [{ route5 with Table := 254 }] ∧
    Call.ApplyRoute 5 (some [192, 168, 1, 1]) (some net10) 0 none 254 0 0 0 ∈
      (Add simOps Store.empty route5 kernel5).2.2.calls :=
  ⟨by decide, by decide,
   (Add_normalizes_table simOps Store.empty route5 kernel5 (by decide)).2.2.1 (by decide)⟩

/-! ## The equality predicate compares canonical forms -/

theorem IP.len_eq (ip : IP) : IP.len ip = (IP.bytes ip).length := by
  cases ip <;> rfl

theorem IP.Equal_iff_canon (a b : IP) : IP.Equal a b = true ↔ IP.canon a = IP.canon b := by
  unfold IP.Equal IP.canon
  rw [IP.len_eq a, IP.len_eq b]
  generalize IP.bytes a = A
  generalize IP.bytes b = B
  have hp : v4InV6Prefix.length = 12 := rfl
  by_cases h : A.length = B.length
  · rw [if_pos h]
    by_cases h4 : A.length = 4
    · have h4b : B.length = 4 := by omega
      rw [if_pos h4, if_pos h4b]
      simp
    · have h4b : ¬ B.length = 4 := by omega
      rw [if_neg h4, if_neg h4b]
      simp
  · rw [if_neg h]
    by_cases h1 : A.length = 4 ∧ B.length = 16
    · have h4b : ¬ B.length = 4 := by omega
      rw [if_pos h1, if_pos h1.1, if_neg h4b]
      constructor
      · intro hh
        simp only [Bool.and_eq_true, beq_iff_eq] at hh
        rw [← hh.1, hh.2, List.take_append_drop]
      · intro hh
        simp only [Bool.and_eq_true, beq_iff_eq]
        rw [← hh]
        constructor
        · rw [List.take_left' hp]
        · rw [List.drop_left' hp]
    · rw [if_neg h1]
      by_cases h2 : A.length = 16 ∧ B.length = 4
      · have h4a : ¬ A.length = 4 := by omega
        rw [if_pos h2, if_neg h4a, if_pos h2.2]
        constructor
        · intro hh
          simp only [Bool.and_eq_true, beq_iff_eq] at hh
          rw [← hh.1, ← hh.2, List.take_append_drop]
        · intro hh
          simp only [Bool.and_eq_true, beq_iff_eq]
          rw [hh]
          constructor
          · rw [List.take_left' hp]
          · rw [List.drop_left' hp]
      · rw [if_neg h2]
        constructor
        · intro hh; cases hh
        · intro hh
          exfalso
          have hl := congrArg List.length hh
          split_ifs at hl <;> (try simp only [List.length_append, hp] at hl) <;> omega

theorem IsIPNetEqual_iff_canon (a b : Option IPNet) :
    IsIPNetEqual a b = true ↔ IPNet.canon a = IPNet.canon b := by
  cases a <;> cases b <;> simp [IsIPNetEqual, IPNet.canon, IP.Equal_iff_canon]

theorem RoutePartiallyEqual_iff_canon (r x : Route) :
    RoutePartiallyEqual r x = true ↔ Route.canon r = Route.canon x := by
  simp only [RoutePartiallyEqual, Route.canon, Bool.and_eq_true, beq_iff_eq,
    IsIPNetEqual_iff_canon, IP.Equal_iff_canon, Prod.mk.injEq, and_assoc]

theorem RoutePartiallyEqual_trans (a b c : Route) (h1 : RoutePartiallyEqual a b = true)
    (h2 : RoutePartiallyEqual b c = true) : RoutePartiallyEqual a c = true := by
  rw [RoutePartiallyEqual_iff_canon] at *
  exact h1.trans h2

/-! ## No duplicates -/

theorem isManaged_false_iff (c : Store) (r : Route) (l : List Route)
    (hl : c r.LinkIndex = some l) :
    isManaged c r = false ↔ ∀ e ∈ l, RoutePartiallyEqual e r = false := by
  unfold isManaged
  rw [hl]
  simp

theorem isManaged_true_iff (c : Store) (r : Route) :
    isManaged c r = true ↔
      ∃ l, c r.LinkIndex = some l ∧ ∃ e ∈ l, RoutePartiallyEqual e r = true := by
  unfold isManaged
  split
  · rename_i hn
    simp [hn]
  · rename_i l hl
    simp [hl]

/-- The lists of a reachable store hold no duplicates. -/
theorem Reachable.noDuplicates (s : Store) (hs : Reachable s) :
    ∀ k l, s k = some l → NoDuplicates l := by
  refine Reachable.store_induction (fun s => ∀ k l, s k = some l → NoDuplicates l)
    ?_ ?_ ?_ ?_ s hs
  · intro k l h
    cases h
  · intro c r ih k l hk
    by_cases hm : isManaged c (normalizeTable r) = true
    · rw [addRouteToStore_managed c _ hm] at hk
      exact ih k l hk
    · have hm' : isManaged c (normalizeTable r) = false := by simpa using hm
      obtain ⟨l0, hst, hl0⟩ := addRouteToStore_new c (normalizeTable r) hm'
      rw [hst, Store.set_apply] at hk
      split_ifs at hk with hkk
      · cases hk
        rcases hl0 with ⟨_, rfl⟩ | hl0
        · exact List.pairwise_singleton _ _
        · unfold NoDuplicates
          rw [List.pairwise_append]
          refine ⟨ih _ l0 hl0, List.pairwise_singleton _ _, ?_⟩
          intro a ha b hb
          rcases List.mem_singleton.mp hb with rfl
          exact (isManaged_false_iff c _ l0 hl0).mp hm' a ha
      · exact ih k l hk
  · intro c k0 ih k l hk
    rw [Store.delete_apply] at hk
    split_ifs at hk
    exact ih k l hk
  · intro c r l0 ih hl0 _ k l hk
    rw [Store.set_apply] at hk
    split_ifs at hk
    · cases hk
      exact List.Pairwise.filter _ (ih _ l0 hl0)
    · exact ih k l hk

theorem NoDuplicates.get_ne (l : List Route) (h : NoDuplicates l) (i j : Fin l.length)
    (hij : i ≠ j) : RoutePartiallyEqual (l.get i) (l.get j) = false := by
  have hp := List.pairwise_iff_get.mp h
  rcases lt_or_gt_of_ne hij with h1 | h1
  · exact hp i j h1
  · rw [RoutePartiallyEqual_symm]
    exact hp j i h1

theorem store5b_reachable : Reachable store5b :=
  Reachable.add simOps store5 route5b kernel5
    (Reachable.add simOps Store.empty route5 kernel5 Reachable.init (by decide)) (by decide)

/-- C3. In every store reached from the empty store by `Add`, `Del`,
`processNetlinkEvent` and `sync`, the list stored for a link has no two entries at
distinct positions that are equal under `RoutePartiallyEqual`. -/
theorem Reachable_no_duplicates (s : Store) (hs : Reachable s) (k : Int) (l : List Route)
    (hl : s k = some l) (i j : Fin l.length) (hij : i ≠ j) :
    RoutePartiallyEqual (l.get i) (l.get j) = false :=
  NoDuplicates.get_ne l (Reachable.noDuplicates s hs k l hl) i j hij

/-- C3 at the store holding two routes on link 5: the two entries are not equal. -/
theorem Reachable_no_duplicates_witness :
    Reachable store5b ∧ store5b 5 = some [{ route5 with Table := 254 }, route5b] ∧
    RoutePartiallyEqual { route5 with Table := 254 } route5b = false :=
  ⟨store5b_reachable, by decide,
   Reachable_no_duplicates store5b store5b_reachable 5 [{ route5 with Table := 254 }, route5b]
     (by decide) ⟨0, by decide⟩ ⟨1, by decide⟩ (by decide)⟩

/-! ## Adding twice -/

theorem NoDuplicates.countP_eq_one (l : List Route) (h : NoDuplicates l) (r : Route)
    (hex : ∃ e ∈ l, RoutePartiallyEqual e r = true) :
    l.countP (fun e => RoutePartiallyEqual e r) = 1 := by
  induction l with
  | nil =>
    obtain ⟨e, he, _⟩ := hex
    cases he
  | cons a t ih =>
    unfold NoDuplicates at h
    rw [List.pairwise_cons] at h
    by_cases ha : RoutePartiallyEqual a r = true
    · have ht : ∀ b ∈ t, ¬ (RoutePartiallyEqual b r = true) := by
        intro b hb hbr
        have hab : RoutePartiallyEqual a b = true :=
          RoutePartiallyEqual_trans a r b ha (by rw [RoutePartiallyEqual_symm]; exact hbr)
        rw [h.1 b hb] at hab
        cases hab
      rw [List.countP_cons_of_pos (p := fun e => RoutePartiallyEqual e r) (l := t) ha,
        List.countP_eq_zero.mpr ht]
    · rw [List.countP_cons_of_neg (p := fun e => RoutePartiallyEqual e r) (l := t) ha]
      apply ih h.2
      obtain ⟨e, he, her⟩ := hex
      rcases List.mem_cons.mp he with rfl | he
      · exact absurd her ha
      · exact ⟨e, he, her⟩

/-- After recording `r`, the list of its link holds exactly one entry equal to `r`. -/
theorem addRouteToStore_countEqual (c : Store) (r : Route)
    (hnd : ∀ l, c r.LinkIndex = some l → NoDuplicates l) :
    countEqual (addRouteToStore c r).1 r.LinkIndex r = 1 ∧
    isManaged (addRouteToStore c r).1 r = true := by
  by_cases hm : isManaged c r = true
  · rw [addRouteToStore_managed c r hm]
    obtain ⟨l, hl, hex⟩ := (isManaged_true_iff c r).mp hm
    refine ⟨?_, hm⟩
    unfold countEqual
    rw [hl]
    exact NoDuplicates.countP_eq_one l (hnd l hl) r hex
  · have hm' : isManaged c r = false := by simpa using hm
    obtain ⟨l, hst, hl⟩ := addRouteToStore_new c r hm'
    have hz : l.countP (fun e => RoutePartiallyEqual e r) = 0 := by
      rcases hl with ⟨_, rfl⟩ | hl
      · rfl
      · rw [List.countP_eq_zero]
        intro e he
        rw [(isManaged_false_iff c r l hl).mp hm' e he]
        decide
    constructor
    · unfold countEqual
      rw [hst, Store.set_apply, if_pos rfl]
      simp only
      rw [List.countP_append, hz]
      simp [List.countP_cons, RoutePartiallyEqual_refl]
    · rw [isManaged_true_iff]
      refine ⟨l ++ [r], ?_, r, by simp, RoutePartiallyEqual_refl r⟩
      rw [hst, Store.set_apply, if_pos rfl]

theorem applyRoute_count_add (ops : NetLinkOps K) (linkIndex : Int) (gwIP : IP)
    (subnet : Option IPNet) (mtu : Int) (src : IP) (table priority rtype : Int) (scope : Nat)
    (w : World K) :
    ∃ new : List Call,
      (applyRoute ops linkIndex gwIP subnet mtu src table priority rtype scope w).2.calls =
        w.calls ++ new ∧ new.countP Call.isRouteAdd ≤ 1 := by
  obtain ⟨rest, hc, hr⟩ :=
    applyRoute_calls ops linkIndex gwIP subnet mtu src table priority rtype scope w
  refine ⟨_, hc, ?_⟩
  rcases hr with rfl | ⟨family, more, rfl, rfl | rfl | ⟨e, rfl⟩⟩ <;>
    simp [List.countP_cons, Call.isRouteAdd]

theorem addRoute_count_add (ops : NetLinkOps K) (c : Store) (r : Route) (w : World K) :
    ∃ new : List Call, (addRoute ops c r w).2.2.calls = w.calls ++ new ∧
      new.countP Call.isRouteAdd ≤ 1 := by
  by_cases hm : isManaged c (normalizeTable r) = true
  · rw [addRoute_calls_managed ops c r w hm]
    exact ⟨[], by simp, by simp⟩
  · have hm' : isManaged c (normalizeTable r) = false := by simpa using hm
    have hlk := lookupLink_calls ops r.LinkIndex w
    have hlkc : (if r.LinkIndex ≠ 0 then [Call.LinkByIndex r.LinkIndex] else []).countP
        Call.isRouteAdd = 0 := by
      split_ifs <;> simp [List.countP_cons, Call.isRouteAdd]
    rcases addRoute_calls_new ops c r w hm' with ⟨h1, _⟩ | ⟨_, h2⟩
    · exact ⟨_, by rw [h1, hlk], by rw [hlkc]; exact Nat.zero_le 1⟩
    · obtain ⟨new, hc, hn⟩ := applyRoute_count_add ops r.LinkIndex r.Gw r.Dst r.MTU r.Src
        (normalizeTable r).Table r.Priority r.Type_ r.Scope (lookupLink ops r.LinkIndex w).2
      refine ⟨(if r.LinkIndex ≠ 0 then [Call.LinkByIndex r.LinkIndex] else []) ++ new, ?_, ?_⟩
      · rw [h2, hc, hlk, List.append_assoc]
      · rw [List.countP_append, hlkc, Nat.zero_add]
        exact hn

theorem Add_managed (ops : NetLinkOps K) (c : Store) (r : Route) (w : World K)
    (h : isManaged c (normalizeTable r) = true) : Add ops c r w = (Res.ok, c, w) := by
  unfold Add
  rw [addRoute_calls_managed ops c r w h]

/-- C2, as amended. From a reachable store, whatever error or success the first `Add(r)`
returned and
whatever the kernel has become since, a second `Add(r)` returns no error, leaves the
store as the first call left it and writes nothing to the log, so it makes no kernel
call. The list of `r`'s link then holds exactly one entry equal under
`RoutePartiallyEqual` to `r` with its table normalized (to `r` itself when `r.Table` is
not 0), no other link holds such an entry, and the first call issued at most one kernel
create. -/
theorem Add_twice (ops : NetLinkOps K) (c : Store) (hc : Reachable c) (r : Route)
    (w w' : World K) (hret : (Add ops c r w).1 ≠ Res.panic) :
    Add ops (Add ops c r w).2.1 r w' = (Res.ok, (Add ops c r w).2.1, w') ∧
    countEqual (Add ops c r w).2.1 r.LinkIndex (normalizeTable r) = 1 ∧
    (r.Table ≠ 0 → countEqual (Add ops c r w).2.1 r.LinkIndex r = 1) ∧
    (∀ k, k ≠ r.LinkIndex → countEqual (Add ops c r w).2.1 k (normalizeTable r) = 0) ∧
    ∃ new : List Call, (Add ops c r w).2.2.calls = w.calls ++ new ∧
      new.countP Call.isRouteAdd ≤ 1 := by
  have hnd : ∀ l, c (normalizeTable r).LinkIndex = some l → NoDuplicates l :=
    fun l hl => Reachable.noDuplicates c hc _ l hl
  obtain ⟨hcount, hman⟩ := addRouteToStore_countEqual c (normalizeTable r) hnd
  rw [normalizeTable_LinkIndex] at hcount
  have hreach : Reachable (addRouteToStore c (normalizeTable r)).1 := by
    have h2 := Reachable.add ops c r w hc hret
    rw [Add_store] at h2
    exact h2
  rw [Add_store]
  refine ⟨Add_managed ops _ r w' hman, hcount, ?_, ?_, ?_⟩
  · intro h0
    have hn : normalizeTable r = r := by
      unfold normalizeTable; rw [if_neg h0]
    rw [hn] at hcount ⊢
    exact hcount
  · intro k hk
    unfold countEqual
    split
    · rfl
    · rename_i l hl
      rw [List.countP_eq_zero]
      intro e he her
      have h1 := Reachable.key_eq_LinkIndex _ hreach k l hl e he
      rw [RoutePartiallyEqual_iff_canon] at her
      have h2 : e.LinkIndex = (normalizeTable r).LinkIndex := congrArg Prod.fst her
      rw [normalizeTable_LinkIndex] at h2
      exact hk (h1.symm.trans h2)
  · rw [Add_calls]
    exact addRoute_count_add ops c r w

/-- C2 at the spec's scenario: the second `Add` of the route on link 5 changes nothing,
and the store holds one entry equal to the route with table 254. -/
theorem Add_twice_witness :
    Add simOps store5 route5 kernel0 = (Res.ok, store5, kernel0) ∧
    countEqual store5 5 { route5 with Table := 254 } = 1 :=
  ⟨(Add_twice simOps Store.empty Reachable.init route5 kernel5 kernel0 (by decide)).1,
   (Add_twice simOps Store.empty Reachable.init route5 kernel5 kernel0 (by decide)).2.1⟩

/-- C2 fails as stated when the table is unset: after `Add(route5)` twice the store
holds no entry equal to `route5` under `RoutePartiallyEqual`, because the one entry it
holds has table 254 and `route5` has table 0. -/
theorem Add_twice_counterexample :
    (Add simOps (Add simOps Store.empty route5 kernel5).2.1 route5
      (Add simOps Store.empty route5 kernel5).2.2).1 = Res.ok ∧
    countEqual (Add simOps (Add simOps Store.empty route5 kernel5).2.1 route5
      (Add simOps Store.empty route5 kernel5).2.2).2.1 5 route5 = 0 ∧
    ¬ (countEqual (Add simOps (Add simOps Store.empty route5 kernel5).2.1 route5
      (Add simOps Store.empty route5 kernel5).2.2).2.1 5 route5 = 1) := by
  decide

/-! ## The fields compared by the equality predicate -/

/-- C4, as amended. `RoutePartiallyEqual(r, x)` is true if and only if all ten of these
match: link index, destination subnet (prefix-equal), source IP, gateway IP, table ID,
flags, MTU, type, priority and scope; the remaining fields of either route do not
influence the result. -/
theorem RoutePartiallyEqual_iff_ten_fields (r x : Route) :
    (RoutePartiallyEqual r x = true ↔
      r.LinkIndex = x.LinkIndex ∧ IsIPNetEqual r.Dst x.Dst = true ∧
      IP.Equal r.Src x.Src = true ∧ IP.Equal r.Gw x.Gw = true ∧ r.Table = x.Table ∧
      r.Flags = x.Flags ∧ r.MTU = x.MTU ∧ r.Type_ = x.Type_ ∧ r.Priority = x.Priority ∧
      r.Scope = x.Scope) ∧
    (∀ a b c d : Int,
      RoutePartiallyEqual { r with ILinkIndex := a, Protocol := b, Family := c, Tos := d } x =
        RoutePartiallyEqual r x) ∧
    (∀ a b c d : Int,
      RoutePartiallyEqual r { x with ILinkIndex := a, Protocol := b, Family := c, Tos := d } =
        RoutePartiallyEqual r x) := by
  refine ⟨?_, fun _ _ _ _ => rfl, fun _ _ _ _ => rfl⟩
  simp only [RoutePartiallyEqual, Bool.and_eq_true, beq_iff_eq, and_assoc]

/-- C4 fails as stated: `route5` and `route5p` match on all nine fields the claim lists
(link index, destination, source, gateway, table, flags, MTU, type, scope) and differ
only in priority, yet `RoutePartiallyEqual` is false. -/
theorem RoutePartiallyEqual_nine_fields_counterexample :
    (route5.LinkIndex = route5p.LinkIndex ∧ IsIPNetEqual route5.Dst route5p.Dst = true ∧
      IP.Equal route5.Src route5p.Src = true ∧ IP.Equal route5.Gw route5p.Gw = true ∧
      route5.Table = route5p.Table ∧ route5.Flags = route5p.Flags ∧
      route5.MTU = route5p.MTU ∧ route5.Type_ = route5p.Type_ ∧
      route5.Scope = route5p.Scope) ∧
    RoutePartiallyEqual route5 route5p = false := by
  decide

/-! ## Errors of `Add` -/

theorem lookupLink_fail (ops : NetLinkOps K) (linkIndex : Int) (w : World K) (err : Error)
    (hidx : linkIndex ≠ 0) (herr : (ops.LinkByIndex w.kernel linkIndex).1 = some err) :
    (lookupLink ops linkIndex w).1 = some err ∧
    (lookupLink ops linkIndex w).2.calls = w.calls ++ [Call.LinkByIndex linkIndex] := by
  unfold lookupLink
  rw [if_pos hidx]
  exact ⟨herr, rfl⟩

/-- C5, as amended. For a newly recorded route with a non-zero link index, if the link
lookup fails for any reason, link-not-found included, `Add` returns the wrapped lookup
error, keeps the recorded entry, and logs the lookup only: `applyRoute` is not entered
and no kernel list, create or replace is issued. -/
theorem Add_link_lookup_fails (ops : NetLinkOps K) (c : Store) (r : Route) (w : World K)
    (err : Error) (hnew : isManaged c (normalizeTable r) = false) (hidx : r.LinkIndex ≠ 0)
    (herr : (ops.LinkByIndex w.kernel r.LinkIndex).1 = some err) :
    (Add ops c r w).1 =
      Res.err (Error.wrap "route manager: failed to add route"
        (Error.wrap "failed to apply route because unable to get link" err)) ∧
    (Add ops c r w).2.2.calls = w.calls ++ [Call.LinkByIndex r.LinkIndex] ∧
    isManaged (Add ops c r w).2.1 (normalizeTable r) = true := by
  have hf : (addRouteToStore c (normalizeTable r)).2 = true := by
    rw [addRouteToStore_flag, hnew]; rfl
  obtain ⟨h1, h2⟩ := lookupLink_fail ops r.LinkIndex w err hidx herr
  have hadd : addRoute ops c r w =
      (Res.err (Error.wrap "failed to apply route because unable to get link" err),
       (addRouteToStore c (normalizeTable r)).1, (lookupLink ops r.LinkIndex w).2) := by
    unfold addRoute
    simp only
    rw [if_neg (by rw [hf]; decide), normalizeTable_LinkIndex, h1]
  refine ⟨?_, ?_, ?_⟩
  · unfold Add
    rw [hadd]
  · rw [Add_calls, hadd]
    exact h2
  · rw [Add_store]
    obtain ⟨l, hst, _⟩ := addRouteToStore_new c (normalizeTable r) hnew
    rw [isManaged_true_iff]
    refine ⟨l ++ [normalizeTable r], ?_, normalizeTable r, by simp, RoutePartiallyEqual_refl _⟩
    rw [hst, Store.set_apply, if_pos rfl]

/-- C5 at the spec's scenario with link 5 absent: `Add` returns the lookup error and
logs the lookup only. -/
theorem Add_link_lookup_fails_witness :
    (Add simOps Store.empty route5 kernel0).1 =
      Res.err (Error.wrap "route manager: failed to add route"
        (Error.wrap "failed to apply route because unable to get link" linkNotFound)) ∧
    (Add simOps Store.empty route5 kernel0).2.2.calls = [Call.LinkByIndex 5] :=
  ⟨(Add_link_lookup_fails simOps Store.empty route5 kernel0 linkNotFound (by decide)
      (by decide) (by decide)).1,
   (Add_link_lookup_fails simOps Store.empty route5 kernel0 linkNotFound (by decide)
      (by decide) (by decide)).2.1⟩

/-- C5 fails as stated: the lookup of link 5 fails with an error that
`IsLinkNotFoundError` accepts, and `Add` returns an error on account of it without
entering `applyRoute`. -/
theorem Add_link_not_found_counterexample :
    isManaged Store.empty (normalizeTable route5) = false ∧
    (simOps.LinkByIndex kernel0.kernel route5.LinkIndex).1 = some linkNotFound ∧
    simOps.IsLinkNotFoundError linkNotFound = true ∧
    (Add simOps Store.empty route5 kernel0).1 ≠ Res.ok ∧
    (Add simOps Store.empty route5 kernel0).2.2.calls.any Call.isApplyRoute = false := by
  decide

/-- C6. For a route that is not already managed, if `applyRoute` fails during `Add`
then `Add` returns an error and the store still holds the table-normalized entry that
`Add` recorded, at the end of the list of the route's link. -/
theorem Add_apply_fails (ops : NetLinkOps K) (c : Store) (r : Route) (w : World K)
    (e : Error) (hnew : isManaged c (normalizeTable r) = false)
    (hlk : (lookupLink ops r.LinkIndex w).1 = none)
    (hap : (applyRoute ops r.LinkIndex r.Gw r.Dst r.MTU r.Src (normalizeTable r).Table
      r.Priority r.Type_ r.Scope (lookupLink ops r.LinkIndex w).2).1 = Res.err e) :
    (Add ops c r w).1 =
      Res.err (Error.wrap "route manager: failed to add route"
        (Error.wrap "failed to apply route" e)) ∧
    (∃ l, (Add ops c r w).2.1 r.LinkIndex = some (l ++ [normalizeTable r])) ∧
    isManaged (Add ops c r w).2.1 (normalizeTable r) = true := by
  have hf : (addRouteToStore c (normalizeTable r)).2 = true := by
    rw [addRouteToStore_flag, hnew]; rfl
  have hn : ∀ x : Route, normalizeTable r = x →
      (x.LinkIndex = r.LinkIndex ∧ x.Gw = r.Gw ∧ x.Dst = r.Dst ∧ x.MTU = r.MTU ∧
        x.Src = r.Src ∧ x.Priority = r.Priority ∧ x.Type_ = r.Type_ ∧ x.Scope = r.Scope) := by
    intro x hx
    subst hx
    unfold normalizeTable
    split_ifs <;> simp
  obtain ⟨h1, h2, h3, h4, h5, h6, h7, h8⟩ := hn _ rfl
  have hadd : (addRoute ops c r w).1 = Res.err (Error.wrap "failed to apply route" e) := by
    unfold addRoute
    simp only
    rw [if_neg (by rw [hf]; decide), h1, h2, h3, h4, h5, h6, h7, h8, hlk]
    simp only
    rw [hap]
  obtain ⟨l, hst, _⟩ := addRouteToStore_new c (normalizeTable r) hnew
  have hstore : (Add ops c r w).2.1 r.LinkIndex = some (l ++ [normalizeTable r]) := by
    rw [Add_store, hst, Store.set_apply, normalizeTable_LinkIndex, if_pos rfl]
  refine ⟨?_, ⟨l, hstore⟩, ?_⟩
  · unfold Add
    rw [hadd]
  · rw [isManaged_true_iff, normalizeTable_LinkIndex]
    exact ⟨_, hstore, normalizeTable r, by simp, RoutePartiallyEqual_refl _⟩

/-- C6 on a gateway whose list call fails: `Add` of a route with no link returns the
error and the store keeps the entry with table 254. -/
theorem Add_apply_fails_witness :
    (Add (failOps (Error.kernel 1)) Store.empty route0 failWorld).1 =
      Res.err (Error.wrap "route manager: failed to add route"
        (Error.wrap "failed to apply route"
          (Error.wrap "failed to list filtered routes" (Error.kernel 1)))) ∧
    isManaged (Add (failOps (Error.kernel 1)) Store.empty route0 failWorld).2.1
      (normalizeTable route0) = true :=
  ⟨(Add_apply_fails (failOps (Error.kernel 1)) Store.empty route0 failWorld
      (Error.wrap "failed to list filtered routes" (Error.kernel 1)) (by decide) (by decide)
      (by decide)).1,
   (Add_apply_fails (failOps (Error.kernel 1)) Store.empty route0 failWorld
      (Error.wrap "failed to list filtered routes" (Error.kernel 1)) (by decide) (by decide)
      (by decide)).2.2⟩

/-! ## `Del` -/

/-- C7. For a route with a non-zero link index whose link lookup fails with a
link-not-found error, `Del` returns no error, removes the whole store entry of that
link, leaves every other link's entry as it was, and logs the lookup only: no kernel
route list and no route delete is issued. -/
theorem Del_link_not_found (ops : NetLinkOps K) (c : Store) (r : Route) (w : World K)
    (err : Error) (hidx : r.LinkIndex ≠ 0)
    (herr : (ops.LinkByIndex w.kernel r.LinkIndex).1 = some err)
    (hnf : ops.IsLinkNotFoundError err = true) :
    (Del ops c r w).1 = Res.ok ∧
    (Del ops c r w).2.1 r.LinkIndex = none ∧
    (∀ k, k ≠ r.LinkIndex → (Del ops c r w).2.1 k = c k) ∧
    (Del ops c r w).2.2.calls = w.calls ++ [Call.LinkByIndex r.LinkIndex] ∧
    ((Del ops c r w).2.2.calls.drop w.calls.length).any Call.isListOrDel = false := by
  obtain ⟨h1, h2⟩ := lookupLink_fail ops r.LinkIndex w err hidx herr
  have hdel : delRoute ops c r w =
      (Res.ok, Store.delete c r.LinkIndex, (lookupLink ops r.LinkIndex w).2) := by
    unfold delRoute
    simp only
    rw [h1]
    simp only
    rw [if_pos hnf]
  have hcalls : (Del ops c r w).2.2.calls = w.calls ++ [Call.LinkByIndex r.LinkIndex] := by
    rw [Del_calls, hdel]
    exact h2
  refine ⟨?_, ?_, ?_, hcalls, ?_⟩
  · unfold Del
    rw [hdel]
  · rw [Del_store, hdel]
    simp [Store.delete_apply]
  · intro k hk
    rw [Del_store, hdel]
    simp [Store.delete_apply, hk]
  · rw [hcalls, List.drop_left]
    rfl

/-- C7 at the spec's scenario: `Del` of the route on link 5 when link 5 no longer
resolves drops both routes managed on link 5 and logs the lookup only. -/
theorem Del_link_not_found_witness :
    store5b 5 = some [route254, route5b] ∧
    (Del simOps store5b route254 kernel0).1 = Res.ok ∧
    (Del simOps store5b route254 kernel0).2.1 5 = none ∧
    (Del simOps store5b route254 kernel0).2.2.calls = [Call.LinkByIndex 5] :=
  ⟨by decide,
   (Del_link_not_found simOps store5b route254 kernel0 linkNotFound (by decide) (by decide)
      (by decide)).1,
   (Del_link_not_found simOps store5b route254 kernel0 linkNotFound (by decide) (by decide)
      (by decide)).2.1,
   (Del_link_not_found simOps store5b route254 kernel0 linkNotFound (by decide) (by decide)
      (by decide)).2.2.2.1⟩

theorem delRoute_err_store (ops : NetLinkOps K) (c : Store) (r : Route) (w : World K)
    (e : Error) (h : (delRoute ops c r w).1 = Res.err e) : (delRoute ops c r w).2.1 = c := by
  unfold delRoute at h ⊢
  simp only at h ⊢
  split
  · rename_i err herr
    rw [herr] at h
    simp only at h
    split_ifs with hnf
    · rw [if_pos hnf] at h
      cases h
    · rfl
  · rename_i herr
    rw [herr] at h
    simp only at h
    split
    · rfl
    · rename_i hd
      rw [hd] at h
      simp only at h
      split
      · rfl
      · rename_i l hl
        rw [hl] at h
        simp only at h
        split_ifs at h

theorem Del_err (ops : NetLinkOps K) (c : Store) (r : Route) (w : World K) (e : Error)
    (h : (Del ops c r w).1 = Res.err e) : ∃ e0, (delRoute ops c r w).1 = Res.err e0 := by
  unfold Del at h
  split at h
  · rename_i err herr
    exact ⟨err, herr⟩
  · rename_i res hres
    simp only at h
    exact ⟨e, h⟩

/-- C8. Whenever `Del` returns an error, whatever its cause (link lookup failed for a
reason other than link-not-found, destination missing, kernel list failed, a kernel
route delete failed), the store after the call is the store before the call. -/
theorem Del_error_store_unchanged (ops : NetLinkOps K) (c : Store) (r : Route) (w : World K)
    (e : Error) (h : (Del ops c r w).1 = Res.err e) : (Del ops c r w).2.1 = c := by
  obtain ⟨e0, h0⟩ := Del_err ops c r w e h
  rw [Del_store]
  exact delRoute_err_store ops c r w e0 h0

/-- C8 on a route without destination: `Del` fails and the two routes managed on link 5
stay in the store. -/
theorem Del_error_store_unchanged_witness :
    (Del simOps store5b routeNoDst kernel5).1 =
      Res.err (Error.wrap "route manager: failed to delete route"
        (Error.wrap "failed to delete route"
          (Error.text "cannot delete route with no valid subnet"))) ∧
    (Del simOps store5b routeNoDst kernel5).2.1 = store5b :=
  ⟨by decide,
   Del_error_store_unchanged simOps store5b routeNoDst kernel5
     (Error.wrap "route manager: failed to delete route"
        (Error.wrap "failed to delete route"
          (Error.text "cannot delete route with no valid subnet"))) (by decide)⟩

/-- No link of a reachable store maps to an empty list. -/
theorem Reachable.nonempty (s : Store) (hs : Reachable s) :
    ∀ k l, s k = some l → l ≠ [] := by
  refine Reachable.store_induction (fun s => ∀ k l, s k = some l → l ≠ []) ?_ ?_ ?_ ?_ s hs
  · intro k l h
    cases h
  · intro c r ih k l hk
    by_cases hm : isManaged c (normalizeTable r) = true
    · rw [addRouteToStore_managed c _ hm] at hk
      exact ih k l hk
    · obtain ⟨l0, hst, _⟩ := addRouteToStore_new c (normalizeTable r) (by simpa using hm)
      rw [hst, Store.set_apply] at hk
      split_ifs at hk
      · cases hk
        simp
      · exact ih k l hk
  · intro c k0 ih k l hk
    rw [Store.delete_apply] at hk
    split_ifs at hk
    exact ih k l hk
  · intro c r l0 ih _ hne k l hk
    rw [Store.set_apply] at hk
    split_ifs at hk
    · cases hk
      exact hne
    · exact ih k l hk

theorem delRoutes_calls (ops : NetLinkOps K) (l : List Route) (w : World K) :
    ∃ more : List Call, (delRoutes ops l w).2.calls = w.calls ++ more ∧
      ∀ call ∈ more, ∃ e ∈ l, call = Call.RouteDel e := by
  induction l generalizing w with
  | nil => exact ⟨[], by simp [delRoutes], by simp⟩
  | cons a t ih =>
    unfold delRoutes
    split
    · exact ⟨[Call.RouteDel a], rfl, by simp⟩
    · obtain ⟨more, hm, hall⟩ := ih (RouteDel ops a w).2
      refine ⟨Call.RouteDel a :: more, ?_, ?_⟩
      · rw [hm]
        simp [RouteDel]
      · intro call hcall
        rcases List.mem_cons.mp hcall with rfl | hcall
        · exact ⟨a, by simp, rfl⟩
        · obtain ⟨e, he, hce⟩ := hall call hcall
          exact ⟨e, List.mem_cons_of_mem _ he, hce⟩

/-- With a destination, `netlinkDelRoute` logs the list call filtered by link,
destination and table over all families, then only route deletes; without one it fails
and logs nothing. -/
theorem netlinkDelRoute_calls (ops : NetLinkOps K) (linkIndex : Int) (subnet : Option IPNet)
    (table : Int) (w : World K) :
    (subnet = none ∧ (netlinkDelRoute ops linkIndex subnet table w).1 ≠ none ∧
      (netlinkDelRoute ops linkIndex subnet table w).2 = w) ∨
    ∃ more : List Call,
      (netlinkDelRoute ops linkIndex subnet table w).2.calls =
        w.calls ++ Call.RouteListFiltered FAMILY_ALL
          (filterRouteByDstAndTable linkIndex subnet table).1
          (filterRouteByDstAndTable linkIndex subnet table).2 :: more ∧
      ∀ call ∈ more, ∃ e, call = Call.RouteDel e := by
  unfold netlinkDelRoute
  split
  · exact Or.inl ⟨rfl, by simp, rfl⟩
  · right
    simp only
    split
    · exact ⟨[], by simp [RouteListFiltered], by simp⟩
    · rename_i l _
      obtain ⟨more, hm, hall⟩ := delRoutes_calls ops l
        (RouteListFiltered ops FAMILY_ALL (filterRouteByDstAndTable linkIndex _ table).1
          (filterRouteByDstAndTable linkIndex _ table).2 w).2
      refine ⟨more, ?_, ?_⟩
      · rw [hm]
        simp [RouteListFiltered]
      · intro call hcall
        obtain ⟨e, _, hce⟩ := hall call hcall
        exact ⟨e, hce⟩

/-- The result of `delRoute` and what it does to the kernel do not depend on the store. -/
theorem delRoute_store_blind (ops : NetLinkOps K) (c c' : Store) (r : Route) (w : World K) :
    (delRoute ops c r w).1 = (delRoute ops c' r w).1 ∧
    (delRoute ops c r w).2.2 = (delRoute ops c' r w).2.2 := by
  unfold delRoute
  simp only
  cases (lookupLink ops r.LinkIndex w).1 with
  | some err =>
    simp only
    split_ifs <;> exact ⟨rfl, rfl⟩
  | none =>
    simp only
    cases (netlinkDelRoute ops r.LinkIndex r.Dst r.Table (lookupLink ops r.LinkIndex w).2).1 with
    | some err => exact ⟨rfl, rfl⟩
    | none =>
      simp only
      cases c r.LinkIndex <;> cases c' r.LinkIndex <;> (try simp only) <;> (try split_ifs) <;>
        first
          | exact ⟨rfl, rfl⟩
          | exact ⟨trivial, trivial⟩

/-- A successful `delRoute` has logged at least one kernel call. -/
theorem delRoute_ok_calls (ops : NetLinkOps K) (c : Store) (r : Route) (w : World K)
    (h : (delRoute ops c r w).1 = Res.ok) :
    ∃ new : List Call, (delRoute ops c r w).2.2.calls = w.calls ++ new ∧
      new.any Call.isKernel = true := by
  rw [(delRoute_store_blind ops c Store.empty r w).1] at h
  rw [(delRoute_store_blind ops c Store.empty r w).2]
  have hlk := lookupLink_calls ops r.LinkIndex w
  unfold delRoute at h ⊢
  simp only [Store.empty] at h ⊢
  cases h1 : (lookupLink ops r.LinkIndex w).1 with
  | some err =>
    rw [h1] at h
    simp only at h ⊢
    have hidx : r.LinkIndex ≠ 0 := by
      intro h0
      unfold lookupLink at h1
      rw [if_neg (by simpa using h0)] at h1
      cases h1
    rw [if_pos hidx] at hlk
    split_ifs <;> exact ⟨_, hlk, by simp [Call.isKernel]⟩
  | none =>
    rw [h1] at h
    simp only at h ⊢
    rcases netlinkDelRoute_calls ops r.LinkIndex r.Dst r.Table (lookupLink ops r.LinkIndex w).2
      with ⟨_, hne, _⟩ | ⟨more, hm, _⟩
    · cases h2 : (netlinkDelRoute ops r.LinkIndex r.Dst r.Table
        (lookupLink ops r.LinkIndex w).2).1 with
      | none => exact absurd h2 hne
      | some e => rw [h2] at h; cases h
    · cases h2 : (netlinkDelRoute ops r.LinkIndex r.Dst r.Table
        (lookupLink ops r.LinkIndex w).2).1 with
      | some e => rw [h2] at h; cases h
      | none =>
        simp only
        refine ⟨_, by rw [hm, hlk, List.append_assoc], ?_⟩
        simp [Call.isKernel]

/-- For a route that is not managed, `delRoute` leaves a reachable store as it was,
unless the link lookup reports the link as not found and the link's entry is dropped. -/
theorem delRoute_unmanaged_store (ops : NetLinkOps K) (c : Store) (hc : Reachable c)
    (r : Route) (w : World K) (hun : isManaged c r = false) :
    (delRoute ops c r w).2.1 = c ∨
    ∃ err, (lookupLink ops r.LinkIndex w).1 = some err ∧
      ops.IsLinkNotFoundError err = true ∧
      (delRoute ops c r w).2.1 = Store.delete c r.LinkIndex := by
  unfold delRoute
  simp only
  cases h1 : (lookupLink ops r.LinkIndex w).1 with
  | some err =>
    simp only
    by_cases hnf : ops.IsLinkNotFoundError err = true
    · rw [if_pos hnf]
      exact Or.inr ⟨err, rfl, hnf, rfl⟩
    · rw [if_neg hnf]
      exact Or.inl rfl
  | none =>
    simp only
    left
    cases (netlinkDelRoute ops r.LinkIndex r.Dst r.Table (lookupLink ops r.LinkIndex w).2).1 with
    | some e => rfl
    | none =>
      simp only
      cases h3 : c r.LinkIndex with
      | none => rfl
      | some l =>
        simp only
        have hall := (isManaged_false_iff c r l h3).mp hun
        have hfil : l.filter (fun m => !RoutePartiallyEqual m r) = l := by
          rw [List.filter_eq_self]
          intro e he
          rw [hall e he]
          rfl
        rw [hfil]
        have hne : l.length ≠ 0 := by
          intro h0
          exact Reachable.nonempty c hc _ l h3 (List.length_eq_zero.mp h0)
        rw [if_neg hne]
        funext k
        show Store.set c r.LinkIndex l k = c k
        rw [Store.set_apply]
        split_ifs with hk
        · rw [hk, h3]
        · rfl

/-! ## `Add` followed by `Del` -/

/-- After a successful `delRoute(r)` the store manages no route equal to `r`. -/
theorem delRoute_ok_not_managed (ops : NetLinkOps K) (c : Store) (r : Route) (w : World K)
    (h : (delRoute ops c r w).1 = Res.ok) : isManaged (delRoute ops c r w).2.1 r = false := by
  unfold delRoute at h ⊢
  simp only at h ⊢
  cases h1 : (lookupLink ops r.LinkIndex w).1 with
  | some err =>
    rw [h1] at h
    simp only at h ⊢
    by_cases hnf : ops.IsLinkNotFoundError err = true
    · rw [if_pos hnf]
      simp [isManaged, Store.delete_apply]
    · rw [if_neg hnf] at h
      cases h
  | none =>
    rw [h1] at h
    simp only at h ⊢
    cases h2 : (netlinkDelRoute ops r.LinkIndex r.Dst r.Table
        (lookupLink ops r.LinkIndex w).2).1 with
    | some e => rw [h2] at h; cases h
    | none =>
      simp only
      cases h3 : c r.LinkIndex with
      | none => simp [isManaged, h3]
      | some l =>
        simp only
        split_ifs
        · simp [isManaged, Store.delete_apply]
        · simp [isManaged, Store.set_apply]

/-- The round trip holds when the table is set: after `Add(r)` with `r.Table` not 0, a
successful `Del(r)` leaves no entry equal to the route that `Add` stored. -/
theorem Add_Del_table_set (ops : NetLinkOps K) (c : Store) (r : Route) (w w' : World K)
    (ht : r.Table ≠ 0) (hok : (Del ops (Add ops c r w).2.1 r w').1 = Res.ok) :
    isManaged (Del ops (Add ops c r w).2.1 r w').2.1 (normalizeTable r) = false := by
  have hn : normalizeTable r = r := by
    unfold normalizeTable; rw [if_neg ht]
  rw [hn, Del_store]
  apply delRoute_ok_not_managed
  unfold Del at hok
  split at hok
  · cases hok
  · exact hok

/-- C10 at the failing input: `route5` has a destination and table 0, is not managed
by the empty store, link 5 resolves and every kernel call succeeds; `Add(route5)` stores
`route254`, and `Del(route5)` succeeds yet the store still holds `route254`. -/
theorem Add_Del_table_unset :
    isManaged Store.empty (normalizeTable route5) = false ∧
    (Add simOps Store.empty route5 kernel5).1 = Res.ok ∧
    (Add simOps Store.empty route5 kernel5).2.1 5 = some [route254] ∧
    (Del simOps (Add simOps Store.empty route5 kernel5).2.1 route5
      (Add simOps Store.empty route5 kernel5).2.2).1 = Res.ok ∧
    (Del simOps (Add simOps Store.empty route5 kernel5).2.1 route5
      (Add simOps Store.empty route5 kernel5).2.2).2.1 5 = some [route254] ∧
    isManaged (Del simOps (Add simOps Store.empty route5 kernel5).2.1 route5
      (Add simOps Store.empty route5 kernel5).2.2).2.1 route254 = true := by
  decide

/-! ## The applier, case by case -/

theorem applyRoute_nil (ops : NetLinkOps K) (linkIndex : Int) (gwIP : IP) (mtu : Int)
    (src : IP) (table priority rtype : Int) (scope : Nat) (w : World K) :
    applyRoute ops linkIndex gwIP none mtu src table priority rtype scope w =
      (Res.panic, { w with calls := w.calls ++
        [Call.ApplyRoute linkIndex gwIP none mtu src table priority rtype scope] }) := rfl

/-- The filter of every list call: link, destination and table, nothing else. -/
theorem filterRouteByDstAndTable_eq (linkIndex : Int) (subnet : Option IPNet) (table : Int) :
    filterRouteByDstAndTable linkIndex subnet table =
      ({ Route.zero with Dst := subnet, LinkIndex := linkIndex, Table := table }, 1216) := rfl

/-- No existing route: `applyRoute` creates. -/
theorem applyRoute_create (ops : NetLinkOps K) (linkIndex : Int) (gwIP : IP)
    (subnet : Option IPNet) (mtu : Int) (src : IP) (table priority rtype : Int) (scope : Nat)
    (w : World K) (family : Int) (hf : getNetlinkIPFamily subnet = some family)
    (hl : (ops.RouteListFiltered w.kernel family
      (filterRouteByDstAndTable linkIndex subnet table).1
      (filterRouteByDstAndTable linkIndex subnet table).2).1 = Except.ok []) :
    (applyRoute ops linkIndex gwIP subnet mtu src table priority rtype scope w).2.calls =
      w.calls ++
        [Call.ApplyRoute linkIndex gwIP subnet mtu src table priority rtype scope,
         Call.RouteListFiltered family (filterRouteByDstAndTable linkIndex subnet table).1
           (filterRouteByDstAndTable linkIndex subnet table).2,
         Call.RouteAdd (newNlRoute linkIndex gwIP subnet mtu src table priority rtype scope)] ∧
    (applyRoute ops linkIndex gwIP subnet mtu src table priority rtype scope w).1 =
      match (ops.RouteAdd (ops.RouteListFiltered w.kernel family
          (filterRouteByDstAndTable linkIndex subnet table).1
          (filterRouteByDstAndTable linkIndex subnet table).2).2
          (newNlRoute linkIndex gwIP subnet mtu src table priority rtype scope)).1 with
      | some err => Res.err (Error.wrap "failed to add route" err)
      | none => Res.ok := by
  unfold applyRoute
  simp only [hf, RouteListFiltered, hl, netlinkAddRoute, RouteAdd]
  constructor
  · split <;> simp
  · split <;> rename_i h <;> simp [h]

/-- An existing route that differs in MTU, source or gateway: `applyRoute` replaces. -/
theorem applyRoute_replace (ops : NetLinkOps K) (linkIndex : Int) (gwIP : IP)
    (subnet : Option IPNet) (mtu : Int) (src : IP) (table priority rtype : Int) (scope : Nat)
    (w : World K) (family : Int) (hf : getNetlinkIPFamily subnet = some family)
    (e : Route) (rest : List Route)
    (hl : (ops.RouteListFiltered w.kernel family
      (filterRouteByDstAndTable linkIndex subnet table).1
      (filterRouteByDstAndTable linkIndex subnet table).2).1 = Except.ok (e :: rest))
    (hd : e.MTU ≠ mtu ∨ IP.Equal src e.Src = false ∨ IP.Equal gwIP e.Gw = false) :
    (applyRoute ops linkIndex gwIP subnet mtu src table priority rtype scope w).2.calls =
      w.calls ++
        [Call.ApplyRoute linkIndex gwIP subnet mtu src table priority rtype scope,
         Call.RouteListFiltered family (filterRouteByDstAndTable linkIndex subnet table).1
           (filterRouteByDstAndTable linkIndex subnet table).2,
         Call.RouteReplace { e with MTU := mtu, Src := src, Gw := gwIP }] := by
  have hc : (e.MTU != mtu || !IP.Equal src e.Src || !IP.Equal gwIP e.Gw) = true := by
    rcases hd with h | h | h
    · simp [h]
    · simp [h]
    · simp [h]
  unfold applyRoute
  simp only [hf, RouteListFiltered, hl, RouteReplace]
  rw [if_pos hc]
  split <;> simp

/-- An existing route with the desired MTU, source and gateway: `applyRoute` does nothing
more. -/
theorem applyRoute_noop (ops : NetLinkOps K) (linkIndex : Int) (gwIP : IP)
    (subnet : Option IPNet) (mtu : Int) (src : IP) (table priority rtype : Int) (scope : Nat)
    (w : World K) (family : Int) (hf : getNetlinkIPFamily subnet = some family)
    (e : Route) (rest : List Route)
    (hl : (ops.RouteListFiltered w.kernel family
      (filterRouteByDstAndTable linkIndex subnet table).1
      (filterRouteByDstAndTable linkIndex subnet table).2).1 = Except.ok (e :: rest))
    (h1 : e.MTU = mtu) (h2 : IP.Equal src e.Src = true) (h3 : IP.Equal gwIP e.Gw = true) :
    applyRoute ops linkIndex gwIP subnet mtu src table priority rtype scope w =
      (Res.ok,
       { kernel := (ops.RouteListFiltered w.kernel family
           (filterRouteByDstAndTable linkIndex subnet table).1
           (filterRouteByDstAndTable linkIndex subnet table).2).2,
         calls := w.calls ++
           [Call.ApplyRoute linkIndex gwIP subnet mtu src table priority rtype scope,
            Call.RouteListFiltered family (filterRouteByDstAndTable linkIndex subnet table).1
              (filterRouteByDstAndTable linkIndex subnet table).2] }) := by
  have hc : ¬ ((e.MTU != mtu || !IP.Equal src e.Src || !IP.Equal gwIP e.Gw) = true) := by
    simp [h1, h2, h3]
  unfold applyRoute
  simp only [hf, RouteListFiltered, hl]
  rw [if_neg hc]
  simp

/-- The create request, field by field. -/
theorem newNlRoute_eq (linkIndex : Int) (gwIP : IP) (subnet : Option IPNet) (mtu : Int)
    (srcIP : IP) (table priority rtype : Int) (scope : Nat) :
    newNlRoute linkIndex gwIP subnet mtu srcIP table priority rtype scope =
      { LinkIndex := linkIndex, ILinkIndex := 0,
        Scope := if scope ≠ 0 then scope else SCOPE_UNIVERSE,
        Dst := subnet,
        Src := if IP.len srcIP > 0 then srcIP else none,
        Gw := if IP.len gwIP > 0 then gwIP else none,
        Protocol := 0,
        Priority := if priority ≠ 0 then priority else 0,
        Family := 0, Table := table,
        Type_ := if rtype ≠ 0 then rtype else 0,
        Tos := 0, Flags := 0,
        MTU := if mtu ≠ 0 then mtu else 0 } := by
  unfold newNlRoute Route.zero SCOPE_UNIVERSE
  simp only
  split_ifs <;> rfl

/-- C12. When `applyRoute` is given a subnet and the kernel list filtered by link,
subnet and table returns no route, it logs the list and then exactly one kernel create
and no replace. The created route carries the given destination, link index and table;
gateway and source when non-empty, MTU, priority and type when non-zero, and are unset
otherwise; its scope is the given scope when non-zero and universe otherwise; every
other field, flags included, is unset. -/
theorem applyRoute_creates (ops : NetLinkOps K) (linkIndex : Int) (gwIP : IP)
    (subnet : Option IPNet) (mtu : Int) (src : IP) (table priority rtype : Int) (scope : Nat)
    (w : World K) (family : Int) (hf : getNetlinkIPFamily subnet = some family)
    (hl : (ops.RouteListFiltered w.kernel family
      { Route.zero with Dst := subnet, LinkIndex := linkIndex, Table := table }
      (RT_FILTER_DST + RT_FILTER_OIF + RT_FILTER_TABLE)).1 = Except.ok []) :
    (applyRoute ops linkIndex gwIP subnet mtu src table priority rtype scope w).2.calls =
      w.calls ++
        [Call.ApplyRoute linkIndex gwIP subnet mtu src table priority rtype scope,
         Call.RouteListFiltered family
           { Route.zero with Dst := subnet, LinkIndex := linkIndex, Table := table }
           (RT_FILTER_DST + RT_FILTER_OIF + RT_FILTER_TABLE),
         Call.RouteAdd
           { LinkIndex := linkIndex, ILinkIndex := 0,
             Scope := if scope ≠ 0 then scope else SCOPE_UNIVERSE,
             Dst := subnet,
             Src := if IP.len src > 0 then src else none,
             Gw := if IP.len gwIP > 0 then gwIP else none,
             Protocol := 0,
             Priority := if priority ≠ 0 then priority else 0,
             Family := 0, Table := table,
             Type_ := if rtype ≠ 0 then rtype else 0,
             Tos := 0, Flags := 0,
             MTU := if mtu ≠ 0 then mtu else 0 }] ∧
    ((applyRoute ops linkIndex gwIP subnet mtu src table priority rtype scope w).2.calls.drop
      w.calls.length).countP Call.isRouteAdd = 1 ∧
    ((applyRoute ops linkIndex gwIP subnet mtu src table priority rtype scope w).2.calls.drop
      w.calls.length).countP Call.isRouteReplace = 0 := by
  have h := (applyRoute_create ops linkIndex gwIP subnet mtu src table priority rtype scope w
    family hf hl).1
  rw [newNlRoute_eq] at h
  refine ⟨h, ?_, ?_⟩
  · rw [h, List.drop_left]
    rfl
  · rw [h, List.drop_left]
    rfl

/-- C12 on a kernel with link 5 and no route: `applyRoute` for the spec's route creates
`10.0.0.0/24 via 192.168.1.1 dev 5 table 254 scope universe`. -/
theorem applyRoute_creates_witness :
    (applyRoute simOps 5 (some [192, 168, 1, 1]) (some net10) 0 none 254 0 0 0
      kernel5).2.calls =
      [Call.ApplyRoute 5 (some [192, 168, 1, 1]) (some net10) 0 none 254 0 0 0,
       Call.RouteListFiltered 2
         { Route.zero with Dst := some net10, LinkIndex := 5, Table := 254 } 1216,
       Call.RouteAdd route254] :=
  (applyRoute_creates simOps 5 (some [192, 168, 1, 1]) (some net10) 0 none 254 0 0 0
    kernel5 2 (by decide) rfl).1

/-- C13. When the kernel list returns an existing route `e` first whose MTU, source IP
or gateway IP differs from the desired one, `applyRoute` logs exactly one kernel
replace, of `e` with MTU, source and gateway overwritten by the desired values and every
other field as in `e`. When source and gateway already match, the replaced route differs
from `e` in MTU only, up to IP equality. -/
theorem applyRoute_replaces (ops : NetLinkOps K) (linkIndex : Int) (gwIP : IP)
    (subnet : Option IPNet) (mtu : Int) (src : IP) (table priority rtype : Int) (scope : Nat)
    (w : World K) (family : Int) (hf : getNetlinkIPFamily subnet = some family)
    (e : Route) (rest : List Route)
    (hl : (ops.RouteListFiltered w.kernel family
      { Route.zero with Dst := subnet, LinkIndex := linkIndex, Table := table }
      (RT_FILTER_DST + RT_FILTER_OIF + RT_FILTER_TABLE)).1 = Except.ok (e :: rest))
    (hd : e.MTU ≠ mtu ∨ IP.Equal src e.Src = false ∨ IP.Equal gwIP e.Gw = false) :
    (applyRoute ops linkIndex gwIP subnet mtu src table priority rtype scope w).2.calls =
      w.calls ++
        [Call.ApplyRoute linkIndex gwIP subnet mtu src table priority rtype scope,
         Call.RouteListFiltered family
           { Route.zero with Dst := subnet, LinkIndex := linkIndex, Table := table }
           (RT_FILTER_DST + RT_FILTER_OIF + RT_FILTER_TABLE),
         Call.RouteReplace
           { LinkIndex := e.LinkIndex, ILinkIndex := e.ILinkIndex, Scope := e.Scope,
             Dst := e.Dst, Src := src, Gw := gwIP, Protocol := e.Protocol,
             Priority := e.Priority, Family := e.Family, Table := e.Table,
             Type_ := e.Type_, Tos := e.Tos, Flags := e.Flags, MTU := mtu }] ∧
    ((applyRoute ops linkIndex gwIP subnet mtu src table priority rtype scope w).2.calls.drop
      w.calls.length).countP Call.isRouteReplace = 1 ∧
    (IP.Equal src e.Src = true → IP.Equal gwIP e.Gw = true →
      RoutePartiallyEqual { e with MTU := mtu, Src := src, Gw := gwIP } { e with MTU := mtu }
        = true ∧
      { e with MTU := mtu, Src := src, Gw := gwIP } =
        { { e with MTU := mtu } with Src := src, Gw := gwIP }) := by
  have h := applyRoute_replace ops linkIndex gwIP subnet mtu src table priority rtype scope w
    family hf e rest hl hd
  refine ⟨h, ?_, ?_⟩
  · rw [h, List.drop_left]
    rfl
  · intro h2 h3
    refine ⟨?_, rfl⟩
    simp [RoutePartiallyEqual, IsIPNetEqual_refl, h2, h3]

/-- C13 on a kernel holding the route with MTU 1400: `applyRoute` with the desired MTU
0 and matching gateway and source replaces it by the same route with MTU 0. -/
theorem applyRoute_replaces_witness :
    (applyRoute simOps 5 (some [192, 168, 1, 1]) (some net10) 0 none 254 0 0 0
      kernel5m).2.calls =
      [Call.ApplyRoute 5 (some [192, 168, 1, 1]) (some net10) 0 none 254 0 0 0,
       Call.RouteListFiltered 2
         { Route.zero with Dst := some net10, LinkIndex := 5, Table := 254 } 1216,
       Call.RouteReplace { route254m with MTU := 0 }] :=
  (applyRoute_replaces simOps 5 (some [192, 168, 1, 1]) (some net10) 0 none 254 0 0 0
    kernel5m 2 (by decide) route254m [] rfl (by decide)).1

/-- C14. When the kernel list returns an existing route first whose MTU is the desired
MTU and whose source and gateway are IP-equal to the desired ones, `applyRoute` returns
no error and logs the list only: no kernel create, replace or delete, whatever the
priority, type, scope and flags of the existing route. -/
theorem applyRoute_leaves (ops : NetLinkOps K) (linkIndex : Int) (gwIP : IP)
    (subnet : Option IPNet) (mtu : Int) (src : IP) (table priority rtype : Int) (scope : Nat)
    (w : World K) (family : Int) (hf : getNetlinkIPFamily subnet = some family)
    (e : Route) (rest : List Route)
    (hl : (ops.RouteListFiltered w.kernel family
      { Route.zero with Dst := subnet, LinkIndex := linkIndex, Table := table }
      (RT_FILTER_DST + RT_FILTER_OIF + RT_FILTER_TABLE)).1 = Except.ok (e :: rest))
    (h1 : e.MTU = mtu) (h2 : IP.Equal src e.Src = true) (h3 : IP.Equal gwIP e.Gw = true) :
    (applyRoute ops linkIndex gwIP subnet mtu src table priority rtype scope w).1 = Res.ok ∧
    (applyRoute ops linkIndex gwIP subnet mtu src table priority rtype scope w).2.calls =
      w.calls ++
        [Call.ApplyRoute linkIndex gwIP subnet mtu src table priority rtype scope,
         Call.RouteListFiltered family
           { Route.zero with Dst := subnet, LinkIndex := linkIndex, Table := table }
           (RT_FILTER_DST + RT_FILTER_OIF + RT_FILTER_TABLE)] := by
  rw [applyRoute_noop ops linkIndex gwIP subnet mtu src table priority rtype scope w
    family hf e rest hl h1 h2 h3]
  exact ⟨rfl, rfl⟩

/-- C14 on a kernel holding the route with flags 4 and priority 100 set by someone
else: `applyRoute` lists and leaves the kernel alone. -/
theorem applyRoute_leaves_witness :
    (applyRoute simOps 5 (some [192, 168, 1, 1]) (some net10) 0 none 254 0 0 0
      kernel5f).1 = Res.ok ∧
    (applyRoute simOps 5 (some [192, 168, 1, 1]) (some net10) 0 none 254 0 0 0
      kernel5f).2.calls =
      [Call.ApplyRoute 5 (some [192, 168, 1, 1]) (some net10) 0 none 254 0 0 0,
       Call.RouteListFiltered 2
         { Route.zero with Dst := some net10, LinkIndex := 5, Table := 254 } 1216] :=
  applyRoute_leaves simOps 5 (some [192, 168, 1, 1]) (some net10) 0 none 254 0 0 0
    kernel5f 2 (by decide) route254f [] rfl (by decide) (by decide) (by decide)

/-! ## The kernel delete of `Del` -/

/-- When every delete succeeds, `delRoutes` deletes each route of the list in order. -/
theorem delRoutes_all (ops : NetLinkOps K) (l : List Route) (w : World K)
    (h : deletesSucceed ops l w.kernel = true) :
    (delRoutes ops l w).1 = none ∧
    (delRoutes ops l w).2.calls = w.calls ++ l.map Call.RouteDel ∧
    (delRoutes ops l w).2.kernel = kernelAfterDeletes ops l w.kernel := by
  induction l generalizing w with
  | nil => exact ⟨rfl, by simp [delRoutes], rfl⟩
  | cons x t ih =>
    unfold deletesSucceed at h
    rw [Bool.and_eq_true] at h
    have hx : (RouteDel ops x w).1 = none := by
      simpa [RouteDel, Option.isNone_iff_eq_none] using h.1
    obtain ⟨h1, h2, h3⟩ := ih (RouteDel ops x w).2 h.2
    unfold delRoutes
    rw [hx]
    refine ⟨h1, ?_, ?_⟩
    · rw [h2]
      simp [RouteDel]
    · rw [h3]
      rfl

/-- When the deletes of `pre` succeed and the delete of `x` fails, `delRoutes` stops
after `x` and returns its error. -/
theorem delRoutes_stop (ops : NetLinkOps K) (pre : List Route) (x : Route) (post : List Route)
    (w : World K) (e : Error) (h : deletesSucceed ops pre w.kernel = true)
    (hx : (ops.RouteDel (kernelAfterDeletes ops pre w.kernel) x).1 = some e) :
    (delRoutes ops (pre ++ x :: post) w).1 = some e ∧
    (delRoutes ops (pre ++ x :: post) w).2.calls =
      w.calls ++ (pre ++ [x]).map Call.RouteDel := by
  induction pre generalizing w with
  | nil =>
    have hx' : (RouteDel ops x w).1 = some e := hx
    simp only [List.nil_append]
    unfold delRoutes
    rw [hx']
    exact ⟨rfl, by simp [RouteDel]⟩
  | cons y t ih =>
    unfold deletesSucceed at h
    rw [Bool.and_eq_true] at h
    have hy : (RouteDel ops y w).1 = none := by
      simpa [RouteDel, Option.isNone_iff_eq_none] using h.1
    obtain ⟨h1, h2⟩ := ih (RouteDel ops y w).2 h.2 hx
    simp only [List.cons_append]
    unfold delRoutes
    rw [hy]
    refine ⟨h1, ?_⟩
    rw [h2]
    simp [RouteDel]

/-- C11. For a route with a destination whose link is 0 or resolves, `Del` lists the
kernel routes over all address families with the filter made of exactly the route's link
index, destination and table. If every delete succeeds it then deletes each route the
list returned, in order, and returns no error, whatever those routes and whatever the
store holds; if the delete of a listed route fails after the deletes before it
succeeded, it issues no further delete and returns that error, wrapped. -/
theorem Del_deletes_listed (ops : NetLinkOps K) (c : Store) (r : Route) (w : World K)
    (d : IPNet) (listed : List Route) (hdst : r.Dst = some d)
    (hlk : (lookupLink ops r.LinkIndex w).1 = none)
    (hl : (ops.RouteListFiltered (lookupLink ops r.LinkIndex w).2.kernel FAMILY_ALL
      { Route.zero with Dst := r.Dst, LinkIndex := r.LinkIndex, Table := r.Table }
      (RT_FILTER_DST + RT_FILTER_OIF + RT_FILTER_TABLE)).1 = Except.ok listed) :
    (deletesSucceed ops listed
        (ops.RouteListFiltered (lookupLink ops r.LinkIndex w).2.kernel FAMILY_ALL
          { Route.zero with Dst := r.Dst, LinkIndex := r.LinkIndex, Table := r.Table }
          (RT_FILTER_DST + RT_FILTER_OIF + RT_FILTER_TABLE)).2 = true →
      (Del ops c r w).1 = Res.ok ∧
      (Del ops c r w).2.2.calls =
        (lookupLink ops r.LinkIndex w).2.calls ++
          Call.RouteListFiltered FAMILY_ALL
            { Route.zero with Dst := r.Dst, LinkIndex := r.LinkIndex, Table := r.Table }
            (RT_FILTER_DST + RT_FILTER_OIF + RT_FILTER_TABLE) ::
          listed.map Call.RouteDel) ∧
    (∀ (pre : List Route) (x : Route) (post : List Route) (e : Error),
      listed = pre ++ x :: post →
      deletesSucceed ops pre
        (ops.RouteListFiltered (lookupLink ops r.LinkIndex w).2.kernel FAMILY_ALL
          { Route.zero with Dst := r.Dst, LinkIndex := r.LinkIndex, Table := r.Table }
          (RT_FILTER_DST + RT_FILTER_OIF + RT_FILTER_TABLE)).2 = true →
      (ops.RouteDel (kernelAfterDeletes ops pre
        (ops.RouteListFiltered (lookupLink ops r.LinkIndex w).2.kernel FAMILY_ALL
          { Route.zero with Dst := r.Dst, LinkIndex := r.LinkIndex, Table := r.Table }
          (RT_FILTER_DST + RT_FILTER_OIF + RT_FILTER_TABLE)).2) x).1 = some e →
      (Del ops c r w).1 =
        Res.err (Error.wrap "route manager: failed to delete route"
          (Error.wrap "failed to delete route" e)) ∧
      (Del ops c r w).2.2.calls =
        (lookupLink ops r.LinkIndex w).2.calls ++
          Call.RouteListFiltered FAMILY_ALL
            { Route.zero with Dst := r.Dst, LinkIndex := r.LinkIndex, Table := r.Table }
            (RT_FILTER_DST + RT_FILTER_OIF + RT_FILTER_TABLE) ::
          (pre ++ [x]).map Call.RouteDel) := by
  have hnd : netlinkDelRoute ops r.LinkIndex r.Dst r.Table (lookupLink ops r.LinkIndex w).2 =
      delRoutes ops listed (RouteListFiltered ops FAMILY_ALL
        (filterRouteByDstAndTable r.LinkIndex r.Dst r.Table).1
        (filterRouteByDstAndTable r.LinkIndex r.Dst r.Table).2
        (lookupLink ops r.LinkIndex w).2).2 := by
    unfold netlinkDelRoute
    rw [hdst]
    simp only
    rw [← hdst]
    have hl' : (RouteListFiltered ops FAMILY_ALL
        (filterRouteByDstAndTable r.LinkIndex r.Dst r.Table).1
        (filterRouteByDstAndTable r.LinkIndex r.Dst r.Table).2
        (lookupLink ops r.LinkIndex w).2).1 = Except.ok listed := hl
    rw [hl']
  have hres : (Del ops c r w).1 =
      match (netlinkDelRoute ops r.LinkIndex r.Dst r.Table (lookupLink ops r.LinkIndex w).2).1 with
      | some err => Res.err (Error.wrap "route manager: failed to delete route"
          (Error.wrap "failed to delete route" err))
      | none => Res.ok := by
    unfold Del delRoute
    simp only [hlk]
    cases (netlinkDelRoute ops r.LinkIndex r.Dst r.Table (lookupLink ops r.LinkIndex w).2).1 with
    | some err => rfl
    | none =>
      simp only
      cases c r.LinkIndex with
      | none => rfl
      | some l =>
        simp only
        split_ifs <;> rfl
  have hcalls : (Del ops c r w).2.2 =
      (netlinkDelRoute ops r.LinkIndex r.Dst r.Table (lookupLink ops r.LinkIndex w).2).2 := by
    rw [Del_calls]
    unfold delRoute
    simp only [hlk]
    cases (netlinkDelRoute ops r.LinkIndex r.Dst r.Table (lookupLink ops r.LinkIndex w).2).1 with
    | some err => rfl
    | none =>
      simp only
      cases c r.LinkIndex with
      | none => rfl
      | some l =>
        simp only
        split_ifs <;> rfl
  rw [hres, hcalls, hnd]
  constructor
  · intro hall
    obtain ⟨h1, h2, _⟩ := delRoutes_all ops listed (RouteListFiltered ops FAMILY_ALL
      (filterRouteByDstAndTable r.LinkIndex r.Dst r.Table).1
      (filterRouteByDstAndTable r.LinkIndex r.Dst r.Table).2
      (lookupLink ops r.LinkIndex w).2).2 hall
    rw [h1, h2]
    exact ⟨rfl, by simp [RouteListFiltered, filterRouteByDstAndTable_eq]; rfl⟩
  · intro pre x post e hsplit hpre hx
    subst hsplit
    obtain ⟨h1, h2⟩ := delRoutes_stop ops pre x post (RouteListFiltered ops FAMILY_ALL
      (filterRouteByDstAndTable r.LinkIndex r.Dst r.Table).1
      (filterRouteByDstAndTable r.LinkIndex r.Dst r.Table).2
      (lookupLink ops r.LinkIndex w).2).2 e hpre hx
    rw [h1, h2]
    exact ⟨rfl, by simp [RouteListFiltered, filterRouteByDstAndTable_eq]; rfl⟩

/-- C11 on a kernel holding `route254` and `route254m`, which differ in MTU only:
`Del(route254)` lists with the filter (5, 10.0.0.0/24, 254) over all families and
deletes both, though `route254m` is equal to no managed route. -/
theorem Del_deletes_listed_witness :
    isManaged store5 route254m = false ∧
    (Del simOps store5 route254 kernel5rm).1 = Res.ok ∧
    (Del simOps store5 route254 kernel5rm).2.2.calls =
      [Call.LinkByIndex 5,
       Call.RouteListFiltered 0
         { Route.zero with Dst := some net10, LinkIndex := 5, Table := 254 } 1216,
       Call.RouteDel route254, Call.RouteDel route254m] :=
  ⟨by decide,
   ((Del_deletes_listed simOps store5 route254 kernel5rm net10 [route254, route254m] rfl
      (by decide) rfl).1 (by decide)).1,
   ((Del_deletes_listed simOps store5 route254 kernel5rm net10 [route254, route254m] rfl
      (by decide) rfl).1 (by decide)).2⟩

/-! ## The event processor -/

/-- C15. On a new-route notification `processNetlinkEvent` returns no error, leaves the
store as it is and logs nothing: no link lookup, list, create, replace or delete, even
when the notified route is equal to a managed route. -/
theorem processNetlinkEvent_new_route (ops : NetLinkOps K) (c : Store) (ru : RouteUpdate)
    (w : World K) (h : ru.Type_ = RTM_NEWROUTE) :
    processNetlinkEvent ops c ru w = (Res.ok, c, w) := by
  unfold processNetlinkEvent
  rw [if_pos h]

/-- C15 on a new-route notification for the managed route `route254`. -/
theorem processNetlinkEvent_new_route_witness :
    isManaged store5 route254 = true ∧
    processNetlinkEvent simOps store5 { Type_ := RTM_NEWROUTE, Route := route254 } kernel5 =
      (Res.ok, store5, kernel5) :=
  ⟨by decide,
   processNetlinkEvent_new_route simOps store5 { Type_ := RTM_NEWROUTE, Route := route254 }
     kernel5 rfl⟩

/-! ## Continuations of the call log -/

theorem Extends.refl (P : Call → Prop) (w : World K) : Extends P w w :=
  ⟨[], by simp, by simp⟩

theorem Extends.trans (P : Call → Prop) (w1 w2 w3 : World K) (h1 : Extends P w1 w2)
    (h2 : Extends P w2 w3) : Extends P w1 w3 := by
  obtain ⟨n1, e1, p1⟩ := h1
  obtain ⟨n2, e2, p2⟩ := h2
  refine ⟨n1 ++ n2, by rw [e2, e1, List.append_assoc], ?_⟩
  intro call hcall
  rcases List.mem_append.mp hcall with h | h
  · exact p1 call h
  · exact p2 call h

theorem Extends.mono (P Q : Call → Prop) (w1 w2 : World K) (h : Extends P w1 w2)
    (hPQ : ∀ call, P call → Q call) : Extends Q w1 w2 := by
  obtain ⟨n, e, p⟩ := h
  exact ⟨n, e, fun call hcall => hPQ call (p call hcall)⟩

theorem lookupLink_extends (P : Call → Prop) (ops : NetLinkOps K) (linkIndex : Int)
    (w : World K) (h : linkIndex ≠ 0 → P (Call.LinkByIndex linkIndex)) :
    Extends P w (lookupLink ops linkIndex w).2 := by
  refine ⟨_, lookupLink_calls ops linkIndex w, ?_⟩
  intro call hcall
  split_ifs at hcall with h0
  · rcases List.mem_singleton.mp hcall with rfl
    exact h h0
  · cases hcall

theorem RouteListFiltered_extends (P : Call → Prop) (ops : NetLinkOps K) (family : Int)
    (filter : Route) (filterMask : Nat) (w : World K)
    (h : P (Call.RouteListFiltered family filter filterMask)) :
    Extends P w (RouteListFiltered ops family filter filterMask w).2 := by
  refine ⟨[Call.RouteListFiltered family filter filterMask], rfl, ?_⟩
  intro call hcall
  rcases List.mem_singleton.mp hcall with rfl
  exact h

/-- Every entry `applyRoute` logs is one of `IsApplyCall`. -/
theorem applyRoute_extends (ops : NetLinkOps K) (linkIndex : Int) (gwIP : IP)
    (subnet : Option IPNet) (mtu : Int) (src : IP) (table priority rtype : Int) (scope : Nat)
    (w : World K) :
    Extends (IsApplyCall ops linkIndex gwIP subnet mtu src table priority rtype scope) w
      (applyRoute ops linkIndex gwIP subnet mtu src table priority rtype scope w).2 := by
  cases hf : getNetlinkIPFamily subnet with
  | none =>
    have hs : subnet = none := by
      cases subnet with
      | none => rfl
      | some d =>
        simp only [getNetlinkIPFamily] at hf
        split_ifs at hf
    subst hs
    rw [applyRoute_nil]
    exact ⟨_, rfl, fun call hcall => by
      rcases List.mem_singleton.mp hcall with rfl
      exact Or.inl rfl⟩
  | some family =>
    have hA : IsApplyCall ops linkIndex gwIP subnet mtu src table priority rtype scope
        (Call.ApplyRoute linkIndex gwIP subnet mtu src table priority rtype scope) :=
      Or.inl rfl
    have hL : IsApplyCall ops linkIndex gwIP subnet mtu src table priority rtype scope
        (Call.RouteListFiltered family (filterRouteByDstAndTable linkIndex subnet table).1
          (filterRouteByDstAndTable linkIndex subnet table).2) :=
      Or.inr (Or.inl ⟨family, rfl⟩)
    cases hl : (ops.RouteListFiltered w.kernel family
        (filterRouteByDstAndTable linkIndex subnet table).1
        (filterRouteByDstAndTable linkIndex subnet table).2).1 with
    | error err =>
      refine ⟨[Call.ApplyRoute linkIndex gwIP subnet mtu src table priority rtype scope,
        Call.RouteListFiltered family (filterRouteByDstAndTable linkIndex subnet table).1
          (filterRouteByDstAndTable linkIndex subnet table).2], ?_, ?_⟩
      · unfold applyRoute
        simp [hf, RouteListFiltered, hl]
      · intro call hcall
        simp only [List.mem_cons, List.mem_singleton, List.not_mem_nil, or_false] at hcall
        rcases hcall with rfl | rfl
        · exact hA
        · exact hL
    | ok listed =>
      cases listed with
      | nil =>
        refine ⟨_, (applyRoute_create ops linkIndex gwIP subnet mtu src table priority rtype
          scope w family hf hl).1, ?_⟩
        intro call hcall
        simp only [List.mem_cons, List.mem_singleton, List.not_mem_nil, or_false] at hcall
        rcases hcall with rfl | rfl | rfl
        · exact hA
        · exact hL
        · exact Or.inr (Or.inr (Or.inl rfl))
      | cons e rest =>
        by_cases hd : e.MTU ≠ mtu ∨ IP.Equal src e.Src = false ∨ IP.Equal gwIP e.Gw = false
        · refine ⟨_, applyRoute_replace ops linkIndex gwIP subnet mtu src table priority rtype
            scope w family hf e rest hl hd, ?_⟩
          intro call hcall
          simp only [List.mem_cons, List.mem_singleton, List.not_mem_nil, or_false] at hcall
          rcases hcall with rfl | rfl | rfl
          · exact hA
          · exact hL
          · exact Or.inr (Or.inr (Or.inr ⟨w.kernel, family, e, rest, hl, hd, rfl⟩))
        · have h1 : e.MTU = mtu := by
            by_contra h
            exact hd (Or.inl h)
          have h2 : IP.Equal src e.Src = true := by
            by_contra h
            exact hd (Or.inr (Or.inl (by simpa using h)))
          have h3 : IP.Equal gwIP e.Gw = true := by
            by_contra h
            exact hd (Or.inr (Or.inr (by simpa using h)))
          rw [applyRoute_noop ops linkIndex gwIP subnet mtu src table priority rtype scope w
            family hf e rest hl h1 h2 h3]
          refine ⟨_, rfl, ?_⟩
          intro call hcall
          simp only [List.mem_cons, List.mem_singleton, List.not_mem_nil, or_false] at hcall
          rcases hcall with rfl | rfl
          · exact hA
          · exact hL

/-! ## Restoring on a delete-route notification -/

theorem restoreRoutes_none (ops : NetLinkOps K) (deleted : Route) (l : List Route)
    (w : World K) (h : ∀ x ∈ l, RoutePartiallyEqual x deleted = false) :
    restoreRoutes ops deleted l w = (Res.ok, w) := by
  induction l with
  | nil => rfl
  | cons x t ih =>
    unfold restoreRoutes
    rw [if_neg (by rw [h x (List.mem_cons_self _ _)]; decide)]
    exact ih (fun y hy => h y (List.mem_cons_of_mem _ hy))

theorem restoreRoutes_skip (ops : NetLinkOps K) (deleted : Route) (pre t : List Route)
    (w : World K) (h : ∀ x ∈ pre, RoutePartiallyEqual x deleted = false) :
    restoreRoutes ops deleted (pre ++ t) w = restoreRoutes ops deleted t w := by
  induction pre with
  | nil => rfl
  | cons x p ih =>
    simp only [List.cons_append]
    conv_lhs => unfold restoreRoutes
    rw [if_neg (by rw [h x (List.mem_cons_self _ _)]; decide)]
    exact ih (fun y hy => h y (List.mem_cons_of_mem _ hy))

/-- When the only route equal to the deleted one is `m` and the lookup of its link does
not fail, the loop ends in the world `applyRoute` leaves for `m`. -/
theorem restoreRoutes_at (ops : NetLinkOps K) (deleted m : Route) (post : List Route)
    (w : World K) (hm : RoutePartiallyEqual m deleted = true)
    (hlk : (lookupLink ops m.LinkIndex w).1 = none)
    (hpost : ∀ x ∈ post, RoutePartiallyEqual x deleted = false) :
    (restoreRoutes ops deleted (m :: post) w).2 =
      (applyRoute ops m.LinkIndex m.Gw m.Dst m.MTU m.Src m.Table m.Priority m.Type_ m.Scope
        (lookupLink ops m.LinkIndex w).2).2 := by
  unfold restoreRoutes
  rw [if_pos hm, hlk]
  simp only
  split
  · rfl
  · rw [restoreRoutes_none ops deleted post _ hpost]

/-- In a list without duplicates, a route equal to `d` is the only one. -/
theorem NoDuplicates.split_unique (l : List Route) (hnd : NoDuplicates l) (m d : Route)
    (hm : m ∈ l) (hmd : RoutePartiallyEqual m d = true) :
    ∃ pre post, l = pre ++ m :: post ∧
      (∀ x ∈ pre, RoutePartiallyEqual x d = false) ∧
      (∀ x ∈ post, RoutePartiallyEqual x d = false) := by
  obtain ⟨pre, post, hsplit⟩ := List.append_of_mem hm
  subst hsplit
  unfold NoDuplicates at hnd
  rw [List.pairwise_append, List.pairwise_cons] at hnd
  obtain ⟨_, ⟨hpost, _⟩, hpre⟩ := hnd
  have hdm : RoutePartiallyEqual d m = true := by
    rw [RoutePartiallyEqual_symm]; exact hmd
  refine ⟨pre, post, rfl, ?_, ?_⟩
  · intro x hx
    by_contra hne
    have hxd : RoutePartiallyEqual x d = true := by simpa using hne
    have hxm := RoutePartiallyEqual_trans x d m hxd hdm
    rw [hpre x hx m (List.mem_cons_self _ _)] at hxm
    cases hxm
  · intro x hx
    by_contra hne
    have hxd : RoutePartiallyEqual x d = true := by simpa using hne
    have hmx := RoutePartiallyEqual_trans m d x hmd
      (by rw [RoutePartiallyEqual_symm]; exact hxd)
    rw [hpost x hx] at hmx
    cases hmx

/-- Every entry the loop logs restores a managed route of the list that is equal to the
deleted route. -/
theorem restoreRoutes_extends (ops : NetLinkOps K) (deleted : Route) (l : List Route)
    (w : World K) :
    Extends (fun call => ∃ m ∈ l, RoutePartiallyEqual m deleted = true ∧
      IsRestoreCall ops m call) w (restoreRoutes ops deleted l w).2 := by
  induction l generalizing w with
  | nil => exact Extends.refl _ w
  | cons x t ih =>
    have hmono : ∀ w1 w2 : World K,
        Extends (fun call => ∃ m ∈ t, RoutePartiallyEqual m deleted = true ∧
          IsRestoreCall ops m call) w1 w2 →
        Extends (fun call => ∃ m ∈ x :: t, RoutePartiallyEqual m deleted = true ∧
          IsRestoreCall ops m call) w1 w2 := by
      intro w1 w2 h
      refine Extends.mono _ _ w1 w2 h ?_
      rintro call ⟨m, hm, hmd, hc⟩
      exact ⟨m, List.mem_cons_of_mem _ hm, hmd, hc⟩
    unfold restoreRoutes
    split_ifs with hx
    · have hlook : Extends (fun call => ∃ m ∈ x :: t, RoutePartiallyEqual m deleted = true ∧
          IsRestoreCall ops m call) w (lookupLink ops x.LinkIndex w).2 :=
        lookupLink_extends _ ops x.LinkIndex w
          (fun h0 => ⟨x, List.mem_cons_self _ _, hx, Or.inl ⟨h0, rfl⟩⟩)
      split
      · exact Extends.trans _ _ _ _ hlook (hmono _ _ (ih _))
      · rename_i hnone
        have happ : Extends (fun call => ∃ m ∈ x :: t, RoutePartiallyEqual m deleted = true ∧
            IsRestoreCall ops m call) (lookupLink ops x.LinkIndex w).2
            (applyRoute ops x.LinkIndex x.Gw x.Dst x.MTU x.Src x.Table x.Priority x.Type_
              x.Scope (lookupLink ops x.LinkIndex w).2).2 := by
          refine Extends.mono _ _ _ _ (applyRoute_extends ops x.LinkIndex x.Gw x.Dst x.MTU
            x.Src x.Table x.Priority x.Type_ x.Scope (lookupLink ops x.LinkIndex w).2) ?_
          intro call hc
          exact ⟨x, List.mem_cons_self _ _, hx, Or.inr ⟨⟨w, hnone⟩, hc⟩⟩
        simp only
        split
        · exact Extends.trans _ _ _ _ hlook happ
        · exact Extends.trans _ _ _ _ hlook (Extends.trans _ _ _ _ happ (hmono _ _ (ih _)))
    · exact hmono _ _ (ih w)

theorem processNetlinkEvent_del (ops : NetLinkOps K) (c : Store) (ru : RouteUpdate)
    (w : World K) (hdel : ru.Type_ = RTM_DELROUTE) (l : List Route)
    (hl : c ru.Route.LinkIndex = some l) :
    processNetlinkEvent ops c ru w =
      ((restoreRoutes ops ru.Route l w).1, c, (restoreRoutes ops ru.Route l w).2) := by
  unfold processNetlinkEvent
  rw [if_neg (by rw [hdel]; decide), if_neg (by simp [hdel]), hl]

/-- C16. On a delete-route notification for `d`, for a managed route `m` stored under
the link of `d` and equal to `d`, with link index 0 or a link lookup that succeeds,
`processNetlinkEvent` enters `applyRoute` exactly once, with the link index, gateway,
destination, MTU, source, table, priority, type and scope of `m`; no other entry into
`applyRoute` is logged, so the routes that are not equal to `d` and the routes of other
links cause none. -/
theorem processNetlinkEvent_restores (ops : NetLinkOps K) (c : Store) (hc : Reachable c)
    (ru : RouteUpdate) (w : World K) (hdel : ru.Type_ = RTM_DELROUTE) (l : List Route)
    (hl : c ru.Route.LinkIndex = some l) (m : Route) (hm : m ∈ l)
    (heq : RoutePartiallyEqual m ru.Route = true)
    (hlk : (lookupLink ops m.LinkIndex w).1 = none) :
    ∃ new : List Call, (processNetlinkEvent ops c ru w).2.2.calls = w.calls ++ new ∧
      new.countP Call.isApplyRoute = 1 ∧
      Call.ApplyRoute m.LinkIndex m.Gw m.Dst m.MTU m.Src m.Table m.Priority m.Type_ m.Scope
        ∈ new ∧
      ∀ call ∈ new, Call.isApplyRoute call = true →
        call = Call.ApplyRoute m.LinkIndex m.Gw m.Dst m.MTU m.Src m.Table m.Priority m.Type_
          m.Scope := by
  obtain ⟨pre, post, hsplit, hpre, hpost⟩ :=
    NoDuplicates.split_unique l (Reachable.noDuplicates c hc _ l hl) m ru.Route hm heq
  rw [processNetlinkEvent_del ops c ru w hdel l hl, hsplit,
    restoreRoutes_skip ops ru.Route pre _ w hpre]
  simp only
  rw [restoreRoutes_at ops ru.Route m post w heq hlk hpost]
  obtain ⟨rest, hcalls, hrest⟩ := applyRoute_calls ops m.LinkIndex m.Gw m.Dst m.MTU m.Src
    m.Table m.Priority m.Type_ m.Scope (lookupLink ops m.LinkIndex w).2
  rw [lookupLink_calls, List.append_assoc] at hcalls
  refine ⟨_, hcalls, ?_, ?_, ?_⟩
  · rcases hrest with rfl | ⟨family, more, rfl, rfl | rfl | ⟨e, rfl⟩⟩ <;>
      split_ifs <;> simp [List.countP_cons, Call.isApplyRoute]
  · exact List.mem_append_right _ (List.mem_cons_self _ _)
  · intro call hcall happly
    rcases List.mem_append.mp hcall with h | h
    · split_ifs at h
      · rcases List.mem_singleton.mp h with rfl
        cases happly
      · cases h
    · rcases List.mem_cons.mp h with rfl | h
      · rfl
      · rcases hrest with rfl | ⟨family, more, rfl, rfl | rfl | ⟨e, rfl⟩⟩ <;>
          simp only [List.mem_cons, List.mem_singleton, List.not_mem_nil, or_false] at h
        · rcases h with rfl
          cases happly
        · rcases h with rfl | rfl <;> cases happly
        · rcases h with rfl | rfl <;> cases happly

/-- C16 on the store holding `route254` and `route5b` on link 5: a delete-route
notification for `route254` enters `applyRoute` once, for `route254`, and creates it
again. -/
theorem processNetlinkEvent_restores_witness :
    ∃ new : List Call,
      (processNetlinkEvent simOps store5b { Type_ := RTM_DELROUTE, Route := route254 }
        kernel5).2.2.calls = kernel5.calls ++ new ∧
      new.countP Call.isApplyRoute = 1 ∧
      Call.ApplyRoute 5 (some [192, 168, 1, 1]) (some net10) 0 none 254 0 0 0 ∈ new ∧
      ∀ call ∈ new, Call.isApplyRoute call = true →
        call = Call.ApplyRoute 5 (some [192, 168, 1, 1]) (some net10) 0 none 254 0 0 0 :=
  processNetlinkEvent_restores simOps store5b store5b_reachable
    { Type_ := RTM_DELROUTE, Route := route254 } kernel5 rfl [route254, route5b] (by decide)
    route254 (by decide) (by decide) (by decide)

/-! ## Panics -/

/-- `applyRoute` panics only when it is given no subnet. -/
theorem applyRoute_panic (ops : NetLinkOps K) (linkIndex : Int) (gwIP : IP)
    (subnet : Option IPNet) (mtu : Int) (src : IP) (table priority rtype : Int) (scope : Nat)
    (w : World K)
    (h : (applyRoute ops linkIndex gwIP subnet mtu src table priority rtype scope w).1 =
      Res.panic) : subnet = none := by
  cases subnet with
  | none => rfl
  | some d =>
    exfalso
    unfold applyRoute at h
    simp only [getNetlinkIPFamily] at h
    split at h
    · rename_i hf
      split_ifs at hf
    · split at h
      · cases h
      · unfold netlinkAddRoute at h
        simp only at h
        split at h <;> cases h
      · split_ifs at h
        all_goals first
          | cases h
          | (split at h <;> cases h)

/-- The ten comparisons of `RoutePartiallyEqual`, as a conjunction. -/
theorem RoutePartiallyEqual_iff_ten_fields_aux (r x : Route) :
    RoutePartiallyEqual r x = true ↔
      r.LinkIndex = x.LinkIndex ∧ IsIPNetEqual r.Dst x.Dst = true ∧
      IP.Equal r.Src x.Src = true ∧ IP.Equal r.Gw x.Gw = true ∧ r.Table = x.Table ∧
      r.Flags = x.Flags ∧ r.MTU = x.MTU ∧ r.Type_ = x.Type_ ∧ r.Priority = x.Priority ∧
      r.Scope = x.Scope := by
  simp only [RoutePartiallyEqual, Bool.and_eq_true, beq_iff_eq, and_assoc]

/-- The loop of `processNetlinkEvent` never yields an error, and it panics only on a
deleted route without destination. -/
theorem restoreRoutes_result (ops : NetLinkOps K) (deleted : Route) (l : List Route)
    (w : World K) :
    (restoreRoutes ops deleted l w).1 = Res.ok ∨
    ((restoreRoutes ops deleted l w).1 = Res.panic ∧ deleted.Dst = none) := by
  induction l generalizing w with
  | nil => exact Or.inl rfl
  | cons x t ih =>
    unfold restoreRoutes
    split_ifs with hx
    · split
      · exact ih _
      · simp only
        split
        · rename_i hp
          have hn := applyRoute_panic ops _ _ _ _ _ _ _ _ _ _ hp
          right
          refine ⟨rfl, ?_⟩
          rw [RoutePartiallyEqual_iff_ten_fields_aux] at hx
          have h2 := hx.2.1
          rw [hn] at h2
          cases hd : deleted.Dst with
          | none => rfl
          | some d => rw [hd] at h2; simp [IsIPNetEqual] at h2
        · exact ih _
    · exact ih _

/-! ## What a reconciliation pass may log -/

theorem syncRoutes_extends (P : Call → Prop) (ops : NetLinkOps K) (linkIndex : Int)
    (l : List Route) (deleted : List Int) (w : World K)
    (hP : ∀ m ∈ l, ∀ call,
      (call = Call.RouteListFiltered FAMILY_ALL
          (filterRouteByDstAndTable linkIndex m.Dst m.Table).1
          (filterRouteByDstAndTable linkIndex m.Dst m.Table).2 ∨
        IsRestoreCall ops m call) → P call) :
    Extends P w (syncRoutes ops linkIndex l deleted w).2.2 := by
  induction l generalizing deleted w with
  | nil => exact Extends.refl P w
  | cons x t ih =>
    have hP' : ∀ m ∈ t, ∀ call,
        (call = Call.RouteListFiltered FAMILY_ALL
            (filterRouteByDstAndTable linkIndex m.Dst m.Table).1
            (filterRouteByDstAndTable linkIndex m.Dst m.Table).2 ∨
          IsRestoreCall ops m call) → P call :=
      fun m hm => hP m (List.mem_cons_of_mem _ hm)
    have hx := hP x (List.mem_cons_self _ _)
    have hlist : Extends P w (RouteListFiltered ops FAMILY_ALL
        (filterRouteByDstAndTable linkIndex x.Dst x.Table).1
        (filterRouteByDstAndTable linkIndex x.Dst x.Table).2 w).2 :=
      RouteListFiltered_extends P ops _ _ _ w (hx _ (Or.inl rfl))
    unfold syncRoutes
    simp only
    split
    · exact Extends.trans P _ _ _ hlist (ih _ _ hP')
    · split_ifs
      · exact Extends.trans P _ _ _ hlist (ih _ _ hP')
      · have hlook : Extends P (RouteListFiltered ops FAMILY_ALL
            (filterRouteByDstAndTable linkIndex x.Dst x.Table).1
            (filterRouteByDstAndTable linkIndex x.Dst x.Table).2 w).2
            (lookupLink ops x.LinkIndex (RouteListFiltered ops FAMILY_ALL
              (filterRouteByDstAndTable linkIndex x.Dst x.Table).1
              (filterRouteByDstAndTable linkIndex x.Dst x.Table).2 w).2).2 :=
          lookupLink_extends P ops x.LinkIndex _
            (fun h0 => hx _ (Or.inr (Or.inl ⟨h0, rfl⟩)))
        split
        · split_ifs
          · exact Extends.trans P _ _ _ hlist (Extends.trans P _ _ _ hlook (ih _ _ hP'))
          · exact Extends.trans P _ _ _ hlist (Extends.trans P _ _ _ hlook (ih _ _ hP'))
        · rename_i hnone
          have happ := Extends.mono _ P _ _
            (applyRoute_extends ops x.LinkIndex x.Gw x.Dst x.MTU x.Src x.Table x.Priority
              x.Type_ x.Scope (lookupLink ops x.LinkIndex (RouteListFiltered ops FAMILY_ALL
                (filterRouteByDstAndTable linkIndex x.Dst x.Table).1
                (filterRouteByDstAndTable linkIndex x.Dst x.Table).2 w).2).2)
            (fun call hc => hx call (Or.inr (Or.inr ⟨⟨_, hnone⟩, hc⟩)))
          split
          · exact Extends.trans P _ _ _ hlist (Extends.trans P _ _ _ hlook happ)
          · exact Extends.trans P _ _ _ hlist (Extends.trans P _ _ _ hlook
              (Extends.trans P _ _ _ happ (ih _ _ hP')))

theorem syncLinks_extends (P : Call → Prop) (ops : NetLinkOps K) (c : Store)
    (keys : List Int) (deleted : List Int) (w : World K)
    (hP : ∀ k l m, c k = some l → m ∈ l → ∀ call,
      (call = Call.RouteListFiltered FAMILY_ALL
          (filterRouteByDstAndTable k m.Dst m.Table).1
          (filterRouteByDstAndTable k m.Dst m.Table).2 ∨
        IsRestoreCall ops m call) → P call) :
    Extends P w (syncLinks ops c keys deleted w).2.2 := by
  induction keys generalizing deleted w with
  | nil => exact Extends.refl P w
  | cons k rest ih =>
    unfold syncLinks
    split
    · exact ih _ _
    · rename_i l hl
      have hr := syncRoutes_extends P ops k l deleted w (fun m hm => hP k l m hl hm)
      split
      · exact hr
      · exact Extends.trans P _ _ _ hr (ih _ _)

/-- Every entry `sync` logs is one of `IsSyncCall`. -/
theorem sync_extends (ops : NetLinkOps K) (c : Store) (keys : List Int) (w : World K) :
    Extends (IsSyncCall ops c) w (sync ops c keys w).2.2 := by
  have h := syncLinks_extends (IsSyncCall ops c) ops c keys [] w
    (fun k l m hl hm call hc => ⟨k, l, m, hl, hm, hc⟩)
  unfold sync
  split
  · exact h
  · exact h

/-- C18, as amended. `sync` never issues a kernel delete. It issues a kernel replace
only from `applyRoute` for a managed route `m`: on the route `e` that a kernel list
filtered by the link, destination and table of `m` returned first, when the MTU, source
or gateway of `e` differs from that of `m`; `e` is then replaced by `e` with those three
fields set to the values of `m`, whether or not `e` is equal to a managed route under
`RoutePartiallyEqual`. No other kernel route is replaced. -/
theorem sync_replaces_only_listed (ops : NetLinkOps K) (c : Store) (keys : List Int)
    (w : World K) :
    ∃ new : List Call, (sync ops c keys w).2.2.calls = w.calls ++ new ∧
      (∀ call ∈ new, Call.isRouteDel call = false) ∧
      ∀ q, Call.RouteReplace q ∈ new →
        ∃ (k : Int) (l : List Route) (m : Route) (kst : K) (family : Int) (e : Route)
          (rest : List Route),
          c k = some l ∧ m ∈ l ∧
          (ops.RouteListFiltered kst family
            { Route.zero with Dst := m.Dst, LinkIndex := m.LinkIndex, Table := m.Table }
            (RT_FILTER_DST + RT_FILTER_OIF + RT_FILTER_TABLE)).1 = Except.ok (e :: rest) ∧
          (e.MTU ≠ m.MTU ∨ IP.Equal m.Src e.Src = false ∨ IP.Equal m.Gw e.Gw = false) ∧
          q = { e with MTU := m.MTU, Src := m.Src, Gw := m.Gw } := by
  obtain ⟨new, hcalls, hall⟩ := sync_extends ops c keys w
  refine ⟨new, hcalls, ?_, ?_⟩
  · intro call hcall
    obtain ⟨k, l, m, _, _, h | ⟨_, h⟩ | ⟨_, h | ⟨_, h⟩ | h | ⟨_, _, _, _, _, _, h⟩⟩⟩ :=
      hall call hcall <;> rw [h] <;> rfl
  · intro q hq
    obtain ⟨k, l, m, hl, hm, h | ⟨_, h⟩ | ⟨_, h | ⟨_, h⟩ | h | ⟨kst, family, e, rest, hlist, hd, h⟩⟩⟩ :=
      hall _ hq
    · cases h
    · cases h
    · cases h
    · cases h
    · cases h
    · cases h
      exact ⟨k, l, m, kst, family, e, rest, hl, hm, hlist, hd, rfl⟩

/-- C18 fails as stated: the kernel route `route254m` (MTU 1400) was never passed to
`Add` and is equal to no managed route, yet `sync` replaces it by `route254`. -/
theorem sync_replaces_unmanaged_counterexample :
    isManaged store5 route254m = false ∧
    kernel5m.kernel.routes = [route254m] ∧
    Call.RouteReplace { route254m with MTU := 0 } ∈ (sync simOps store5 [5] kernel5m).2.2.calls ∧
    (sync simOps store5 [5] kernel5m).2.2.kernel.routes = [route254] := by
  decide

/-! ## Managed routes without destination -/

/-- `processNetlinkEvent` never changes the store and never yields an error; it returns
no error unless it panics, which takes a delete-route notification for a route without
destination. -/
theorem processNetlinkEvent_result (ops : NetLinkOps K) (c : Store) (ru : RouteUpdate)
    (w : World K) :
    (processNetlinkEvent ops c ru w).2.1 = c ∧
    ((processNetlinkEvent ops c ru w).1 = Res.ok ∨
      ((processNetlinkEvent ops c ru w).1 = Res.panic ∧ ru.Type_ = RTM_DELROUTE ∧
        ru.Route.Dst = none)) := by
  refine ⟨processNetlinkEvent_store ops c ru w, ?_⟩
  unfold processNetlinkEvent
  split_ifs with h1 h2
  · exact Or.inl rfl
  · exact Or.inl rfl
  · split
    · exact Or.inl rfl
    · rename_i l _
      rcases restoreRoutes_result ops ru.Route l w with h | ⟨h, hd⟩
      · exact Or.inl h
      · exact Or.inr ⟨h, by simpa using h2, hd⟩

/-- C17 at the failing input. `Add(routeNoDst)` returned an error because link 5 was
absent and left the route without destination in the store; once link 5 exists, a
delete-route notification for that route makes `processNetlinkEvent` enter `applyRoute`
without a subnet, which panics instead of returning no error. -/
theorem processNetlinkEvent_panics :
    (Add simOps Store.empty routeNoDst kernel0).1 =
      Res.err (Error.wrap "route manager: failed to add route"
        (Error.wrap "failed to apply route because unable to get link" linkNotFound)) ∧
    storeNoDst 5 = some [routeNoDst254] ∧
    (processNetlinkEvent simOps storeNoDst { Type_ := RTM_DELROUTE, Route := routeNoDst254 }
      kernel5).1 = Res.panic ∧
    (processNetlinkEvent simOps storeNoDst { Type_ := RTM_DELROUTE, Route := routeNoDst254 }
      kernel5).2.2.calls =
      [Call.LinkByIndex 5,
       Call.ApplyRoute 5 (some [192, 168, 1, 1]) none 0 none 254 0 0 0] := by
  decide

/-- A pass cut short before it reaches a managed route. The store manages, on link 5,
the route without destination left by a failed `Add` and then `route254`; link 5 exists
and the kernel holds no route. `sync` reaches the route without destination first, enters
`applyRoute` without a subnet and panics: no create is issued for `route254`. -/
theorem sync_panics_before_restore :
    storeNoDst5 5 = some [routeNoDst254, route254] ∧
    kernel5.kernel.routes = [] ∧
    (simOps.LinkByIndex kernel5.kernel 5).1 = none ∧
    (sync simOps storeNoDst5 [5] kernel5).1 = Res.panic ∧
    (sync simOps storeNoDst5 [5] kernel5).2.2.calls.any Call.isRouteAdd = false := by
  decide

/-- C20 at the failing input. Link 5 holds `route254`, link 7 the route without
destination left by a failed `Add`; link 5 is absent from the kernel and link 7 exists.
`sync` consults link 5, finds it absent, then panics on the route of link 7: the store
is never purged and still holds the entry of link 5. -/
theorem sync_panics_before_purge :
    store57 5 = some [route254] ∧
    store57 7 = some [{ routeNoDst7 with Table := 254 }] ∧
    (simOps.LinkByIndex kernel7.kernel 5).1 = some linkNotFound ∧
    simOps.IsLinkNotFoundError linkNotFound = true ∧
    Call.LinkByIndex 5 ∈ (sync simOps store57 [5, 7] kernel7).2.2.calls ∧
    (sync simOps store57 [5, 7] kernel7).1 = Res.panic ∧
    (sync simOps store57 [5, 7] kernel7).2.1 5 = some [route254] := by
  decide

/-! ## Links found absent by a reconciliation pass -/

theorem Store.foldl_delete_apply (deleted : List Int) (c : Store) (i : Int) :
    (deleted.foldl Store.delete c) i = if i ∈ deleted then none else c i := by
  induction deleted generalizing c with
  | nil => simp
  | cons k rest ih =>
    rw [List.foldl_cons, ih, Store.delete_apply]
    by_cases h1 : i ∈ rest
    · simp [h1]
    · by_cases h2 : i = k
      · simp [h2]
      · simp [h1, h2]

/-- The result of `sync` is never an error; unless the sweep panics, the store loses
exactly the links the sweep recorded. -/
theorem sync_result (ops : NetLinkOps K) (c : Store) (keys : List Int) (w : World K) :
    ((sync ops c keys w).1 = Res.panic ∧ (syncLinks ops c keys [] w).1 = Res.panic ∧
      (sync ops c keys w).2.1 = c) ∨
    ((sync ops c keys w).1 = Res.ok ∧ (syncLinks ops c keys [] w).1 ≠ Res.panic ∧
      (sync ops c keys w).2.1 = (syncLinks ops c keys [] w).2.1.foldl Store.delete c) := by
  unfold sync
  split
  · rename_i h
    exact Or.inl ⟨rfl, h, rfl⟩
  · rename_i h
    exact Or.inr ⟨rfl, h, rfl⟩

theorem lookupLink_nonzero (ops : NetLinkOps K) (linkIndex : Int) (w : World K)
    (h : linkIndex ≠ 0) :
    (lookupLink ops linkIndex w).1 = (ops.LinkByIndex w.kernel linkIndex).1 := by
  unfold lookupLink
  rw [if_pos h]
  rfl

/-- In the sweep of one link whose routes carry the key as link index, a lookup of a
link `L` that is always reported not found records `L`. -/
theorem syncRoutes_records (ops : NetLinkOps K) (k : Int) (l : List Route)
    (deleted : List Int) (w : World K) (L : Int) (hL : L ≠ 0)
    (hkey : ∀ m ∈ l, m.LinkIndex = k)
    (hnf : ∀ kst : K, ∃ err, (ops.LinkByIndex kst L).1 = some err ∧
      ops.IsLinkNotFoundError err = true) :
    (∀ x ∈ deleted, x ∈ (syncRoutes ops k l deleted w).2.1) ∧
    ∃ new : List Call, (syncRoutes ops k l deleted w).2.2.calls = w.calls ++ new ∧
      (Call.LinkByIndex L ∈ new → L ∈ (syncRoutes ops k l deleted w).2.1) := by
  induction l generalizing deleted w with
  | nil => exact ⟨fun x hx => hx, [], by simp [syncRoutes], fun h => by cases h⟩
  | cons x t ih =>
    have hkey' : ∀ m ∈ t, m.LinkIndex = k := fun m hm => hkey m (List.mem_cons_of_mem _ hm)
    have hxk : x.LinkIndex = k := hkey x (List.mem_cons_self _ _)
    -- continue the sweep from a later world, having logged `mid` in between
    have step : ∀ (deleted' : List Int) (w' : World K) (mid : List Call),
        w'.calls = w.calls ++ mid → (∀ y ∈ deleted, y ∈ deleted') →
        (Call.LinkByIndex L ∈ mid → L ∈ deleted') →
        (∀ y ∈ deleted, y ∈ (syncRoutes ops k t deleted' w').2.1) ∧
        ∃ new : List Call, (syncRoutes ops k t deleted' w').2.2.calls = w.calls ++ new ∧
          (Call.LinkByIndex L ∈ new → L ∈ (syncRoutes ops k t deleted' w').2.1) := by
      intro deleted' w' mid hw' hsub hmid
      obtain ⟨h1, new2, h2, h3⟩ := ih deleted' w' hkey'
      refine ⟨fun y hy => h1 y (hsub y hy), mid ++ new2, by rw [h2, hw', List.append_assoc], ?_⟩
      intro hin
      rcases List.mem_append.mp hin with h | h
      · exact h1 L (hmid h)
      · exact h3 h
    have hlistc : (RouteListFiltered ops FAMILY_ALL
        (filterRouteByDstAndTable k x.Dst x.Table).1
        (filterRouteByDstAndTable k x.Dst x.Table).2 w).2.calls =
        w.calls ++ [Call.RouteListFiltered FAMILY_ALL
          (filterRouteByDstAndTable k x.Dst x.Table).1
          (filterRouteByDstAndTable k x.Dst x.Table).2] := rfl
    have hnl : ∀ d' : List Int, Call.LinkByIndex L ∈ [Call.RouteListFiltered FAMILY_ALL
          (filterRouteByDstAndTable k x.Dst x.Table).1
          (filterRouteByDstAndTable k x.Dst x.Table).2] → L ∈ d' := by
      intro d' h
      rcases List.mem_singleton.mp h with h
      cases h
    unfold syncRoutes
    simp only
    split
    · exact step deleted _ _ hlistc (fun y hy => hy) (hnl deleted)
    · split_ifs
      · exact step deleted _ _ hlistc (fun y hy => hy) (hnl deleted)
      · have hlkc := lookupLink_calls ops x.LinkIndex (RouteListFiltered ops FAMILY_ALL
          (filterRouteByDstAndTable k x.Dst x.Table).1
          (filterRouteByDstAndTable k x.Dst x.Table).2 w).2
        rw [hlistc, List.append_assoc] at hlkc
        split
        · rename_i err herr
          split_ifs with hnotfound
          · refine step (deleted ++ [k]) _ _ hlkc (fun y hy => List.mem_append_left _ hy) ?_
            intro hin
            simp only [List.singleton_append, List.mem_cons] at hin
            rcases hin with h | h
            · cases h
            · split_ifs at h with h0
              · rcases List.mem_singleton.mp h with h
                cases h
                rw [hxk]
                simp
              · cases h
          · refine step deleted _ _ hlkc (fun y hy => hy) ?_
            intro hin
            exfalso
            simp only [List.singleton_append, List.mem_cons] at hin
            rcases hin with h | h
            · cases h
            · split_ifs at h with h0
              · rcases List.mem_singleton.mp h with h
                cases h
                obtain ⟨err', he1, he2⟩ := hnf (RouteListFiltered ops FAMILY_ALL
                  (filterRouteByDstAndTable k x.Dst x.Table).1
                  (filterRouteByDstAndTable k x.Dst x.Table).2 w).2.kernel
                rw [lookupLink_nonzero ops _ _ h0, he1] at herr
                cases herr
                exact hnotfound he2
              · cases h
        · rename_i hnone
          have hnolk : Call.LinkByIndex L ∉
              ([Call.RouteListFiltered FAMILY_ALL
                (filterRouteByDstAndTable k x.Dst x.Table).1
                (filterRouteByDstAndTable k x.Dst x.Table).2] ++
                if x.LinkIndex ≠ 0 then [Call.LinkByIndex x.LinkIndex] else []) := by
            intro hin
            simp only [List.singleton_append, List.mem_cons] at hin
            rcases hin with h | h
            · cases h
            · split_ifs at h with h0
              · rcases List.mem_singleton.mp h with h
                cases h
                obtain ⟨err', he1, _⟩ := hnf (RouteListFiltered ops FAMILY_ALL
                  (filterRouteByDstAndTable k x.Dst x.Table).1
                  (filterRouteByDstAndTable k x.Dst x.Table).2 w).2.kernel
                rw [lookupLink_nonzero ops _ _ h0, he1] at hnone
                cases hnone
              · cases h
          obtain ⟨anew, hac, hap⟩ := applyRoute_extends ops x.LinkIndex x.Gw x.Dst x.MTU x.Src
            x.Table x.Priority x.Type_ x.Scope (lookupLink ops x.LinkIndex
              (RouteListFiltered ops FAMILY_ALL
                (filterRouteByDstAndTable k x.Dst x.Table).1
                (filterRouteByDstAndTable k x.Dst x.Table).2 w).2).2
          rw [hlkc, List.append_assoc] at hac
          have hnoap : Call.LinkByIndex L ∉ anew := by
            intro hin
            rcases hap _ hin with h | ⟨_, h⟩ | h | ⟨_, _, _, _, _, _, h⟩ <;> cases h
          have hmid : ∀ d' : List Int, Call.LinkByIndex L ∈
              ([Call.RouteListFiltered FAMILY_ALL
                (filterRouteByDstAndTable k x.Dst x.Table).1
                (filterRouteByDstAndTable k x.Dst x.Table).2] ++
                if x.LinkIndex ≠ 0 then [Call.LinkByIndex x.LinkIndex] else []) ++ anew →
              L ∈ d' := by
            intro d' hin
            rcases List.mem_append.mp hin with h | h
            · exact absurd h hnolk
            · exact absurd h hnoap
          split
          · exact ⟨fun y hy => hy, _, hac, hmid deleted⟩
          · exact step deleted _ _ hac (fun y hy => hy) (hmid deleted)

theorem syncLinks_records (ops : NetLinkOps K) (c : Store) (keys : List Int)
    (deleted : List Int) (w : World K) (L : Int) (hL : L ≠ 0)
    (hkey : ∀ k l, c k = some l → ∀ m ∈ l, m.LinkIndex = k)
    (hnf : ∀ kst : K, ∃ err, (ops.LinkByIndex kst L).1 = some err ∧
      ops.IsLinkNotFoundError err = true) :
    (∀ x ∈ deleted, x ∈ (syncLinks ops c keys deleted w).2.1) ∧
    ∃ new : List Call, (syncLinks ops c keys deleted w).2.2.calls = w.calls ++ new ∧
      (Call.LinkByIndex L ∈ new → L ∈ (syncLinks ops c keys deleted w).2.1) := by
  induction keys generalizing deleted w with
  | nil => exact ⟨fun x hx => hx, [], by simp [syncLinks], fun h => by cases h⟩
  | cons k rest ih =>
    unfold syncLinks
    split
    · exact ih deleted w
    · rename_i l hl
      obtain ⟨h1, new1, h2, h3⟩ := syncRoutes_records ops k l deleted w L hL (hkey k l hl) hnf
      split
      · exact ⟨h1, new1, h2, h3⟩
      · obtain ⟨g1, new2, g2, g3⟩ := ih (syncRoutes ops k l deleted w).2.1
          (syncRoutes ops k l deleted w).2.2
        refine ⟨fun x hx => g1 x (h1 x hx), new1 ++ new2,
          by rw [g2, h2, List.append_assoc], ?_⟩
        intro hin
        rcases List.mem_append.mp hin with h | h
        · exact g1 L (h3 h)
        · exact g3 h

theorem newNlRoute_LinkIndex (linkIndex : Int) (gwIP : IP) (subnet : Option IPNet) (mtu : Int)
    (srcIP : IP) (table priority rtype : Int) (scope : Nat) :
    (newNlRoute linkIndex gwIP subnet mtu srcIP table priority rtype scope).LinkIndex =
      linkIndex := by
  rw [newNlRoute_eq]

/-- When the pass is not cut short: for a link `L` other than 0 whose lookup reports
link-not-found in every kernel state, a pass of `sync` that returns forgets `L` if it
consulted `L` at all, never enters `applyRoute` for `L` and issues no create for `L`. -/
theorem sync_forgets_absent_link (ops : NetLinkOps K) (c : Store) (hc : Reachable c)
    (keys : List Int) (w : World K) (L : Int) (hL : L ≠ 0)
    (hnf : ∀ kst : K, ∃ err, (ops.LinkByIndex kst L).1 = some err ∧
      ops.IsLinkNotFoundError err = true)
    (hok : (sync ops c keys w).1 = Res.ok) :
    ∃ new : List Call, (sync ops c keys w).2.2.calls = w.calls ++ new ∧
      (Call.LinkByIndex L ∈ new → (sync ops c keys w).2.1 L = none) ∧
      (∀ call ∈ new, ∀ gw subnet mtu src table priority rtype scope,
        call ≠ Call.ApplyRoute L gw subnet mtu src table priority rtype scope) ∧
      (∀ q, Call.RouteAdd q ∈ new → q.LinkIndex ≠ L) := by
  obtain ⟨new, hcalls, hall⟩ := sync_extends ops c keys w
  have hnolook : ∀ m : Route, m.LinkIndex = L →
      ¬ ∃ w0 : World K, (lookupLink ops m.LinkIndex w0).1 = none := by
    rintro m hm ⟨w0, hw0⟩
    obtain ⟨err, he, _⟩ := hnf w0.kernel
    rw [hm, lookupLink_nonzero ops L w0 hL, he] at hw0
    cases hw0
  refine ⟨new, hcalls, ?_, ?_, ?_⟩
  · intro hin
    obtain ⟨_, new', h2, h3⟩ := syncLinks_records ops c keys [] w L hL
      (Reachable.key_eq_LinkIndex c hc) hnf
    rcases sync_result ops c keys w with ⟨hp, _, _⟩ | ⟨_, _, hstore⟩
    · rw [hp] at hok
      cases hok
    · have hw : (sync ops c keys w).2.2 = (syncLinks ops c keys [] w).2.2 := by
        unfold sync
        split <;> rfl
      rw [hw, h2] at hcalls
      have hnew : new' = new := List.append_cancel_left hcalls
      rw [hstore, Store.foldl_delete_apply, if_pos (h3 (hnew ▸ hin))]
  · intro call hcall gw subnet mtu src table priority rtype scope heq
    obtain ⟨k, l, m, _, _, h | ⟨_, h⟩ | ⟨hw0, h | ⟨_, h⟩ | h | ⟨_, _, _, _, _, _, h⟩⟩⟩ :=
      hall call hcall
    · rw [heq] at h; cases h
    · rw [heq] at h; cases h
    · rw [heq] at h
      injection h with h1
      exact hnolook m h1.symm hw0
    · rw [heq] at h; cases h
    · rw [heq] at h; cases h
    · rw [heq] at h; cases h
  · intro q hq hqL
    obtain ⟨k, l, m, _, _, h | ⟨_, h⟩ | ⟨hw0, h | ⟨_, h⟩ | h | ⟨_, _, _, _, _, _, h⟩⟩⟩ :=
      hall _ hq
    · cases h
    · cases h
    · cases h
    · cases h
    · injection h with h1
      rw [h1, newNlRoute_LinkIndex] at hqL
      exact hnolook m hqL hw0
    · cases h

/-! ## Routes missing from the kernel -/

/-- The body of the loop of `sync` over the routes of one link. -/
theorem syncRoutes_cons_eq (ops : NetLinkOps K) (k : Int) (x : Route) (t : List Route)
    (deleted : List Int) (w : World K) :
    syncRoutes ops k (x :: t) deleted w =
      match (RouteListFiltered ops FAMILY_ALL (filterRouteByDstAndTable k x.Dst x.Table).1
        (filterRouteByDstAndTable k x.Dst x.Table).2 w).1 with
      | Except.error _ =>
        syncRoutes ops k t deleted (RouteListFiltered ops FAMILY_ALL
          (filterRouteByDstAndTable k x.Dst x.Table).1
          (filterRouteByDstAndTable k x.Dst x.Table).2 w).2
      | Except.ok existingRoutes =>
        if existingRoutes.any (fun activeRoute => RoutePartiallyEqual activeRoute x) then
          syncRoutes ops k t deleted (RouteListFiltered ops FAMILY_ALL
            (filterRouteByDstAndTable k x.Dst x.Table).1
            (filterRouteByDstAndTable k x.Dst x.Table).2 w).2
        else
          match (lookupLink ops x.LinkIndex (RouteListFiltered ops FAMILY_ALL
            (filterRouteByDstAndTable k x.Dst x.Table).1
            (filterRouteByDstAndTable k x.Dst x.Table).2 w).2).1 with
          | some err =>
            if ops.IsLinkNotFoundError err then
              syncRoutes ops k t (deleted ++ [k]) (lookupLink ops x.LinkIndex
                (RouteListFiltered ops FAMILY_ALL
                  (filterRouteByDstAndTable k x.Dst x.Table).1
                  (filterRouteByDstAndTable k x.Dst x.Table).2 w).2).2
            else
              syncRoutes ops k t deleted (lookupLink ops x.LinkIndex
                (RouteListFiltered ops FAMILY_ALL
                  (filterRouteByDstAndTable k x.Dst x.Table).1
                  (filterRouteByDstAndTable k x.Dst x.Table).2 w).2).2
          | none =>
            match (applyRoute ops x.LinkIndex x.Gw x.Dst x.MTU x.Src x.Table x.Priority
              x.Type_ x.Scope (lookupLink ops x.LinkIndex (RouteListFiltered ops FAMILY_ALL
                (filterRouteByDstAndTable k x.Dst x.Table).1
                (filterRouteByDstAndTable k x.Dst x.Table).2 w).2).2).1 with
            | Res.panic =>
              (Res.panic, deleted, (applyRoute ops x.LinkIndex x.Gw x.Dst x.MTU x.Src x.Table
                x.Priority x.Type_ x.Scope (lookupLink ops x.LinkIndex
                  (RouteListFiltered ops FAMILY_ALL
                    (filterRouteByDstAndTable k x.Dst x.Table).1
                    (filterRouteByDstAndTable k x.Dst x.Table).2 w).2).2).2)
            | _ =>
              syncRoutes ops k t deleted (applyRoute ops x.LinkIndex x.Gw x.Dst x.MTU x.Src
                x.Table x.Priority x.Type_ x.Scope (lookupLink ops x.LinkIndex
                  (RouteListFiltered ops FAMILY_ALL
                    (filterRouteByDstAndTable k x.Dst x.Table).1
                    (filterRouteByDstAndTable k x.Dst x.Table).2 w).2).2).2 := rfl

/-- One step of the sweep of a link either panics or hands over to the sweep of the rest
of the list in a later world. -/
theorem syncRoutes_cons (ops : NetLinkOps K) (k : Int) (x : Route) (t : List Route)
    (deleted : List Int) (w : World K) :
    (syncRoutes ops k (x :: t) deleted w).1 = Res.panic ∨
    ∃ (deleted' : List Int) (w' : World K), Extends (fun _ => True) w w' ∧
      syncRoutes ops k (x :: t) deleted w = syncRoutes ops k t deleted' w' := by
  have hlist : Extends (fun _ => True) w (RouteListFiltered ops FAMILY_ALL
      (filterRouteByDstAndTable k x.Dst x.Table).1
      (filterRouteByDstAndTable k x.Dst x.Table).2 w).2 :=
    RouteListFiltered_extends _ ops _ _ _ w trivial
  have hlook : Extends (fun _ => True) w (lookupLink ops x.LinkIndex
      (RouteListFiltered ops FAMILY_ALL
        (filterRouteByDstAndTable k x.Dst x.Table).1
        (filterRouteByDstAndTable k x.Dst x.Table).2 w).2).2 :=
    Extends.trans _ _ _ _ hlist (lookupLink_extends _ ops _ _ (fun _ => trivial))
  have happ : Extends (fun _ => True) w
      (applyRoute ops x.LinkIndex x.Gw x.Dst x.MTU x.Src x.Table x.Priority x.Type_ x.Scope
        (lookupLink ops x.LinkIndex (RouteListFiltered ops FAMILY_ALL
          (filterRouteByDstAndTable k x.Dst x.Table).1
          (filterRouteByDstAndTable k x.Dst x.Table).2 w).2).2).2 :=
    Extends.trans _ _ _ _ hlook (Extends.mono _ _ _ _ (applyRoute_extends ops _ _ _ _ _ _ _ _ _ _)
      (fun _ _ => trivial))
  rw [syncRoutes_cons_eq]
  split
  · exact Or.inr ⟨_, _, hlist, rfl⟩
  · split_ifs
    · exact Or.inr ⟨_, _, hlist, rfl⟩
    · split
      · split_ifs
        · exact Or.inr ⟨_, _, hlook, rfl⟩
        · exact Or.inr ⟨_, _, hlook, rfl⟩
      · split
        · exact Or.inl rfl
        · exact Or.inr ⟨_, _, happ, rfl⟩

/-- The sweep of a link that does not panic issues the create for a managed route of
that link whose filter never lists a kernel route and whose link always resolves. -/
theorem syncRoutes_restores (ops : NetLinkOps K) (k : Int) (l : List Route)
    (deleted : List Int) (w : World K) (m : Route) (hm : m ∈ l) (hk : m.LinkIndex = k)
    (hlist : ∀ (kst : K) (family : Int), (ops.RouteListFiltered kst family
      (filterRouteByDstAndTable m.LinkIndex m.Dst m.Table).1
      (filterRouteByDstAndTable m.LinkIndex m.Dst m.Table).2).1 = Except.ok [])
    (hlink : ∀ w0 : World K, (lookupLink ops m.LinkIndex w0).1 = none)
    (hres : (syncRoutes ops k l deleted w).1 ≠ Res.panic) :
    ∃ new : List Call, (syncRoutes ops k l deleted w).2.2.calls = w.calls ++ new ∧
      Call.RouteAdd (newNlRoute m.LinkIndex m.Gw m.Dst m.MTU m.Src m.Table m.Priority
        m.Type_ m.Scope) ∈ new := by
  induction l generalizing deleted w with
  | nil => cases hm
  | cons x t ih =>
    by_cases hxm : x = m
    · subst hxm
      subst hk
      have hl1 : (RouteListFiltered ops FAMILY_ALL
          (filterRouteByDstAndTable x.LinkIndex x.Dst x.Table).1
          (filterRouteByDstAndTable x.LinkIndex x.Dst x.Table).2 w).1 = Except.ok [] :=
        hlist w.kernel FAMILY_ALL
      cases hf : getNetlinkIPFamily x.Dst with
      | none =>
        exfalso
        have hs : x.Dst = none := by
          cases hd : x.Dst with
          | none => rfl
          | some d =>
            rw [hd] at hf
            simp only [getNetlinkIPFamily] at hf
            split_ifs at hf
        apply hres
        rw [syncRoutes_cons_eq]
        simp only [hl1, List.any_nil, hlink]
        rw [hs, applyRoute_nil]
        simp
      | some family =>
        obtain ⟨hcreate, _⟩ := applyRoute_create ops x.LinkIndex x.Gw x.Dst x.MTU x.Src x.Table
          x.Priority x.Type_ x.Scope (lookupLink ops x.LinkIndex (RouteListFiltered ops FAMILY_ALL
            (filterRouteByDstAndTable x.LinkIndex x.Dst x.Table).1
            (filterRouteByDstAndTable x.LinkIndex x.Dst x.Table).2 w).2).2 family hf
          (hlist _ family)
        have hlk := lookupLink_calls ops x.LinkIndex (RouteListFiltered ops FAMILY_ALL
          (filterRouteByDstAndTable x.LinkIndex x.Dst x.Table).1
          (filterRouteByDstAndTable x.LinkIndex x.Dst x.Table).2 w).2
        have hlc : (RouteListFiltered ops FAMILY_ALL
            (filterRouteByDstAndTable x.LinkIndex x.Dst x.Table).1
            (filterRouteByDstAndTable x.LinkIndex x.Dst x.Table).2 w).2.calls =
            w.calls ++ [Call.RouteListFiltered FAMILY_ALL
              (filterRouteByDstAndTable x.LinkIndex x.Dst x.Table).1
              (filterRouteByDstAndTable x.LinkIndex x.Dst x.Table).2] := rfl
        rw [hlk, hlc] at hcreate
        have hrest : ∀ d', Extends (fun _ => True)
            (applyRoute ops x.LinkIndex x.Gw x.Dst x.MTU x.Src x.Table
              x.Priority x.Type_ x.Scope (lookupLink ops x.LinkIndex
                (RouteListFiltered ops FAMILY_ALL
                  (filterRouteByDstAndTable x.LinkIndex x.Dst x.Table).1
                  (filterRouteByDstAndTable x.LinkIndex x.Dst x.Table).2 w).2).2).2
            (syncRoutes ops x.LinkIndex t d' (applyRoute ops x.LinkIndex x.Gw x.Dst x.MTU x.Src
              x.Table x.Priority x.Type_ x.Scope (lookupLink ops x.LinkIndex
                (RouteListFiltered ops FAMILY_ALL
                  (filterRouteByDstAndTable x.LinkIndex x.Dst x.Table).1
                  (filterRouteByDstAndTable x.LinkIndex x.Dst x.Table).2 w).2).2).2).2.2 :=
          fun d' => syncRoutes_extends _ ops _ t d' _ (fun _ _ _ _ => trivial)
        rw [syncRoutes_cons_eq]
        simp only [hl1, List.any_nil, hlink]
        simp only [Bool.false_eq_true, ↓reduceIte]
        split
        · exact ⟨_, by rw [hcreate, List.append_assoc, List.append_assoc], by simp⟩
        · obtain ⟨new2, h2, _⟩ := hrest deleted
          refine ⟨_, by rw [h2, hcreate, List.append_assoc, List.append_assoc,
            List.append_assoc], by simp⟩
    · have hmt : m ∈ t := by
        rcases List.mem_cons.mp hm with h | h
        · exact absurd h.symm hxm
        · exact h
      rcases syncRoutes_cons ops k x t deleted w with hp | ⟨d', w', ⟨mid, hmid, _⟩, heq⟩
      · exact absurd hp hres
      · rw [heq] at hres ⊢
        obtain ⟨new2, h2, h3⟩ := ih d' w' hmt hres
        exact ⟨mid ++ new2, by rw [h2, hmid, List.append_assoc],
          List.mem_append_right _ h3⟩

theorem syncLinks_restores (ops : NetLinkOps K) (c : Store) (keys : List Int)
    (deleted : List Int) (w : World K) (k : Int) (l : List Route) (m : Route)
    (hk : k ∈ keys) (hl : c k = some l) (hm : m ∈ l) (hmk : m.LinkIndex = k)
    (hlist : ∀ (kst : K) (family : Int), (ops.RouteListFiltered kst family
      (filterRouteByDstAndTable m.LinkIndex m.Dst m.Table).1
      (filterRouteByDstAndTable m.LinkIndex m.Dst m.Table).2).1 = Except.ok [])
    (hlink : ∀ w0 : World K, (lookupLink ops m.LinkIndex w0).1 = none)
    (hres : (syncLinks ops c keys deleted w).1 ≠ Res.panic) :
    ∃ new : List Call, (syncLinks ops c keys deleted w).2.2.calls = w.calls ++ new ∧
      Call.RouteAdd (newNlRoute m.LinkIndex m.Gw m.Dst m.MTU m.Src m.Table m.Priority
        m.Type_ m.Scope) ∈ new := by
  induction keys generalizing deleted w with
  | nil => cases hk
  | cons k' rest ih =>
    have hstep : syncLinks ops c (k' :: rest) deleted w =
        match c k' with
        | none => syncLinks ops c rest deleted w
        | some managedRoutes =>
          match (syncRoutes ops k' managedRoutes deleted w).1 with
          | Res.panic => syncRoutes ops k' managedRoutes deleted w
          | _ =>
            syncLinks ops c rest (syncRoutes ops k' managedRoutes deleted w).2.1
              (syncRoutes ops k' managedRoutes deleted w).2.2 := rfl
    by_cases hkk : k' = k
    · subst hkk
      rw [hstep, hl] at hres ⊢
      simp only at hres ⊢
      have hnp : (syncRoutes ops k' l deleted w).1 ≠ Res.panic := by
        intro hp
        apply hres
        rw [hp]
        exact hp
      obtain ⟨new1, h1, h2⟩ := syncRoutes_restores ops k' l deleted w m hm hmk hlist hlink hnp
      split
      · rename_i hp
        exact absurd hp hnp
      · obtain ⟨new2, h3, _⟩ := syncLinks_extends (fun _ => True) ops c rest
          (syncRoutes ops k' l deleted w).2.1 (syncRoutes ops k' l deleted w).2.2
          (fun _ _ _ _ _ _ _ => trivial)
        exact ⟨new1 ++ new2, by rw [h3, h1, List.append_assoc], List.mem_append_left _ h2⟩
    · have hkr : k ∈ rest := by
        rcases List.mem_cons.mp hk with h | h
        · exact absurd h.symm hkk
        · exact h
      rw [hstep] at hres ⊢
      cases hc' : c k' with
      | none =>
        rw [hc'] at hres
        exact ih deleted w hkr hres
      | some l' =>
        rw [hc'] at hres
        simp only at hres ⊢
        split at hres
        · rename_i hp
          exact absurd hp hres
        · obtain ⟨new1, h1, _⟩ := syncRoutes_extends (fun _ => True) ops k' l' deleted w
            (fun _ _ _ _ => trivial)
          obtain ⟨new2, h2, h3⟩ := ih _ _ hkr hres
          exact ⟨new1 ++ new2, by rw [h2, h1, List.append_assoc],
            List.mem_append_right _ h3⟩

/-- When the pass is not cut short: for a managed route `m` whose filter never lists a
kernel route and whose link is 0 or always resolves, a pass of `sync` that returns has
issued the kernel create carrying the fields of `m`. -/
theorem sync_restores_missing (ops : NetLinkOps K) (c : Store) (hc : Reachable c)
    (keys : List Int) (hkeys : IsKeyOrder c keys) (w : World K) (k : Int) (l : List Route)
    (m : Route) (hl : c k = some l) (hm : m ∈ l)
    (hlist : ∀ (kst : K) (family : Int), (ops.RouteListFiltered kst family
      (filterRouteByDstAndTable m.LinkIndex m.Dst m.Table).1
      (filterRouteByDstAndTable m.LinkIndex m.Dst m.Table).2).1 = Except.ok [])
    (hlink : ∀ w0 : World K, (lookupLink ops m.LinkIndex w0).1 = none)
    (hok : (sync ops c keys w).1 = Res.ok) :
    ∃ new : List Call, (sync ops c keys w).2.2.calls = w.calls ++ new ∧
      Call.RouteAdd (newNlRoute m.LinkIndex m.Gw m.Dst m.MTU m.Src m.Table m.Priority
        m.Type_ m.Scope) ∈ new := by
  have hk : k ∈ keys := (hkeys.2 k).mpr (by rw [hl]; exact Option.some_ne_none l)
  have hmk := Reachable.key_eq_LinkIndex c hc k l hl m hm
  rcases sync_result ops c keys w with ⟨hp, _, _⟩ | ⟨_, hnp, _⟩
  · rw [hp] at hok
    cases hok
  · have hw : (sync ops c keys w).2.2 = (syncLinks ops c keys [] w).2.2 := by
      unfold sync
      split <;> rfl
    rw [hw]
    exact syncLinks_restores ops c keys [] w k l m hk hl hm hmk hlist hlink hnp

/-! ## What `Del` forgets -/

/-- C25. When `Del` succeeds through the kernel-delete path (link index 0 or a lookup
that succeeds, kernel list and deletes without error), the list stored for the route's
link becomes the previous list without the entries equal to the route under
`RoutePartiallyEqual`, the remaining entries keeping their order; the key is removed
when nothing remains; the entries of every other link are unchanged. -/
theorem Del_forgets (ops : NetLinkOps K) (c : Store) (r : Route) (w : World K)
    (hlk : (lookupLink ops r.LinkIndex w).1 = none)
    (hdel : (netlinkDelRoute ops r.LinkIndex r.Dst r.Table (lookupLink ops r.LinkIndex w).2).1
      = none) :
    (Del ops c r w).1 = Res.ok ∧
    (∀ l, c r.LinkIndex = some l →
      (Del ops c r w).2.1 r.LinkIndex =
        if l.filter (fun m => !RoutePartiallyEqual m r) = [] then none
        else some (l.filter (fun m => !RoutePartiallyEqual m r))) ∧
    (c r.LinkIndex = none → (Del ops c r w).2.1 r.LinkIndex = none) ∧
    (∀ k, k ≠ r.LinkIndex → (Del ops c r w).2.1 k = c k) := by
  have hd : delRoute ops c r w =
      match c r.LinkIndex with
      | none => (Res.ok, c,
          (netlinkDelRoute ops r.LinkIndex r.Dst r.Table (lookupLink ops r.LinkIndex w).2).2)
      | some managedRoutes =>
        if (managedRoutes.filter (fun m => !RoutePartiallyEqual m r)).length = 0 then
          (Res.ok, Store.delete c r.LinkIndex,
            (netlinkDelRoute ops r.LinkIndex r.Dst r.Table (lookupLink ops r.LinkIndex w).2).2)
        else
          (Res.ok, Store.set c r.LinkIndex
            (managedRoutes.filter (fun m => !RoutePartiallyEqual m r)),
            (netlinkDelRoute ops r.LinkIndex r.Dst r.Table (lookupLink ops r.LinkIndex w).2).2) := by
    unfold delRoute
    simp only [hlk, hdel]
  refine ⟨?_, ?_, ?_, ?_⟩
  · unfold Del
    rw [hd]
    cases c r.LinkIndex with
    | none => rfl
    | some l => simp only; split_ifs <;> rfl
  · intro l hl
    rw [Del_store, hd, hl]
    simp only
    by_cases h : l.filter (fun m => !RoutePartiallyEqual m r) = []
    · rw [if_pos (by rw [h]; rfl), if_pos h]
      simp [Store.delete_apply]
    · rw [if_neg (by intro h0; exact h (List.length_eq_zero.mp h0)), if_neg h]
      simp [Store.set_apply]
  · intro hn
    rw [Del_store, hd, hn]
    exact hn
  · intro k hk
    rw [Del_store, hd]
    cases c r.LinkIndex with
    | none => rfl
    | some l =>
      simp only
      split_ifs
      · simp [Store.delete_apply, hk]
      · simp [Store.set_apply, hk]

/-- C25 on the store holding `route254` and `route5b` on link 5: `Del(route254)` leaves
`route5b` alone on link 5. -/
theorem Del_forgets_witness :
    store5b 5 = some [route254, route5b] ∧
    (Del simOps store5b route254 kernel5r).1 = Res.ok ∧
    (Del simOps store5b route254 kernel5r).2.1 5 = some [route5b] :=
  ⟨by decide,
   (Del_forgets simOps store5b route254 kernel5r (by decide) (by decide)).1,
   ((Del_forgets simOps store5b route254 kernel5r (by decide) (by decide)).2.1
      [route254, route5b] (by decide)).trans (by decide)⟩

/-! ## The equality predicate is an equivalence -/

/-- C26. `RoutePartiallyEqual` is reflexive, also for routes without destination,
source or gateway, symmetric and transitive. -/
theorem RoutePartiallyEqual_equivalence :
    (∀ a : Route, RoutePartiallyEqual a a = true) ∧
    (∀ a b : Route, RoutePartiallyEqual a b = true → RoutePartiallyEqual b a = true) ∧
    (∀ a b c : Route, RoutePartiallyEqual a b = true → RoutePartiallyEqual b c = true →
      RoutePartiallyEqual a c = true) ∧
    (∀ a b : Route, RoutePartiallyEqual a b = RoutePartiallyEqual b a) :=
  ⟨RoutePartiallyEqual_refl,
   fun a b h => by rw [RoutePartiallyEqual_symm]; exact h,
   RoutePartiallyEqual_trans,
   RoutePartiallyEqual_symm⟩

/-! ## Keys of the store -/

/-- C27. In every store reached from the empty store by `Add`, `Del`,
`processNetlinkEvent` and `sync`, every route held under link key `k` has link index
`k`, and no link key maps to an empty list. -/
theorem Reachable_keys (s : Store) (hs : Reachable s) (k : Int) (l : List Route)
    (hl : s k = some l) : (∀ e ∈ l, e.LinkIndex = k) ∧ l ≠ [] :=
  ⟨Reachable.key_eq_LinkIndex s hs k l hl, Reachable.nonempty s hs k l hl⟩

/-- C27 on the store holding two routes on link 5. -/
theorem Reachable_keys_witness :
    store5b 5 = some [route254, route5b] ∧
    (∀ e ∈ [route254, route5b], e.LinkIndex = 5) ∧ [route254, route5b] ≠ [] :=
  ⟨by decide, Reachable_keys store5b store5b_reachable 5 [route254, route5b] (by decide)⟩

/-! ## `Add` without destination -/

/-- `Add` panics exactly when the route is newly recorded, the link lookup does not fail
and the route has no destination. -/
theorem Add_panic_iff (ops : NetLinkOps K) (c : Store) (r : Route) (w : World K) :
    (Add ops c r w).1 = Res.panic ↔
      isManaged c (normalizeTable r) = false ∧ (lookupLink ops r.LinkIndex w).1 = none ∧
        r.Dst = none := by
  have hn : ∀ x : Route, normalizeTable r = x →
      (x.LinkIndex = r.LinkIndex ∧ x.Gw = r.Gw ∧ x.Dst = r.Dst ∧ x.MTU = r.MTU ∧
        x.Src = r.Src ∧ x.Priority = r.Priority ∧ x.Type_ = r.Type_ ∧ x.Scope = r.Scope) := by
    intro x hx
    subst hx
    unfold normalizeTable
    split_ifs <;> simp
  obtain ⟨h1, h2, h3, h4, h5, h6, h7, h8⟩ := hn _ rfl
  have hadd : (Add ops c r w).1 = Res.panic ↔ (addRoute ops c r w).1 = Res.panic := by
    unfold Add
    split
    · rename_i err herr
      rw [herr]
      constructor <;> intro h <;> cases h
    · exact Iff.rfl
  rw [hadd]
  by_cases hm : isManaged c (normalizeTable r) = true
  · rw [addRoute_calls_managed ops c r w hm]
    constructor
    · intro h; cases h
    · rintro ⟨h, _, _⟩
      rw [hm] at h
      cases h
  · have hm' : isManaged c (normalizeTable r) = false := by simpa using hm
    have hf : (addRouteToStore c (normalizeTable r)).2 = true := by
      rw [addRouteToStore_flag, hm']; rfl
    unfold addRoute
    simp only
    rw [if_neg (by rw [hf]; decide), h1, h2, h3, h4, h5, h6, h7, h8]
    cases hlk : (lookupLink ops r.LinkIndex w).1 with
    | some err =>
      simp only
      constructor
      · intro h; cases h
      · rintro ⟨_, h, _⟩; cases h
    | none =>
      simp only
      constructor
      · intro h
        refine ⟨hm', by trivial, ?_⟩
        apply applyRoute_panic ops r.LinkIndex r.Gw r.Dst r.MTU r.Src (normalizeTable r).Table
          r.Priority r.Type_ r.Scope (lookupLink ops r.LinkIndex w).2
        split at h
        · cases h
        · assumption
        · cases h
      · rintro ⟨_, _, hd⟩
        rw [hd, applyRoute_nil]

/-- C28 at the failing input. `Add` of a route without destination on an existing link
records the route, looks the link up, enters `applyRoute` without a subnet and panics,
where `Del` of the same route returns an error. -/
theorem Add_panics_no_destination :
    (Add simOps Store.empty routeNoDst kernel5).1 = Res.panic ∧
    (Add simOps Store.empty routeNoDst kernel5).2.2.calls =
      [Call.LinkByIndex 5,
       Call.ApplyRoute 5 (some [192, 168, 1, 1]) none 0 none 254 0 0 0] ∧
    getNetlinkIPFamily none = none ∧
    (Del simOps Store.empty routeNoDst kernel5).1 =
      Res.err (Error.wrap "route manager: failed to delete route"
        (Error.wrap "failed to delete route"
          (Error.text "cannot delete route with no valid subnet"))) := by
  decide

/-! ## Only the first listed route counts -/

/-- C29. When the kernel list returns one or more routes, `applyRoute` issues no create;
it compares the desired MTU, source and gateway with the first route only and issues at
most one replace, of that first route; what it logs does not depend on the routes
listed after the first, which are not passed to any call. -/
theorem applyRoute_first_only (ops : NetLinkOps K) (linkIndex : Int) (gwIP : IP)
    (subnet : Option IPNet) (mtu : Int) (src : IP) (table priority rtype : Int) (scope : Nat)
    (w : World K) (family : Int) (hf : getNetlinkIPFamily subnet = some family)
    (e : Route) (rest : List Route)
    (hl : (ops.RouteListFiltered w.kernel family
      { Route.zero with Dst := subnet, LinkIndex := linkIndex, Table := table }
      (RT_FILTER_DST + RT_FILTER_OIF + RT_FILTER_TABLE)).1 = Except.ok (e :: rest)) :
    (applyRoute ops linkIndex gwIP subnet mtu src table priority rtype scope w).2.calls =
      w.calls ++
        [Call.ApplyRoute linkIndex gwIP subnet mtu src table priority rtype scope,
         Call.RouteListFiltered family
           { Route.zero with Dst := subnet, LinkIndex := linkIndex, Table := table }
           (RT_FILTER_DST + RT_FILTER_OIF + RT_FILTER_TABLE)] ++
        (if e.MTU ≠ mtu ∨ IP.Equal src e.Src = false ∨ IP.Equal gwIP e.Gw = false then
          [Call.RouteReplace { e with MTU := mtu, Src := src, Gw := gwIP }]
         else []) ∧
    ((applyRoute ops linkIndex gwIP subnet mtu src table priority rtype scope w).2.calls.drop
      w.calls.length).countP Call.isRouteAdd = 0 ∧
    ((applyRoute ops linkIndex gwIP subnet mtu src table priority rtype scope w).2.calls.drop
      w.calls.length).countP Call.isRouteReplace ≤ 1 := by
  by_cases hd : e.MTU ≠ mtu ∨ IP.Equal src e.Src = false ∨ IP.Equal gwIP e.Gw = false
  · have h := applyRoute_replace ops linkIndex gwIP subnet mtu src table priority rtype scope w
      family hf e rest hl hd
    rw [if_pos hd]
    refine ⟨by rw [h, List.append_assoc]; rfl, ?_, ?_⟩
    · rw [h, List.drop_left]
      rfl
    · rw [h, List.drop_left]
      exact Nat.le_refl 1
  · have h1 : e.MTU = mtu := by
      by_contra h
      exact hd (Or.inl h)
    have h2 : IP.Equal src e.Src = true := by
      by_contra h
      exact hd (Or.inr (Or.inl (by simpa using h)))
    have h3 : IP.Equal gwIP e.Gw = true := by
      by_contra h
      exact hd (Or.inr (Or.inr (by simpa using h)))
    have h := applyRoute_noop ops linkIndex gwIP subnet mtu src table priority rtype scope w
      family hf e rest hl h1 h2 h3
    rw [if_neg hd, h]
    refine ⟨by rw [List.append_nil]; rfl, ?_, ?_⟩
    · simp only
      rw [List.drop_left]
      rfl
    · simp only
      rw [List.drop_left]
      exact Nat.zero_le 1

/-- C29 on a kernel listing `route254` and then `route254m`: the first matches the
desired route, so nothing is replaced, though the second has another MTU. -/
theorem applyRoute_first_only_witness :
    (applyRoute simOps 5 (some [192, 168, 1, 1]) (some net10) 0 none 254 0 0 0
      kernel5rm).2.calls =
      [Call.ApplyRoute 5 (some [192, 168, 1, 1]) (some net10) 0 none 254 0 0 0,
       Call.RouteListFiltered 2
         { Route.zero with Dst := some net10, LinkIndex := 5, Table := 254 } 1216] ∧
    (applyRoute simOps 5 (some [192, 168, 1, 1]) (some net10) 0 none 254 0 0 0
      kernel5rm).2.kernel.routes = [route254, route254m] :=
  ⟨(applyRoute_first_only simOps 5 (some [192, 168, 1, 1]) (some net10) 0 none 254 0 0 0
      kernel5rm 2 (by decide) route254 [route254m] rfl).1,
   by decide⟩

/-! ## The created route and the managed route -/

/-- An empty address is IP-equal to an unset one. -/
theorem IP.Equal_unset (ip : IP) (h : ¬ IP.len ip > 0) :
    IP.Equal (if IP.len ip > 0 then ip else none) ip = true := by
  rw [if_neg h]
  have h0 : IP.len ip = 0 := by omega
  cases ip with
  | none => rfl
  | some bs =>
    have hb : bs = [] := List.length_eq_zero.mp h0
    subst hb
    rfl

theorem IP.Equal_sent (ip : IP) : IP.Equal (if IP.len ip > 0 then ip else none) ip = true := by
  by_cases h : IP.len ip > 0
  · rw [if_pos h]
    exact IP.Equal_refl ip
  · exact IP.Equal_unset ip h

/-- C30. The route object that `applyRoute` hands to the kernel create for the fields of
a managed route `m` is equal to `m` under `RoutePartiallyEqual` if and only if
`m.Flags` is 0: link index, destination, table, MTU, type, priority and scope are carried
over, a gateway or source that is empty is sent unset, which is IP-equal, and the flags
of the request are always 0. -/
theorem newNlRoute_equal_iff (m : Route) :
    (RoutePartiallyEqual
      (newNlRoute m.LinkIndex m.Gw m.Dst m.MTU m.Src m.Table m.Priority m.Type_ m.Scope) m
        = true ↔ m.Flags = 0) ∧
    (RoutePartiallyEqual m
      (newNlRoute m.LinkIndex m.Gw m.Dst m.MTU m.Src m.Table m.Priority m.Type_ m.Scope)
        = true ↔ m.Flags = 0) ∧
    (newNlRoute m.LinkIndex m.Gw m.Dst m.MTU m.Src m.Table m.Priority m.Type_ m.Scope).Flags
      = 0 ∧
    (∀ (K : Type) (ops : NetLinkOps K) (w : World K) (family : Int),
      getNetlinkIPFamily m.Dst = some family →
      (ops.RouteListFiltered w.kernel family
        (filterRouteByDstAndTable m.LinkIndex m.Dst m.Table).1
        (filterRouteByDstAndTable m.LinkIndex m.Dst m.Table).2).1 = Except.ok [] →
      (applyRoute ops m.LinkIndex m.Gw m.Dst m.MTU m.Src m.Table m.Priority m.Type_ m.Scope
        w).2.calls.getLast? =
        some (Call.RouteAdd
          (newNlRoute m.LinkIndex m.Gw m.Dst m.MTU m.Src m.Table m.Priority m.Type_
            m.Scope))) := by
  have hiff : RoutePartiallyEqual
      (newNlRoute m.LinkIndex m.Gw m.Dst m.MTU m.Src m.Table m.Priority m.Type_ m.Scope) m
        = true ↔ m.Flags = 0 := by
    rw [RoutePartiallyEqual_iff_ten_fields_aux, newNlRoute_eq]
    simp only [IsIPNetEqual_refl, IP.Equal_sent, SCOPE_UNIVERSE, true_and]
    constructor
    · rintro ⟨h, _⟩
      exact h.symm
    · intro h
      refine ⟨h.symm, ?_, ?_, ?_, ?_⟩
      · split_ifs with h0
        · rfl
        · exact (not_not.mp h0).symm
      · split_ifs with h0
        · rfl
        · exact (not_not.mp h0).symm
      · split_ifs with h0
        · rfl
        · exact (not_not.mp h0).symm
      · split_ifs with h0
        · rfl
        · exact (not_not.mp h0).symm
  refine ⟨hiff, ?_, ?_, ?_⟩
  · rw [RoutePartiallyEqual_symm]
    exact hiff
  · rw [newNlRoute_eq]
  · intro K ops w family hf hl
    rw [(applyRoute_create ops m.LinkIndex m.Gw m.Dst m.MTU m.Src m.Table m.Priority m.Type_
      m.Scope w family hf hl).1]
    simp

/-! ## The worker loop -/

theorem runRound_tick (ops : NetLinkOps K) (s : LoopState K) (resubscribed : Bool)
    (keys : List Int) :
    (runRound ops s (LoopEvent.tick resubscribed keys)).2 =
      (if s.subscribed then [] else [LoopAction.Subscribe]) ++ [LoopAction.Sync] ∧
    ∃ s' : LoopState K,
      ((runRound ops s (LoopEvent.tick resubscribed keys)).1 = LoopResult.running s' ∨
        (runRound ops s (LoopEvent.tick resubscribed keys)).1 = LoopResult.panicked s') ∧
      s'.store = (sync ops s.store keys s.world).2.1 ∧
      s'.world = (sync ops s.store keys s.world).2.2 ∧
      s'.subscribed = (s.subscribed || resubscribed) := by
  unfold runRound
  simp only
  split
  · refine ⟨rfl, _, Or.inr rfl, rfl, rfl, ?_⟩
    cases s.subscribed <;> rfl
  · refine ⟨rfl, _, Or.inl rfl, rfl, rfl, ?_⟩
    cases s.subscribed <;> rfl

/-- A round on anything but the shutdown signal goes on or panics. -/
theorem runRound_not_stop (ops : NetLinkOps K) (s : LoopState K) (ev : LoopEvent)
    (h : ev ≠ LoopEvent.stop) :
    ∃ (s' : LoopState K) (acts : List LoopAction),
      runRound ops s ev = (LoopResult.running s', acts) ∨
      runRound ops s ev = (LoopResult.panicked s', acts) := by
  cases ev with
  | stop => exact absurd rfl h
  | closed b => exact ⟨_, _, Or.inl rfl⟩
  | notification ru =>
    unfold runRound
    simp only
    split
    · exact ⟨_, _, Or.inr rfl⟩
    · exact ⟨_, _, Or.inl rfl⟩
  | tick b keys =>
    unfold runRound
    simp only
    split
    · exact ⟨_, _, Or.inr rfl⟩
    · exact ⟨_, _, Or.inl rfl⟩

theorem runLoop_returned (ops : NetLinkOps K) (s : LoopState K) (evs : List LoopEvent)
    (h : (runLoop ops s evs).1.isReturned = true) : LoopEvent.stop ∈ evs := by
  induction evs generalizing s with
  | nil => cases h
  | cons ev rest ih =>
    by_cases hev : ev = LoopEvent.stop
    · rw [hev]
      exact List.mem_cons_self _ _
    · apply List.mem_cons_of_mem
      obtain ⟨s', acts, hr | hr⟩ := runRound_not_stop ops s ev hev
      · have hl : runLoop ops s (ev :: rest) =
            ((runLoop ops s' rest).1, acts ++ (runLoop ops s' rest).2) := by
          conv_lhs => unfold runLoop
          rw [hr]
        rw [hl] at h
        exact ih s' h
      · have hl : runLoop ops s (ev :: rest) = (LoopResult.panicked s', acts) := by
          conv_lhs => unfold runLoop
          rw [hr]
        rw [hl] at h
        cases h

/-- C23. One round of the worker loop, as a step on the state `subscribed`. On a timer
tick the loop invokes `sync` exactly once whether or not `subscribed` holds, and
attempts a resubscription in that round if and only if `subscribed` is false. On a
closed notification stream it attempts a resubscription, sets `subscribed` to the
outcome and dispatches nothing to the event processor. A round returns only on the
shutdown signal, then without any action; and the loop over any sequence of events has
returned only if the shutdown signal was among them. -/
theorem runRound_spec (ops : NetLinkOps K) (s : LoopState K) :
    (∀ (resubscribed : Bool) (keys : List Int),
      (runRound ops s (LoopEvent.tick resubscribed keys)).2.count LoopAction.Sync = 1 ∧
      (LoopAction.Subscribe ∈ (runRound ops s (LoopEvent.tick resubscribed keys)).2 ↔
        s.subscribed = false) ∧
      (runRound ops s (LoopEvent.tick resubscribed keys)).2.count LoopAction.Subscribe ≤ 1 ∧
      ∃ s' : LoopState K,
        ((runRound ops s (LoopEvent.tick resubscribed keys)).1 = LoopResult.running s' ∨
          (runRound ops s (LoopEvent.tick resubscribed keys)).1 = LoopResult.panicked s') ∧
        s'.store = (sync ops s.store keys s.world).2.1 ∧
        s'.world = (sync ops s.store keys s.world).2.2 ∧
        s'.subscribed = (s.subscribed || resubscribed)) ∧
    (∀ resubscribed : Bool,
      runRound ops s (LoopEvent.closed resubscribed) =
        (LoopResult.running { s with subscribed := resubscribed }, [LoopAction.Subscribe])) ∧
    (∀ ev : LoopEvent, (runRound ops s ev).1.isReturned = true ↔ ev = LoopEvent.stop) ∧
    runRound ops s LoopEvent.stop = (LoopResult.returned, []) ∧
    (∀ evs : List LoopEvent, (runLoop ops s evs).1.isReturned = true →
      LoopEvent.stop ∈ evs) := by
  refine ⟨?_, fun _ => rfl, ?_, rfl, runLoop_returned ops s⟩
  · intro resubscribed keys
    obtain ⟨hacts, hs'⟩ := runRound_tick ops s resubscribed keys
    rw [hacts]
    refine ⟨?_, ?_, ?_, hs'⟩
    · cases s.subscribed <;> decide
    · cases s.subscribed <;> decide
    · cases s.subscribed <;> decide
  · intro ev
    cases ev with
    | stop => exact ⟨fun _ => rfl, fun _ => rfl⟩
    | closed b => exact ⟨fun h => (by cases h), fun h => (by cases h)⟩
    | notification ru =>
      refine ⟨fun h => ?_, fun h => (by cases h)⟩
      unfold runRound at h
      simp only at h
      split at h <;> cases h
    | tick b keys =>
      refine ⟨fun h => ?_, fun h => (by cases h)⟩
      unfold runRound at h
      simp only at h
      split at h <;> cases h

/-! ## The sweep, route by route -/

/-- One step of the sweep of a link, whatever routes follow: it panics, or it hands over
to the sweep of the routes that follow, in a later world. -/
theorem syncRoutes_step (ops : NetLinkOps K) (k : Int) (x : Route) (deleted : List Int)
    (w : World K) :
    (∀ t, (syncRoutes ops k (x :: t) deleted w).1 = Res.panic) ∨
    ∃ (deleted' : List Int) (w' : World K), Extends (fun _ => True) w w' ∧
      ∀ t, syncRoutes ops k (x :: t) deleted w = syncRoutes ops k t deleted' w' := by
  have hlist : Extends (fun _ => True) w (RouteListFiltered ops FAMILY_ALL
      (filterRouteByDstAndTable k x.Dst x.Table).1
      (filterRouteByDstAndTable k x.Dst x.Table).2 w).2 :=
    RouteListFiltered_extends _ ops _ _ _ w trivial
  have hlook : Extends (fun _ => True) w (lookupLink ops x.LinkIndex
      (RouteListFiltered ops FAMILY_ALL
        (filterRouteByDstAndTable k x.Dst x.Table).1
        (filterRouteByDstAndTable k x.Dst x.Table).2 w).2).2 :=
    Extends.trans _ _ _ _ hlist (lookupLink_extends _ ops _ _ (fun _ => trivial))
  have happ : Extends (fun _ => True) w
      (applyRoute ops x.LinkIndex x.Gw x.Dst x.MTU x.Src x.Table x.Priority x.Type_ x.Scope
        (lookupLink ops x.LinkIndex (RouteListFiltered ops FAMILY_ALL
          (filterRouteByDstAndTable k x.Dst x.Table).1
          (filterRouteByDstAndTable k x.Dst x.Table).2 w).2).2).2 :=
    Extends.trans _ _ _ _ hlook (Extends.mono _ _ _ _ (applyRoute_extends ops _ _ _ _ _ _ _ _ _ _)
      (fun _ _ => trivial))
  cases h1 : (RouteListFiltered ops FAMILY_ALL
      (filterRouteByDstAndTable k x.Dst x.Table).1
      (filterRouteByDstAndTable k x.Dst x.Table).2 w).1 with
  | error err =>
    refine Or.inr ⟨deleted, _, hlist, fun t => ?_⟩
    rw [syncRoutes_cons_eq, h1]
  | ok existing =>
    by_cases h2 : existing.any (fun activeRoute => RoutePartiallyEqual activeRoute x) = true
    · refine Or.inr ⟨deleted, _, hlist, fun t => ?_⟩
      rw [syncRoutes_cons_eq, h1]
      simp only [h2, if_true]
    · have h2' : existing.any (fun activeRoute => RoutePartiallyEqual activeRoute x) = false := by
        simpa using h2
      cases h3 : (lookupLink ops x.LinkIndex (RouteListFiltered ops FAMILY_ALL
          (filterRouteByDstAndTable k x.Dst x.Table).1
          (filterRouteByDstAndTable k x.Dst x.Table).2 w).2).1 with
      | some err =>
        by_cases h4 : ops.IsLinkNotFoundError err = true
        · refine Or.inr ⟨deleted ++ [k], _, hlook, fun t => ?_⟩
          rw [syncRoutes_cons_eq, h1]
          simp only [h2', h3, h4, Bool.false_eq_true, if_true, if_false]
        · refine Or.inr ⟨deleted, _, hlook, fun t => ?_⟩
          rw [syncRoutes_cons_eq, h1]
          simp only [h2', h3, h4, Bool.false_eq_true, if_false]
      | none =>
        by_cases h5 : (applyRoute ops x.LinkIndex x.Gw x.Dst x.MTU x.Src x.Table x.Priority
            x.Type_ x.Scope (lookupLink ops x.LinkIndex (RouteListFiltered ops FAMILY_ALL
              (filterRouteByDstAndTable k x.Dst x.Table).1
              (filterRouteByDstAndTable k x.Dst x.Table).2 w).2).2).1 = Res.panic
        · refine Or.inl (fun t => ?_)
          rw [syncRoutes_cons_eq, h1]
          simp only [h2', h3, h5, Bool.false_eq_true, if_false]
        · refine Or.inr ⟨deleted, _, happ, fun t => ?_⟩
          rw [syncRoutes_cons_eq, h1]
          simp only [h2', h3, Bool.false_eq_true, if_false]

theorem syncRoutes_append (ops : NetLinkOps K) (k : Int) (l1 l2 : List Route)
    (deleted : List Int) (w : World K)
    (hnp : (syncRoutes ops k l1 deleted w).1 ≠ Res.panic) :
    syncRoutes ops k (l1 ++ l2) deleted w =
      syncRoutes ops k l2 (syncRoutes ops k l1 deleted w).2.1
        (syncRoutes ops k l1 deleted w).2.2 := by
  induction l1 generalizing deleted w with
  | nil => rfl
  | cons x t ih =>
    rcases syncRoutes_step ops k x deleted w with hp | ⟨d', w', _, hstep⟩
    · exact absurd (hp t) hnp
    · rw [List.cons_append, hstep (t ++ l2), hstep t]
      rw [hstep t] at hnp
      exact ih d' w' hnp

/-- The body of the loop of `sync` over the links. -/
theorem syncLinks_cons_eq (ops : NetLinkOps K) (c : Store) (k : Int) (rest : List Int)
    (deleted : List Int) (w : World K) :
    syncLinks ops c (k :: rest) deleted w =
      match c k with
      | none => syncLinks ops c rest deleted w
      | some managedRoutes =>
        match (syncRoutes ops k managedRoutes deleted w).1 with
        | Res.panic => syncRoutes ops k managedRoutes deleted w
        | _ =>
          syncLinks ops c rest (syncRoutes ops k managedRoutes deleted w).2.1
            (syncRoutes ops k managedRoutes deleted w).2.2 := rfl

theorem syncLinks_append (ops : NetLinkOps K) (c : Store) (ks1 ks2 : List Int)
    (deleted : List Int) (w : World K)
    (hnp : (syncLinks ops c ks1 deleted w).1 ≠ Res.panic) :
    syncLinks ops c (ks1 ++ ks2) deleted w =
      syncLinks ops c ks2 (syncLinks ops c ks1 deleted w).2.1
        (syncLinks ops c ks1 deleted w).2.2 := by
  induction ks1 generalizing deleted w with
  | nil => rfl
  | cons k rest ih =>
    rw [List.cons_append, syncLinks_cons_eq, syncLinks_cons_eq]
    rw [syncLinks_cons_eq] at hnp
    cases hc : c k with
    | none =>
      rw [hc] at hnp
      exact ih deleted w hnp
    | some l =>
      rw [hc] at hnp
      simp only at hnp ⊢
      by_cases hp : (syncRoutes ops k l deleted w).1 = Res.panic
      · exfalso
        apply hnp
        rw [hp]
        exact hp
      · split
        · rename_i hp'
          exact absurd hp' hp
        · split at hnp
          · rename_i hp'
            exact absurd hp' hp
          · exact ih _ _ hnp

/-- What `applyRoute` logs for a managed route with a destination, given what the list
returns. -/
theorem applyRoute_calls_action (ops : NetLinkOps K) (m : Route) (w : World K) (family : Int)
    (hf : getNetlinkIPFamily m.Dst = some family) (listed : List Route)
    (hl : (ops.RouteListFiltered w.kernel family
      (filterRouteByDstAndTable m.LinkIndex m.Dst m.Table).1
      (filterRouteByDstAndTable m.LinkIndex m.Dst m.Table).2).1 = Except.ok listed) :
    (applyRoute ops m.LinkIndex m.Gw m.Dst m.MTU m.Src m.Table m.Priority m.Type_ m.Scope
      w).2.calls =
      w.calls ++
        [Call.ApplyRoute m.LinkIndex m.Gw m.Dst m.MTU m.Src m.Table m.Priority m.Type_ m.Scope,
         Call.RouteListFiltered family (filterRouteByDstAndTable m.LinkIndex m.Dst m.Table).1
           (filterRouteByDstAndTable m.LinkIndex m.Dst m.Table).2] ++
        applyAction m listed := by
  cases listed with
  | nil =>
    rw [(applyRoute_create ops m.LinkIndex m.Gw m.Dst m.MTU m.Src m.Table m.Priority m.Type_
      m.Scope w family hf hl).1]
    simp [applyAction]
  | cons e rest =>
    by_cases hd : e.MTU ≠ m.MTU ∨ IP.Equal m.Src e.Src = false ∨ IP.Equal m.Gw e.Gw = false
    · rw [applyRoute_replace ops m.LinkIndex m.Gw m.Dst m.MTU m.Src m.Table m.Priority
        m.Type_ m.Scope w family hf e rest hl hd]
      simp only [applyAction, if_pos hd]
      simp
    · have h1 : e.MTU = m.MTU := by
        by_contra h
        exact hd (Or.inl h)
      have h2 : IP.Equal m.Src e.Src = true := by
        by_contra h
        exact hd (Or.inr (Or.inl (by simpa using h)))
      have h3 : IP.Equal m.Gw e.Gw = true := by
        by_contra h
        exact hd (Or.inr (Or.inr (by simpa using h)))
      rw [applyRoute_noop ops m.LinkIndex m.Gw m.Dst m.MTU m.Src m.Table m.Priority
        m.Type_ m.Scope w family hf e rest hl h1 h2 h3]
      simp only [applyAction, if_neg hd, List.append_nil]

/-- The step of the sweep at a managed route with a destination that the kernel list
shows missing and whose link lookup does not fail: the sweep goes on with the routes that
follow, having logged the list, the lookup, the entry into `applyRoute`, its list and
its action. -/
theorem syncRoutes_at_missing (ops : NetLinkOps K) (k : Int) (m : Route) (t : List Route)
    (deleted : List Int) (w : World K) (listed : List Route) (family : Int)
    (listed2 : List Route)
    (hlist : (ops.RouteListFiltered w.kernel FAMILY_ALL
      (filterRouteByDstAndTable k m.Dst m.Table).1
      (filterRouteByDstAndTable k m.Dst m.Table).2).1 = Except.ok listed)
    (hmiss : listed.any (fun a => RoutePartiallyEqual a m) = false)
    (hlk : (lookupLink ops m.LinkIndex (RouteListFiltered ops FAMILY_ALL
      (filterRouteByDstAndTable k m.Dst m.Table).1
      (filterRouteByDstAndTable k m.Dst m.Table).2 w).2).1 = none)
    (hf : getNetlinkIPFamily m.Dst = some family)
    (hl2 : (ops.RouteListFiltered (lookupLink ops m.LinkIndex (RouteListFiltered ops FAMILY_ALL
        (filterRouteByDstAndTable k m.Dst m.Table).1
        (filterRouteByDstAndTable k m.Dst m.Table).2 w).2).2.kernel family
      (filterRouteByDstAndTable m.LinkIndex m.Dst m.Table).1
      (filterRouteByDstAndTable m.LinkIndex m.Dst m.Table).2).1 = Except.ok listed2) :
    ∃ w' : World K, syncRoutes ops k (m :: t) deleted w = syncRoutes ops k t deleted w' ∧
      w'.calls = w.calls ++
        ([Call.RouteListFiltered FAMILY_ALL (filterRouteByDstAndTable k m.Dst m.Table).1
            (filterRouteByDstAndTable k m.Dst m.Table).2] ++
          (if m.LinkIndex ≠ 0 then [Call.LinkByIndex m.LinkIndex] else []) ++
          [Call.ApplyRoute m.LinkIndex m.Gw m.Dst m.MTU m.Src m.Table m.Priority m.Type_
              m.Scope,
            Call.RouteListFiltered family
              (filterRouteByDstAndTable m.LinkIndex m.Dst m.Table).1
              (filterRouteByDstAndTable m.LinkIndex m.Dst m.Table).2] ++
          applyAction m listed2) := by
  have hl1 : (RouteListFiltered ops FAMILY_ALL (filterRouteByDstAndTable k m.Dst m.Table).1
      (filterRouteByDstAndTable k m.Dst m.Table).2 w).1 = Except.ok listed := hlist
  have hnp : (applyRoute ops m.LinkIndex m.Gw m.Dst m.MTU m.Src m.Table m.Priority m.Type_
      m.Scope (lookupLink ops m.LinkIndex (RouteListFiltered ops FAMILY_ALL
        (filterRouteByDstAndTable k m.Dst m.Table).1
        (filterRouteByDstAndTable k m.Dst m.Table).2 w).2).2).1 ≠ Res.panic := by
    intro hp
    have hn := applyRoute_panic ops _ _ _ _ _ _ _ _ _ _ hp
    rw [hn] at hf
    cases hf
  refine ⟨(applyRoute ops m.LinkIndex m.Gw m.Dst m.MTU m.Src m.Table m.Priority m.Type_
      m.Scope (lookupLink ops m.LinkIndex (RouteListFiltered ops FAMILY_ALL
        (filterRouteByDstAndTable k m.Dst m.Table).1
        (filterRouteByDstAndTable k m.Dst m.Table).2 w).2).2).2, ?_, ?_⟩
  · rw [syncRoutes_cons_eq, hl1]
    simp only [hmiss, hlk, Bool.false_eq_true, if_false]
  · rw [applyRoute_calls_action ops m _ family hf listed2 hl2, lookupLink_calls]
    simp only [RouteListFiltered, List.append_assoc]

/-! ## Restoring a managed route missing from the kernel -/

theorem sync_world (ops : NetLinkOps K) (c : Store) (keys : List Int) (w : World K) :
    (sync ops c keys w).2.2 = (syncLinks ops c keys [] w).2.2 := by
  unfold sync
  split <;> rfl

theorem sweepTo_eq (ops : NetLinkOps K) (c : Store) (ks1 : List Int) (k : Int)
    (l1 : List Route) (w : World K) (h : (sweepTo ops c ks1 k l1 w).1 ≠ Res.panic) :
    (syncLinks ops c ks1 [] w).1 ≠ Res.panic ∧
    sweepTo ops c ks1 k l1 w =
      syncRoutes ops k l1 (syncLinks ops c ks1 [] w).2.1 (syncLinks ops c ks1 [] w).2.2 := by
  unfold sweepTo at h ⊢
  split at h
  · rename_i hp
    exact absurd hp h
  · rename_i hnp
    exact ⟨fun hp => hnp hp, rfl⟩

/-- The sweep of the keys from a key on goes on from the sweep of that key's routes. -/
theorem syncLinks_after_routes (ops : NetLinkOps K) (c : Store) (k : Int) (ks2 : List Int)
    (l : List Route) (deleted : List Int) (w : World K) (hc : c k = some l) :
    Extends (fun _ => True) (syncRoutes ops k l deleted w).2.2
      (syncLinks ops c (k :: ks2) deleted w).2.2 := by
  rw [syncLinks_cons_eq, hc]
  simp only
  split
  · exact Extends.refl _ _
  · exact syncLinks_extends _ ops c ks2 _ _ (fun _ _ _ _ _ _ _ => trivial)

/-- C21, amended. Let the pass reach the managed route `m` of link `k` without a panic,
after the links `ks1` and the routes `l1`. If `m` has a destination, the list filtered
by the key, destination and table succeeds and returns no route equal to `m` under
`RoutePartiallyEqual`, the link of `m` is 0 or resolves, and the list of `applyRoute`
succeeds with `listed2`, then the pass logs, in this order, that list, the lookup, the
entry into `applyRoute` for `m`, the list of `applyRoute` and the action on `listed2`:
a create of `m` when `listed2` is empty, a replace of its first route when that route
differs from `m` in MTU, source or gateway, and no kernel write otherwise. -/
theorem sync_applies_missing (ops : NetLinkOps K) (c : Store) (keys ks1 ks2 : List Int)
    (k : Int) (l1 l2 : List Route) (m : Route) (w : World K) (listed : List Route)
    (family : Int) (listed2 : List Route)
    (hkeys : keys = ks1 ++ k :: ks2)
    (hc : c k = some (l1 ++ m :: l2))
    (hsweep : (sweepTo ops c ks1 k l1 w).1 ≠ Res.panic)
    (hlist : (ops.RouteListFiltered (sweepTo ops c ks1 k l1 w).2.2.kernel FAMILY_ALL
      (filterRouteByDstAndTable k m.Dst m.Table).1
      (filterRouteByDstAndTable k m.Dst m.Table).2).1 = Except.ok listed)
    (hmiss : listed.any (fun a => RoutePartiallyEqual a m) = false)
    (hlk : (lookupLink ops m.LinkIndex (RouteListFiltered ops FAMILY_ALL
      (filterRouteByDstAndTable k m.Dst m.Table).1
      (filterRouteByDstAndTable k m.Dst m.Table).2 (sweepTo ops c ks1 k l1 w).2.2).2).1 = none)
    (hf : getNetlinkIPFamily m.Dst = some family)
    (hl2 : (ops.RouteListFiltered (lookupLink ops m.LinkIndex (RouteListFiltered ops FAMILY_ALL
        (filterRouteByDstAndTable k m.Dst m.Table).1
        (filterRouteByDstAndTable k m.Dst m.Table).2
        (sweepTo ops c ks1 k l1 w).2.2).2).2.kernel family
      (filterRouteByDstAndTable m.LinkIndex m.Dst m.Table).1
      (filterRouteByDstAndTable m.LinkIndex m.Dst m.Table).2).1 = Except.ok listed2) :
    (∃ later : List Call, (sync ops c keys w).2.2.calls =
      (sweepTo ops c ks1 k l1 w).2.2.calls ++
        ([Call.RouteListFiltered FAMILY_ALL (filterRouteByDstAndTable k m.Dst m.Table).1
            (filterRouteByDstAndTable k m.Dst m.Table).2] ++
          (if m.LinkIndex ≠ 0 then [Call.LinkByIndex m.LinkIndex] else []) ++
          [Call.ApplyRoute m.LinkIndex m.Gw m.Dst m.MTU m.Src m.Table m.Priority m.Type_
              m.Scope,
            Call.RouteListFiltered family
              (filterRouteByDstAndTable m.LinkIndex m.Dst m.Table).1
              (filterRouteByDstAndTable m.LinkIndex m.Dst m.Table).2] ++
          applyAction m listed2) ++ later) ∧
    (listed2 = [] →
      Call.RouteAdd (newNlRoute m.LinkIndex m.Gw m.Dst m.MTU m.Src m.Table m.Priority m.Type_
        m.Scope) ∈ (sync ops c keys w).2.2.calls) ∧
    (∀ e rest, listed2 = e :: rest →
      (e.MTU ≠ m.MTU ∨ IP.Equal m.Src e.Src = false ∨ IP.Equal m.Gw e.Gw = false) →
      Call.RouteReplace { e with MTU := m.MTU, Src := m.Src, Gw := m.Gw } ∈
        (sync ops c keys w).2.2.calls) ∧
    (∀ e rest, listed2 = e :: rest →
      ¬ (e.MTU ≠ m.MTU ∨ IP.Equal m.Src e.Src = false ∨ IP.Equal m.Gw e.Gw = false) →
      applyAction m listed2 = []) := by
  obtain ⟨hS, hsw⟩ := sweepTo_eq ops c ks1 k l1 w hsweep
  have hR : (syncRoutes ops k l1 (syncLinks ops c ks1 [] w).2.1
      (syncLinks ops c ks1 [] w).2.2).1 ≠ Res.panic := by
    rw [← hsw]
    exact hsweep
  obtain ⟨w3, hstep, hcalls⟩ := syncRoutes_at_missing ops k m l2
    (sweepTo ops c ks1 k l1 w).2.1 (sweepTo ops c ks1 k l1 w).2.2 listed family listed2
    hlist hmiss hlk hf hl2
  have hrun : ∃ later : List Call, (sync ops c keys w).2.2.calls = w3.calls ++ later := by
    rw [sync_world, hkeys, syncLinks_append ops c ks1 (k :: ks2) [] w hS]
    obtain ⟨n1, e1, _⟩ := syncLinks_after_routes ops c k ks2 (l1 ++ m :: l2)
      (syncLinks ops c ks1 [] w).2.1 (syncLinks ops c ks1 [] w).2.2 hc
    rw [syncRoutes_append ops k l1 (m :: l2) _ _ hR, ← hsw, hstep] at e1
    obtain ⟨n2, e2, _⟩ := syncRoutes_extends (fun _ => True) ops k l2
      (sweepTo ops c ks1 k l1 w).2.1 w3 (fun _ _ _ _ => trivial)
    exact ⟨n2 ++ n1, by rw [e1, e2, List.append_assoc]⟩
  obtain ⟨later, hlater⟩ := hrun
  rw [hcalls] at hlater
  refine ⟨⟨later, hlater⟩, ?_, ?_, ?_⟩
  · intro hnil
    rw [hlater, hnil]
    simp [applyAction]
  · intro e rest he hd
    rw [hlater, he]
    simp only [applyAction, if_pos hd]
    simp
  · intro e rest he hd
    rw [he]
    simp only [applyAction, if_neg hd]

/-- C21 on the kernel without routes: `sync` meets the managed `route254`, finds it
missing, and creates it. -/
theorem sync_applies_missing_witness :
    [5] = [] ++ 5 :: [] ∧ store5 5 = some ([] ++ route254 :: []) ∧
    (sweepTo simOps store5 [] 5 [] kernel5).1 ≠ Res.panic ∧
    Call.RouteAdd (newNlRoute route254.LinkIndex route254.Gw route254.Dst route254.MTU
      route254.Src route254.Table route254.Priority route254.Type_ route254.Scope) ∈
      (sync simOps store5 [5] kernel5).2.2.calls :=
  ⟨rfl, by decide, by decide,
    (sync_applies_missing simOps store5 [5] [] [] 5 [] [] route254 kernel5 [] 2 []
      rfl (by decide) (by decide) rfl rfl (by decide) (by decide) rfl).2.1 rfl⟩

/-- C21 as stated fails. The store manages `route254`; the kernel holds only
`route254f`, which differs from it in flags and priority, so no kernel route is equal to
`route254` under `RoutePartiallyEqual`. Link 5 resolves and every kernel call succeeds,
yet the pass issues neither a create nor a replace and leaves the kernel as it was:
`applyRoute` lists `route254f` under the link, destination and table of `route254` and
finds its MTU, source and gateway as wanted. -/
theorem sync_leaves_missing_counterexample :
    store5 5 = some [route254] ∧
    kernel5f.kernel.routes.any (fun a => RoutePartiallyEqual a route254) = false ∧
    (simOps.LinkByIndex kernel5f.kernel 5).1 = none ∧
    (sync simOps store5 [5] kernel5f).1 = Res.ok ∧
    (sync simOps store5 [5] kernel5f).2.2.calls.any Call.isRouteAdd = false ∧
    (sync simOps store5 [5] kernel5f).2.2.calls.any Call.isRouteReplace = false ∧
    Call.ApplyRoute 5 route254.Gw route254.Dst 0 none 254 0 0 0 ∈
      (sync simOps store5 [5] kernel5f).2.2.calls ∧
    (sync simOps store5 [5] kernel5f).2.2.kernel = kernel5f.kernel := by
  decide

/-! ## The store across a reconciliation pass -/

theorem FoundAbsent.later (ops : NetLinkOps K) (w w' : World K) (l : List Route)
    (hw : Extends (fun _ => True) w w') (h : FoundAbsent ops w' l) : FoundAbsent ops w l := by
  obtain ⟨m, hm, w0, err, he, hl, hn⟩ := h
  exact ⟨m, hm, w0, err, Extends.trans _ _ _ _ hw he, hl, hn⟩

theorem FoundAbsent.tail (ops : NetLinkOps K) (w : World K) (x : Route) (t : List Route)
    (h : FoundAbsent ops w t) : FoundAbsent ops w (x :: t) := by
  obtain ⟨m, hm, rest⟩ := h
  exact ⟨m, List.mem_cons_of_mem _ hm, rest⟩

/-- One step of the sweep of a link and the links it records: it panics and records
nothing, or it hands over to the routes that follow having recorded nothing or the key,
the key only after a lookup of the route's link was answered link-not-found. -/
theorem syncRoutes_step_deleted (ops : NetLinkOps K) (k : Int) (x : Route)
    (deleted : List Int) (w : World K) :
    (∀ t, (syncRoutes ops k (x :: t) deleted w).2.1 = deleted) ∨
    ∃ (deleted' : List Int) (w' : World K), Extends (fun _ => True) w w' ∧
      (deleted' = deleted ∨ (deleted' = deleted ++ [k] ∧ FoundAbsent ops w [x])) ∧
      ∀ t, syncRoutes ops k (x :: t) deleted w = syncRoutes ops k t deleted' w' := by
  have hlist : Extends (fun _ => True) w (RouteListFiltered ops FAMILY_ALL
      (filterRouteByDstAndTable k x.Dst x.Table).1
      (filterRouteByDstAndTable k x.Dst x.Table).2 w).2 :=
    RouteListFiltered_extends _ ops _ _ _ w trivial
  have hlook : Extends (fun _ => True) w (lookupLink ops x.LinkIndex
      (RouteListFiltered ops FAMILY_ALL
        (filterRouteByDstAndTable k x.Dst x.Table).1
        (filterRouteByDstAndTable k x.Dst x.Table).2 w).2).2 :=
    Extends.trans _ _ _ _ hlist (lookupLink_extends _ ops _ _ (fun _ => trivial))
  have happ : Extends (fun _ => True) w
      (applyRoute ops x.LinkIndex x.Gw x.Dst x.MTU x.Src x.Table x.Priority x.Type_ x.Scope
        (lookupLink ops x.LinkIndex (RouteListFiltered ops FAMILY_ALL
          (filterRouteByDstAndTable k x.Dst x.Table).1
          (filterRouteByDstAndTable k x.Dst x.Table).2 w).2).2).2 :=
    Extends.trans _ _ _ _ hlook (Extends.mono _ _ _ _ (applyRoute_extends ops _ _ _ _ _ _ _ _ _ _)
      (fun _ _ => trivial))
  cases h1 : (RouteListFiltered ops FAMILY_ALL
      (filterRouteByDstAndTable k x.Dst x.Table).1
      (filterRouteByDstAndTable k x.Dst x.Table).2 w).1 with
  | error err =>
    refine Or.inr ⟨deleted, _, hlist, Or.inl rfl, fun t => ?_⟩
    rw [syncRoutes_cons_eq, h1]
  | ok existing =>
    by_cases h2 : existing.any (fun activeRoute => RoutePartiallyEqual activeRoute x) = true
    · refine Or.inr ⟨deleted, _, hlist, Or.inl rfl, fun t => ?_⟩
      rw [syncRoutes_cons_eq, h1]
      simp only [h2, if_true]
    · have h2' : existing.any (fun activeRoute => RoutePartiallyEqual activeRoute x) = false := by
        simpa using h2
      cases h3 : (lookupLink ops x.LinkIndex (RouteListFiltered ops FAMILY_ALL
          (filterRouteByDstAndTable k x.Dst x.Table).1
          (filterRouteByDstAndTable k x.Dst x.Table).2 w).2).1 with
      | some err =>
        by_cases h4 : ops.IsLinkNotFoundError err = true
        · refine Or.inr ⟨deleted ++ [k], _, hlook,
            Or.inr ⟨rfl, x, List.mem_singleton.mpr rfl, _, err, hlist, h3, h4⟩, fun t => ?_⟩
          rw [syncRoutes_cons_eq, h1]
          simp only [h2', h3, h4, Bool.false_eq_true, if_true, if_false]
        · refine Or.inr ⟨deleted, _, hlook, Or.inl rfl, fun t => ?_⟩
          rw [syncRoutes_cons_eq, h1]
          simp only [h2', h3, h4, Bool.false_eq_true, if_false]
      | none =>
        by_cases h5 : (applyRoute ops x.LinkIndex x.Gw x.Dst x.MTU x.Src x.Table x.Priority
            x.Type_ x.Scope (lookupLink ops x.LinkIndex (RouteListFiltered ops FAMILY_ALL
              (filterRouteByDstAndTable k x.Dst x.Table).1
              (filterRouteByDstAndTable k x.Dst x.Table).2 w).2).2).1 = Res.panic
        · refine Or.inl (fun t => ?_)
          rw [syncRoutes_cons_eq, h1]
          simp only [h2', h3, h5, Bool.false_eq_true, if_false]
        · refine Or.inr ⟨deleted, _, happ, Or.inl rfl, fun t => ?_⟩
          rw [syncRoutes_cons_eq, h1]
          simp only [h2', h3, Bool.false_eq_true, if_false]

/-- The sweep of a link records nothing but its key, and the key only after a lookup of
the link of one of its routes was answered link-not-found. -/
theorem syncRoutes_deleted (ops : NetLinkOps K) (k : Int) (l : List Route)
    (deleted : List Int) (w : World K) :
    ∀ y ∈ (syncRoutes ops k l deleted w).2.1, y ∈ deleted ∨ (y = k ∧ FoundAbsent ops w l) := by
  induction l generalizing deleted w with
  | nil => exact fun y hy => Or.inl hy
  | cons x t ih =>
    intro y hy
    rcases syncRoutes_step_deleted ops k x deleted w with hp | ⟨d', w', hw, hd, hstep⟩
    · rw [hp t] at hy
      exact Or.inl hy
    · rw [hstep t] at hy
      rcases ih d' w' y hy with h | ⟨hk, hfa⟩
      · rcases hd with rfl | ⟨rfl, hx⟩
        · exact Or.inl h
        · rcases List.mem_append.mp h with h' | h'
          · exact Or.inl h'
          · refine Or.inr ⟨List.mem_singleton.mp h', ?_⟩
            obtain ⟨m, hm, rest⟩ := hx
            rcases List.mem_singleton.mp hm with rfl
            exact ⟨m, List.mem_cons_self _ _, rest⟩
      · exact Or.inr ⟨hk, FoundAbsent.tail ops w x t (FoundAbsent.later ops w w' t hw hfa)⟩

/-- The sweep of the store records only keys of the store, each only after a lookup of
the link of one of its routes was answered link-not-found. -/
theorem syncLinks_deleted (ops : NetLinkOps K) (c : Store) (keys : List Int)
    (deleted : List Int) (w : World K) :
    ∀ y ∈ (syncLinks ops c keys deleted w).2.1,
      y ∈ deleted ∨ ∃ l, c y = some l ∧ FoundAbsent ops w l := by
  induction keys generalizing deleted w with
  | nil => exact fun y hy => Or.inl hy
  | cons k rest ih =>
    intro y hy
    rw [syncLinks_cons_eq] at hy
    cases hc : c k with
    | none =>
      rw [hc] at hy
      exact ih deleted w y hy
    | some l =>
      rw [hc] at hy
      simp only at hy
      have hroutes : ∀ z ∈ (syncRoutes ops k l deleted w).2.1,
          z ∈ deleted ∨ ∃ l, c z = some l ∧ FoundAbsent ops w l := by
        intro z hz
        rcases syncRoutes_deleted ops k l deleted w z hz with h | ⟨rfl, hfa⟩
        · exact Or.inl h
        · exact Or.inr ⟨l, hc, hfa⟩
      split at hy
      · exact hroutes y hy
      · rcases ih _ _ y hy with h | ⟨l', hl', hfa⟩
        · exact hroutes y h
        · exact Or.inr ⟨l', hl', FoundAbsent.later ops w _ l'
            (syncRoutes_extends _ ops k l deleted w (fun _ _ _ _ => trivial)) hfa⟩

/-- When the pass is not cut short: a pass of `sync` that returns leaves the list of
every link as it was or removes the link, and removes it only after a lookup of the link
of one of its routes, made during or after the start of the pass, was answered
link-not-found. -/
theorem sync_store_frame (ops : NetLinkOps K) (c : Store) (keys : List Int) (w : World K)
    (hok : (sync ops c keys w).1 = Res.ok) (i : Int) :
    (sync ops c keys w).2.1 i = c i ∨
    ((sync ops c keys w).2.1 i = none ∧ ∃ l, c i = some l ∧ FoundAbsent ops w l) := by
  rcases sync_result ops c keys w with ⟨hp, _, _⟩ | ⟨_, _, hstore⟩
  · rw [hp] at hok
    cases hok
  · rw [hstore, Store.foldl_delete_apply]
    by_cases hi : i ∈ (syncLinks ops c keys [] w).2.1
    · rw [if_pos hi]
      rcases syncLinks_deleted ops c keys [] w i hi with h | h
      · cases h
      · exact Or.inr ⟨rfl, h⟩
    · rw [if_neg hi]
      exact Or.inl rfl

/-- C22 at the failing input. Link 5 holds `route254`, link 7 the route without
destination left by a failed `Add`; link 5 is absent from the kernel and link 7 exists.
The lookup of link 5 made by the pass is answered link-not-found, so the store after the
pass should be the store before without key 5; the pass panics on the route of link 7
instead, and the list of link 5 is still in the store. -/
theorem sync_panic_keeps_absent_link :
    (sync simOps store57 [5, 7] kernel7).2.2.calls.count (Call.LinkByIndex 5) = 1 ∧
    (lookupLink simOps 5 kernel7).1 = some linkNotFound ∧
    simOps.IsLinkNotFoundError linkNotFound = true ∧
    (Store.delete store57 5) 5 = none ∧
    (sync simOps store57 [5, 7] kernel7).1 = Res.panic ∧
    (sync simOps store57 [5, 7] kernel7).2.1 5 = store57 5 ∧
    (sync simOps store57 [5, 7] kernel7).2.1 5 ≠ (Store.delete store57 5) 5 ∧
    (sync simOps store57 [5, 7] kernel7).2.1 7 = store57 7 := by
  decide

/-! ## `Del` of a route that is not managed -/

/-- When the deletes of a list do not all succeed, the list splits at the first delete
that fails. -/
theorem deletesSucceed_split (ops : NetLinkOps K) (l : List Route) (k : K)
    (h : deletesSucceed ops l k = false) :
    ∃ (pre : List Route) (x : Route) (post : List Route) (e : Error),
      l = pre ++ x :: post ∧ deletesSucceed ops pre k = true ∧
      (ops.RouteDel (kernelAfterDeletes ops pre k) x).1 = some e := by
  induction l generalizing k with
  | nil => cases h
  | cons a t ih =>
    cases ha : (ops.RouteDel k a).1 with
    | some e => exact ⟨[], a, t, e, rfl, rfl, ha⟩
    | none =>
      have ht : deletesSucceed ops t (ops.RouteDel k a).2 = false := by
        unfold deletesSucceed at h
        rw [ha] at h
        simpa using h
      obtain ⟨pre, x, post, e, hsplit, hpre, hx⟩ := ih _ ht
      refine ⟨a :: pre, x, post, e, by rw [hsplit]; rfl, ?_, hx⟩
      unfold deletesSucceed
      rw [ha, hpre]
      rfl

/-- A failed link lookup in `delRoute`: link-not-found drops the entry of the link and is
no error, any other error is returned; nothing but the lookup has been logged. -/
theorem delRoute_lookup_err (ops : NetLinkOps K) (c : Store) (r : Route) (w : World K)
    (err : Error) (h : (lookupLink ops r.LinkIndex w).1 = some err) :
    delRoute ops c r w =
      (if ops.IsLinkNotFoundError err then
        (Res.ok, Store.delete c r.LinkIndex, (lookupLink ops r.LinkIndex w).2)
       else
        (Res.err (Error.wrap "failed to delete route because unable to get link" err), c,
          (lookupLink ops r.LinkIndex w).2)) ∧
    (lookupLink ops r.LinkIndex w).2.calls = w.calls ++ [Call.LinkByIndex r.LinkIndex] := by
  have hidx : r.LinkIndex ≠ 0 := by
    intro h0
    unfold lookupLink at h
    rw [if_neg (by simpa using h0)] at h
    cases h
  refine ⟨?_, by rw [lookupLink_calls, if_pos hidx]⟩
  unfold delRoute
  simp only [h]

/-- After a link lookup without error, the result of `delRoute` is that of
`netlinkDelRoute`, wrapped when it is an error, and so is the world it leaves. -/
theorem delRoute_lookup_ok (ops : NetLinkOps K) (c : Store) (r : Route) (w : World K)
    (h : (lookupLink ops r.LinkIndex w).1 = none) :
    (delRoute ops c r w).1 =
      (match (netlinkDelRoute ops r.LinkIndex r.Dst r.Table (lookupLink ops r.LinkIndex w).2).1
        with
      | some err => Res.err (Error.wrap "failed to delete route" err)
      | none => Res.ok) ∧
    (delRoute ops c r w).2.2 =
      (netlinkDelRoute ops r.LinkIndex r.Dst r.Table (lookupLink ops r.LinkIndex w).2).2 := by
  unfold delRoute
  simp only [h]
  cases (netlinkDelRoute ops r.LinkIndex r.Dst r.Table (lookupLink ops r.LinkIndex w).2).1 with
  | some err => exact ⟨rfl, rfl⟩
  | none =>
    simp only
    cases c r.LinkIndex with
    | none => exact ⟨rfl, rfl⟩
    | some l =>
      simp only
      split_ifs <;> exact ⟨rfl, rfl⟩

/-- With a destination, `netlinkDelRoute` is the list over all families followed by the
deletes of what it returned. -/
theorem netlinkDelRoute_some (ops : NetLinkOps K) (linkIndex : Int) (d : IPNet) (table : Int)
    (w : World K) :
    netlinkDelRoute ops linkIndex (some d) table w =
      match (RouteListFiltered ops FAMILY_ALL
          (filterRouteByDstAndTable linkIndex (some d) table).1
          (filterRouteByDstAndTable linkIndex (some d) table).2 w).1 with
      | Except.error err =>
        (some (Error.wrap "failed to get routes for link" err),
          (RouteListFiltered ops FAMILY_ALL
            (filterRouteByDstAndTable linkIndex (some d) table).1
            (filterRouteByDstAndTable linkIndex (some d) table).2 w).2)
      | Except.ok existingRoutes =>
        delRoutes ops existingRoutes (RouteListFiltered ops FAMILY_ALL
          (filterRouteByDstAndTable linkIndex (some d) table).1
          (filterRouteByDstAndTable linkIndex (some d) table).2 w).2 := rfl

theorem Del_result (ops : NetLinkOps K) (c : Store) (r : Route) (w : World K) :
    (Del ops c r w).1 =
      match (delRoute ops c r w).1 with
      | Res.err err => Res.err (Error.wrap "route manager: failed to delete route" err)
      | res => res := by
  unfold Del
  split <;> rename_i h <;> simp only [h]

/-- C9, as amended. `Del` of a route that a reachable store does not manage acts on the
kernel without consulting the store: its result and the world it leaves are the same for
every store. A lookup answered link-not-found makes `Del` return success after the
lookup alone and drop the entry of the route's link; a lookup that fails otherwise makes
it return the wrapped error after the lookup alone. When the link is 0 or resolves the
store is left as it was: without a destination `Del` returns an error without a further
call; with one it lists the kernel routes over all families under the route's link,
destination and table, returns an error when the list fails, deletes the listed routes
in order, and returns success when every delete succeeds and the error of the first
delete that fails otherwise. So whenever `Del` returns success it has issued at least
one kernel call. -/
theorem Del_unmanaged (ops : NetLinkOps K) (c : Store) (hc : Reachable c) (r : Route)
    (w : World K) (hun : isManaged c r = false) :
    (∀ c' : Store, (Del ops c r w).1 = (Del ops c' r w).1 ∧
      (Del ops c r w).2.2 = (Del ops c' r w).2.2) ∧
    (∀ err, (lookupLink ops r.LinkIndex w).1 = some err →
      (Del ops c r w).2.2.calls = w.calls ++ [Call.LinkByIndex r.LinkIndex] ∧
      (ops.IsLinkNotFoundError err = true →
        (Del ops c r w).1 = Res.ok ∧ (Del ops c r w).2.1 = Store.delete c r.LinkIndex) ∧
      (ops.IsLinkNotFoundError err = false →
        (Del ops c r w).1 = Res.err (Error.wrap "route manager: failed to delete route"
          (Error.wrap "failed to delete route because unable to get link" err)) ∧
        (Del ops c r w).2.1 = c)) ∧
    ((lookupLink ops r.LinkIndex w).1 = none →
      (Del ops c r w).2.1 = c ∧
      (r.Dst = none →
        (Del ops c r w).1 = Res.err (Error.wrap "route manager: failed to delete route"
          (Error.wrap "failed to delete route"
            (Error.text "cannot delete route with no valid subnet"))) ∧
        (Del ops c r w).2.2 = (lookupLink ops r.LinkIndex w).2) ∧
      (r.Dst ≠ none →
        (∀ e, (ops.RouteListFiltered (lookupLink ops r.LinkIndex w).2.kernel FAMILY_ALL
            (filterRouteByDstAndTable r.LinkIndex r.Dst r.Table).1
            (filterRouteByDstAndTable r.LinkIndex r.Dst r.Table).2).1 = Except.error e →
          (Del ops c r w).1 = Res.err (Error.wrap "route manager: failed to delete route"
            (Error.wrap "failed to delete route"
              (Error.wrap "failed to get routes for link" e))) ∧
          (Del ops c r w).2.2.calls = (lookupLink ops r.LinkIndex w).2.calls ++
            [Call.RouteListFiltered FAMILY_ALL
              (filterRouteByDstAndTable r.LinkIndex r.Dst r.Table).1
              (filterRouteByDstAndTable r.LinkIndex r.Dst r.Table).2]) ∧
        (∀ listed, (ops.RouteListFiltered (lookupLink ops r.LinkIndex w).2.kernel FAMILY_ALL
            (filterRouteByDstAndTable r.LinkIndex r.Dst r.Table).1
            (filterRouteByDstAndTable r.LinkIndex r.Dst r.Table).2).1 = Except.ok listed →
          (deletesSucceed ops listed
              (ops.RouteListFiltered (lookupLink ops r.LinkIndex w).2.kernel FAMILY_ALL
                (filterRouteByDstAndTable r.LinkIndex r.Dst r.Table).1
                (filterRouteByDstAndTable r.LinkIndex r.Dst r.Table).2).2 = true →
            (Del ops c r w).1 = Res.ok ∧
            (Del ops c r w).2.2.calls = (lookupLink ops r.LinkIndex w).2.calls ++
              Call.RouteListFiltered FAMILY_ALL
                (filterRouteByDstAndTable r.LinkIndex r.Dst r.Table).1
                (filterRouteByDstAndTable r.LinkIndex r.Dst r.Table).2 ::
              listed.map Call.RouteDel) ∧
          (deletesSucceed ops listed
              (ops.RouteListFiltered (lookupLink ops r.LinkIndex w).2.kernel FAMILY_ALL
                (filterRouteByDstAndTable r.LinkIndex r.Dst r.Table).1
                (filterRouteByDstAndTable r.LinkIndex r.Dst r.Table).2).2 = false →
            ∃ (pre : List Route) (x : Route) (post : List Route) (e : Error),
              listed = pre ++ x :: post ∧
              deletesSucceed ops pre
                (ops.RouteListFiltered (lookupLink ops r.LinkIndex w).2.kernel FAMILY_ALL
                  (filterRouteByDstAndTable r.LinkIndex r.Dst r.Table).1
                  (filterRouteByDstAndTable r.LinkIndex r.Dst r.Table).2).2 = true ∧
              (ops.RouteDel (kernelAfterDeletes ops pre
                (ops.RouteListFiltered (lookupLink ops r.LinkIndex w).2.kernel FAMILY_ALL
                  (filterRouteByDstAndTable r.LinkIndex r.Dst r.Table).1
                  (filterRouteByDstAndTable r.LinkIndex r.Dst r.Table).2).2) x).1 = some e ∧
              (Del ops c r w).1 = Res.err (Error.wrap "route manager: failed to delete route"
                (Error.wrap "failed to delete route" e)) ∧
              (Del ops c r w).2.2.calls = (lookupLink ops r.LinkIndex w).2.calls ++
                Call.RouteListFiltered FAMILY_ALL
                  (filterRouteByDstAndTable r.LinkIndex r.Dst r.Table).1
                  (filterRouteByDstAndTable r.LinkIndex r.Dst r.Table).2 ::
                (pre ++ [x]).map Call.RouteDel)))) ∧
    ((Del ops c r w).1 = Res.ok →
      ∃ new : List Call, (Del ops c r w).2.2.calls = w.calls ++ new ∧
        new.any Call.isKernel = true) := by
  refine ⟨?_, ?_, ?_, ?_⟩
  · intro c'
    rw [Del_calls, Del_calls, Del_result, Del_result,
      (delRoute_store_blind ops c c' r w).1]
    exact ⟨rfl, (delRoute_store_blind ops c c' r w).2⟩
  · intro err herr
    obtain ⟨hd, hcalls⟩ := delRoute_lookup_err ops c r w err herr
    refine ⟨?_, ?_, ?_⟩
    · rw [Del_calls, hd]
      split_ifs <;> exact hcalls
    · intro hnf
      rw [Del_result, Del_store, hd, if_pos hnf]
      exact ⟨rfl, rfl⟩
    · intro hnf
      rw [Del_result, Del_store, hd, if_neg (by rw [hnf]; exact Bool.false_ne_true)]
      exact ⟨rfl, rfl⟩
  · intro hlk
    obtain ⟨hres, hworld⟩ := delRoute_lookup_ok ops c r w hlk
    refine ⟨?_, ?_, ?_⟩
    · rw [Del_store]
      rcases delRoute_unmanaged_store ops c hc r w hun with h | ⟨err, herr, _⟩
      · exact h
      · rw [hlk] at herr
        cases herr
    · intro hdst
      rw [Del_result, Del_calls, hres, hworld, hdst]
      exact ⟨rfl, rfl⟩
    · intro hdst
      obtain ⟨d, hd⟩ := Option.ne_none_iff_exists'.mp hdst
      rw [Del_result, Del_calls, hres, hworld, hd, netlinkDelRoute_some]
      refine ⟨?_, ?_⟩
      · intro e he
        have he' : (RouteListFiltered ops FAMILY_ALL
            (filterRouteByDstAndTable r.LinkIndex (some d) r.Table).1
            (filterRouteByDstAndTable r.LinkIndex (some d) r.Table).2
            (lookupLink ops r.LinkIndex w).2).1 = Except.error e := he
        rw [he']
        exact ⟨rfl, rfl⟩
      · intro listed hl
        have hl' : (RouteListFiltered ops FAMILY_ALL
            (filterRouteByDstAndTable r.LinkIndex (some d) r.Table).1
            (filterRouteByDstAndTable r.LinkIndex (some d) r.Table).2
            (lookupLink ops r.LinkIndex w).2).1 = Except.ok listed := hl
        rw [hl']
        simp only
        refine ⟨?_, ?_⟩
        · intro hall
          obtain ⟨h1, h2, _⟩ := delRoutes_all ops listed (RouteListFiltered ops FAMILY_ALL
            (filterRouteByDstAndTable r.LinkIndex (some d) r.Table).1
            (filterRouteByDstAndTable r.LinkIndex (some d) r.Table).2
            (lookupLink ops r.LinkIndex w).2).2 hall
          rw [h1, h2]
          exact ⟨rfl, by simp [RouteListFiltered]⟩
        · intro hnot
          obtain ⟨pre, x, post, e, hsplit, hpre, hx⟩ := deletesSucceed_split ops listed _ hnot
          subst hsplit
          obtain ⟨h1, h2⟩ := delRoutes_stop ops pre x post (RouteListFiltered ops FAMILY_ALL
            (filterRouteByDstAndTable r.LinkIndex (some d) r.Table).1
            (filterRouteByDstAndTable r.LinkIndex (some d) r.Table).2
            (lookupLink ops r.LinkIndex w).2).2 e hpre hx
          refine ⟨pre, x, post, e, rfl, hpre, hx, ?_, ?_⟩
          · rw [h1]
          · rw [h2]
            simp [RouteListFiltered]
  · intro hok
    rw [Del_calls]
    apply delRoute_ok_calls
    rw [Del_result] at hok
    split at hok
    · cases hok
    · exact hok

/-- C9 on the empty store and a kernel holding link 5 and `route254`: `Del(route254)`
succeeds after a lookup, a list and a delete of the kernel route, and the store stays
empty. -/
theorem Del_unmanaged_witness :
    isManaged Store.empty route254 = false ∧
    (Del simOps Store.empty route254 kernel5r).2.1 = Store.empty ∧
    (Del simOps Store.empty route254 kernel5r).1 = Res.ok ∧
    (Del simOps Store.empty route254 kernel5r).2.2.calls =
      (lookupLink simOps route254.LinkIndex kernel5r).2.calls ++
        Call.RouteListFiltered FAMILY_ALL
          (filterRouteByDstAndTable route254.LinkIndex route254.Dst route254.Table).1
          (filterRouteByDstAndTable route254.LinkIndex route254.Dst route254.Table).2 ::
        [route254].map Call.RouteDel :=
  ⟨by decide,
   ((Del_unmanaged simOps Store.empty Reachable.init route254 kernel5r (by decide)).2.2.1
      (by decide)).1,
   ((((Del_unmanaged simOps Store.empty Reachable.init route254 kernel5r (by decide)).2.2.1
      (by decide)).2.2 (by decide)).2 [route254] rfl).1 (by decide)⟩

/-- C9 fails as stated: `route254` is not managed by the empty store, yet `Del(route254)`
looks link 5 up, lists the kernel routes and deletes the kernel route it finds; and
`Del` of an unmanaged route without destination returns an error. -/
theorem Del_unmanaged_counterexample :
    isManaged Store.empty route254 = false ∧
    (Del simOps Store.empty route254 kernel5r).2.2.calls =
      [Call.LinkByIndex 5,
       Call.RouteListFiltered 0
         { Route.zero with LinkIndex := 5, Dst := some net10, Table := 254 } 1216,
       Call.RouteDel route254] ∧
    (Del simOps Store.empty route254 kernel5r).2.2.kernel.routes = [] ∧
    isManaged Store.empty routeNoDst = false ∧
    (Del simOps Store.empty routeNoDst kernel5r).1 ≠ Res.ok := by
  decide

/-! ## The create for a managed route that the kernel does not hold -/

/-- What the pass logs from a managed route with a destination on, when it reaches the
route without a panic, finds it missing and its link is 0 or resolves. -/
theorem sync_calls_at_missing (ops : NetLinkOps K) (c : Store) (keys ks1 ks2 : List Int)
    (k : Int) (l1 l2 : List Route) (m : Route) (w : World K) (listed : List Route)
    (family : Int) (listed2 : List Route)
    (hkeys : keys = ks1 ++ k :: ks2)
    (hc : c k = some (l1 ++ m :: l2))
    (hsweep : (sweepTo ops c ks1 k l1 w).1 ≠ Res.panic)
    (hlist : (ops.RouteListFiltered (sweepTo ops c ks1 k l1 w).2.2.kernel FAMILY_ALL
      (filterRouteByDstAndTable k m.Dst m.Table).1
      (filterRouteByDstAndTable k m.Dst m.Table).2).1 = Except.ok listed)
    (hmiss : listed.any (fun a => RoutePartiallyEqual a m) = false)
    (hlk : (lookupLink ops m.LinkIndex (RouteListFiltered ops FAMILY_ALL
      (filterRouteByDstAndTable k m.Dst m.Table).1
      (filterRouteByDstAndTable k m.Dst m.Table).2 (sweepTo ops c ks1 k l1 w).2.2).2).1 = none)
    (hf : getNetlinkIPFamily m.Dst = some family)
    (hl2 : (ops.RouteListFiltered (lookupLink ops m.LinkIndex (RouteListFiltered ops FAMILY_ALL
        (filterRouteByDstAndTable k m.Dst m.Table).1
        (filterRouteByDstAndTable k m.Dst m.Table).2
        (sweepTo ops c ks1 k l1 w).2.2).2).2.kernel family
      (filterRouteByDstAndTable m.LinkIndex m.Dst m.Table).1
      (filterRouteByDstAndTable m.LinkIndex m.Dst m.Table).2).1 = Except.ok listed2) :
    ∃ later : List Call, (sync ops c keys w).2.2.calls =
      (sweepTo ops c ks1 k l1 w).2.2.calls ++
        ([Call.RouteListFiltered FAMILY_ALL (filterRouteByDstAndTable k m.Dst m.Table).1
            (filterRouteByDstAndTable k m.Dst m.Table).2] ++
          (if m.LinkIndex ≠ 0 then [Call.LinkByIndex m.LinkIndex] else []) ++
          [Call.ApplyRoute m.LinkIndex m.Gw m.Dst m.MTU m.Src m.Table m.Priority m.Type_
              m.Scope,
            Call.RouteListFiltered family
              (filterRouteByDstAndTable m.LinkIndex m.Dst m.Table).1
              (filterRouteByDstAndTable m.LinkIndex m.Dst m.Table).2] ++
          applyAction m listed2) ++ later := by
  obtain ⟨hS, hsw⟩ := sweepTo_eq ops c ks1 k l1 w hsweep
  have hR : (syncRoutes ops k l1 (syncLinks ops c ks1 [] w).2.1
      (syncLinks ops c ks1 [] w).2.2).1 ≠ Res.panic := by
    rw [← hsw]
    exact hsweep
  obtain ⟨w3, hstep, hcalls⟩ := syncRoutes_at_missing ops k m l2
    (sweepTo ops c ks1 k l1 w).2.1 (sweepTo ops c ks1 k l1 w).2.2 listed family listed2
    hlist hmiss hlk hf hl2
  have hrun : ∃ later : List Call, (sync ops c keys w).2.2.calls = w3.calls ++ later := by
    rw [sync_world, hkeys, syncLinks_append ops c ks1 (k :: ks2) [] w hS]
    obtain ⟨n1, e1, _⟩ := syncLinks_after_routes ops c k ks2 (l1 ++ m :: l2)
      (syncLinks ops c ks1 [] w).2.1 (syncLinks ops c ks1 [] w).2.2 hc
    rw [syncRoutes_append ops k l1 (m :: l2) _ _ hR, ← hsw, hstep] at e1
    obtain ⟨n2, e2, _⟩ := syncRoutes_extends (fun _ => True) ops k l2
      (sweepTo ops c ks1 k l1 w).2.1 w3 (fun _ _ _ _ => trivial)
    exact ⟨n2 ++ n1, by rw [e1, e2, List.append_assoc]⟩
  obtain ⟨later, hlater⟩ := hrun
  rw [hcalls] at hlater
  exact ⟨later, hlater⟩

/-- C19, as amended. Let the pass reach the managed route `m` of link `k` without a
panic, after the links `ks1` and the routes `l1`. If `m` has a destination, the kernel
state then reached holds no route under the link, destination and table of `m` (the list
over all families and the list of `applyRoute` both succeed and return nothing), and the
link of `m` is 0 or resolves, then the pass logs that list, the lookup, the entry into
`applyRoute`, its list and a kernel create. The created route carries the link index,
destination, table, MTU, priority, type and scope of `m`, and a gateway and a source
that are IP-equal to those of `m`. -/
theorem sync_creates_missing (ops : NetLinkOps K) (c : Store) (keys ks1 ks2 : List Int)
    (k : Int) (l1 l2 : List Route) (m : Route) (w : World K) (family : Int)
    (hkeys : keys = ks1 ++ k :: ks2)
    (hc : c k = some (l1 ++ m :: l2))
    (hsweep : (sweepTo ops c ks1 k l1 w).1 ≠ Res.panic)
    (hlist : (ops.RouteListFiltered (sweepTo ops c ks1 k l1 w).2.2.kernel FAMILY_ALL
      (filterRouteByDstAndTable k m.Dst m.Table).1
      (filterRouteByDstAndTable k m.Dst m.Table).2).1 = Except.ok [])
    (hlk : (lookupLink ops m.LinkIndex (RouteListFiltered ops FAMILY_ALL
      (filterRouteByDstAndTable k m.Dst m.Table).1
      (filterRouteByDstAndTable k m.Dst m.Table).2 (sweepTo ops c ks1 k l1 w).2.2).2).1 = none)
    (hf : getNetlinkIPFamily m.Dst = some family)
    (hl2 : (ops.RouteListFiltered (lookupLink ops m.LinkIndex (RouteListFiltered ops FAMILY_ALL
        (filterRouteByDstAndTable k m.Dst m.Table).1
        (filterRouteByDstAndTable k m.Dst m.Table).2
        (sweepTo ops c ks1 k l1 w).2.2).2).2.kernel family
      (filterRouteByDstAndTable m.LinkIndex m.Dst m.Table).1
      (filterRouteByDstAndTable m.LinkIndex m.Dst m.Table).2).1 = Except.ok []) :
    (∃ later : List Call, (sync ops c keys w).2.2.calls =
      (sweepTo ops c ks1 k l1 w).2.2.calls ++
        ([Call.RouteListFiltered FAMILY_ALL (filterRouteByDstAndTable k m.Dst m.Table).1
            (filterRouteByDstAndTable k m.Dst m.Table).2] ++
          (if m.LinkIndex ≠ 0 then [Call.LinkByIndex m.LinkIndex] else []) ++
          [Call.ApplyRoute m.LinkIndex m.Gw m.Dst m.MTU m.Src m.Table m.Priority m.Type_
              m.Scope,
            Call.RouteListFiltered family
              (filterRouteByDstAndTable m.LinkIndex m.Dst m.Table).1
              (filterRouteByDstAndTable m.LinkIndex m.Dst m.Table).2,
            Call.RouteAdd (newNlRoute m.LinkIndex m.Gw m.Dst m.MTU m.Src m.Table m.Priority
              m.Type_ m.Scope)]) ++ later) ∧
    Call.RouteAdd (newNlRoute m.LinkIndex m.Gw m.Dst m.MTU m.Src m.Table m.Priority m.Type_
      m.Scope) ∈ (sync ops c keys w).2.2.calls ∧
    (newNlRoute m.LinkIndex m.Gw m.Dst m.MTU m.Src m.Table m.Priority m.Type_
      m.Scope).LinkIndex = m.LinkIndex ∧
    (newNlRoute m.LinkIndex m.Gw m.Dst m.MTU m.Src m.Table m.Priority m.Type_
      m.Scope).Dst = m.Dst ∧
    (newNlRoute m.LinkIndex m.Gw m.Dst m.MTU m.Src m.Table m.Priority m.Type_
      m.Scope).Table = m.Table ∧
    IP.Equal (newNlRoute m.LinkIndex m.Gw m.Dst m.MTU m.Src m.Table m.Priority m.Type_
      m.Scope).Gw m.Gw = true ∧
    IP.Equal (newNlRoute m.LinkIndex m.Gw m.Dst m.MTU m.Src m.Table m.Priority m.Type_
      m.Scope).Src m.Src = true ∧
    (newNlRoute m.LinkIndex m.Gw m.Dst m.MTU m.Src m.Table m.Priority m.Type_
      m.Scope).MTU = m.MTU ∧
    (newNlRoute m.LinkIndex m.Gw m.Dst m.MTU m.Src m.Table m.Priority m.Type_
      m.Scope).Priority = m.Priority ∧
    (newNlRoute m.LinkIndex m.Gw m.Dst m.MTU m.Src m.Table m.Priority m.Type_
      m.Scope).Type_ = m.Type_ ∧
    (newNlRoute m.LinkIndex m.Gw m.Dst m.MTU m.Src m.Table m.Priority m.Type_
      m.Scope).Scope = m.Scope := by
  obtain ⟨later, hlater⟩ := sync_calls_at_missing ops c keys ks1 ks2 k l1 l2 m w [] family []
    hkeys hc hsweep hlist rfl hlk hf hl2
  have hact : applyAction m [] = [Call.RouteAdd (newNlRoute m.LinkIndex m.Gw m.Dst m.MTU
      m.Src m.Table m.Priority m.Type_ m.Scope)] := rfl
  rw [hact] at hlater
  refine ⟨⟨later, ?_⟩, ?_, ?_⟩
  · rw [hlater]
    simp only [List.append_assoc, List.cons_append, List.nil_append]
  · rw [hlater]
    simp
  · rw [newNlRoute_eq]
    refine ⟨rfl, rfl, rfl, IP.Equal_sent m.Gw, IP.Equal_sent m.Src, ?_, ?_, ?_, ?_⟩
    · simp only
      split_ifs with h
      · rfl
      · exact (not_not.mp h).symm
    · simp only
      split_ifs with h
      · rfl
      · exact (not_not.mp h).symm
    · simp only
      split_ifs with h
      · rfl
      · exact (not_not.mp h).symm
    · simp only [SCOPE_UNIVERSE]
      split_ifs with h
      · rfl
      · exact (not_not.mp h).symm

/-- The store holding `route254` and `route254m` on link 5 is reached by two `Add`s. -/
theorem store5m_reachable : Reachable store5m :=
  Reachable.add simOps store5 route5m kernel5
    (Reachable.add simOps Store.empty route5 kernel5 Reachable.init (by decide)) (by decide)

/-- C19 on a kernel with link 5 and no route: `sync` reaches `route254`, the first of
the two routes managed on link 5, lists nothing for it and creates it. -/
theorem sync_creates_missing_witness :
    store5m 5 = some ([] ++ route254 :: [route254m]) ∧
    (sweepTo simOps store5m [] 5 [] kernel5).1 ≠ Res.panic ∧
    (lookupLink simOps route254.LinkIndex (RouteListFiltered simOps FAMILY_ALL
      (filterRouteByDstAndTable 5 route254.Dst route254.Table).1
      (filterRouteByDstAndTable 5 route254.Dst route254.Table).2
      (sweepTo simOps store5m [] 5 [] kernel5).2.2).2).1 = none ∧
    Call.RouteAdd (newNlRoute route254.LinkIndex route254.Gw route254.Dst route254.MTU
      route254.Src route254.Table route254.Priority route254.Type_ route254.Scope) ∈
      (sync simOps store5m [5] kernel5).2.2.calls :=
  ⟨by decide, by decide, by decide,
    (sync_creates_missing simOps store5m [5] [] [] 5 [] [route254m] route254 kernel5 2
      rfl (by decide) (by decide) rfl (by decide) (by decide) rfl).2.1⟩

/-- C19 as stated fails. Link 5 manages `route254` and `route254m`, which share link,
destination and table and differ in MTU; link 5 resolves, the kernel holds no route at
all and every kernel call succeeds. The pass creates `route254`; when it reaches
`route254m` the kernel lists the route just created, and `applyRoute` replaces that route
with its MTU set to 1400. The pass returns, and the only create it issued carries MTU 0:
no create carries the MTU of `route254m`. -/
theorem sync_replaces_instead_counterexample :
    store5m 5 = some [route254, route254m] ∧
    route254m.Dst = some net10 ∧
    kernel5.kernel.routes = [] ∧
    (simOps.LinkByIndex kernel5.kernel 5).1 = none ∧
    (sync simOps store5m [5] kernel5).1 = Res.ok ∧
    (sync simOps store5m [5] kernel5).2.2.calls =
      [Call.RouteListFiltered 0
         { Route.zero with LinkIndex := 5, Dst := some net10, Table := 254 } 1216,
       Call.LinkByIndex 5,
       Call.ApplyRoute 5 (some [192, 168, 1, 1]) (some net10) 0 none 254 0 0 0,
       Call.RouteListFiltered 2
         { Route.zero with LinkIndex := 5, Dst := some net10, Table := 254 } 1216,
       Call.RouteAdd route254,
       Call.RouteListFiltered 0
         { Route.zero with LinkIndex := 5, Dst := some net10, Table := 254 } 1216,
       Call.LinkByIndex 5,
       Call.ApplyRoute 5 (some [192, 168, 1, 1]) (some net10) 1400 none 254 0 0 0,
       Call.RouteListFiltered 2
         { Route.zero with LinkIndex := 5, Dst := some net10, Table := 254 } 1216,
       Call.RouteReplace route254m] ∧
    route254.MTU = 0 ∧ route254m.MTU = 1400 ∧
    Call.RouteAdd (newNlRoute route254m.LinkIndex route254m.Gw route254m.Dst route254m.MTU
      route254m.Src route254m.Table route254m.Priority route254m.Type_ route254m.Scope) ∉
      (sync simOps store5m [5] kernel5).2.2.calls ∧
    (sync simOps store5m [5] kernel5).2.2.kernel.routes = [route254m] := by
  decide

end RouteManager
